import Mathlib

namespace Flux

inductive TokenType where
  | Illegal | EOF
  | Identifier | Int | String
  | Assign | Plus | Minus | Bang | Asterisk | Slash
  | Lt | Gt | Eq | NotEq
  | Comma | Colon | Semicolon | LParen | RParen | LBrace | RBrace | LBracket | RBracket
  | Fn | Mut | True | False | If | Else | Return | While
  | Material | Context
deriving DecidableEq, Repr

structure Token where
  token_type : TokenType
  literal : String
deriving DecidableEq, Repr

mutual

inductive Statement where
  | Let (name : String) (value : Expression)
  | Return (value : Expression)
  | Expression (expression : Expression)
  | Assign (name : String) (value : Expression)

inductive Expression where
  | IntegerLiteral (i : Int)
  | Boolean (b : Bool)
  | Identifier (name : String)
  | Prefix (operator : String) (right : Expression)
  | Infix (left : Expression) (operator : String) (right : Expression)
  | If (condition : Expression) (consequence : BlockStatement) (alternative : Option BlockStatement)
  | FunctionLiteral (parameters : List String) (body : BlockStatement)
  | Call (function : Expression) (arguments : List Expression)
  | ArrayLiteral (elements : List Expression)
  | IndexExpression (left : Expression) (index : Expression)
  | While (condition : Expression) (body : BlockStatement)
  | StringLiteral (s : String)
  | HashLiteral (node : HashLiteral)

inductive BlockStatement where
  | mk (statements : List Statement)

inductive HashLiteral where
  | mk (pairs : List (Expression × Expression))

end

inductive HashKey where
  | Integer (i : Int)
  | Boolean (b : Bool)
  | String (s : String)
deriving DecidableEq, Repr

inductive BuiltinId where
  | print | input | len | int | readFile | writeFile | push | first | last | rest | importMod
deriving DecidableEq, Repr

mutual

inductive Object where
  | Integer (i : Int)
  | Boolean (b : Bool)
  | String (s : String)
  | Return (o : Object)
  | Error (msg : String)
  | Null
  | Function (parameters : List String) (body : BlockStatement) (env : Environment)
  | Builtin (b : BuiltinId)
  | Array (elements : List Object)
  | Hash (pairs : List (HashKey × Object))

inductive Environment where
  | mk (store : List (String × Object)) (outer : Option Environment)

end

/-- Association-list update used to model `HashMap::insert` (replace the
binding if the key is present, otherwise add it). -/
def storeInsert (store : List (String × Object)) (name : String) (val : Object) :
    List (String × Object) :=
  match store with
  | [] => [(name, val)]
  | (k, v) :: rest =>
    if k = name then (k, val) :: rest else (k, v) :: storeInsert rest name val

def storeLookup (store : List (String × Object)) (name : String) : Option Object :=
  match store with
  | [] => none
  | (k, v) :: rest => if k = name then some v else storeLookup rest name

def Environment.new : Environment := .mk [] none

def Environment.new_enclosed (outer : Environment) : Environment := .mk [] (some outer)

def Environment.store : Environment → List (String × Object)
  | .mk s _ => s

def Environment.outer : Environment → Option Environment
  | .mk _ o => o

def Environment.get : Environment → String → Option Object
  | .mk store outer, name =>
    match storeLookup store name with
    | some obj => some obj
    | none =>
      match outer with
      | some o => o.get name
      | none => none

def Environment.set : Environment → String → Object → Environment
  | .mk store outer, name, val => .mk (storeInsert store name val) outer

/-- `Environment::to_hash`: the current frame (only) as a `Hash` object with
`String` keys. -/
def Environment.to_hash (env : Environment) : Object :=
  Object.Hash (env.store.map (fun kv => (HashKey.String kv.1, kv.2)))

def get_hash_key (obj : Object) : Option HashKey :=
  match obj with
  | .Integer i => some (.Integer i)
  | .Boolean b => some (.Boolean b)
  | .String s => some (.String s)
  | _ => none

def is_truthy (obj : Object) : Bool :=
  match obj with
  | .Null => false
  | .Boolean true => true
  | .Boolean false => false
  | _ => true

def is_error (obj : Object) : Bool :=
  match obj with
  | .Error _ => true
  | _ => false

/-- Signed 64-bit wrap-around: the value of an i64 arithmetic result under
two's-complement wrapping.  (Debug builds of the source would abort on
overflow; release builds wrap.  No claim depends on overflow behaviour.) -/
def wrap64 (n : Int) : Int := (n + 2 ^ 63) % 2 ^ 64 - 2 ^ 63

def eval_prefix (op : String) (right : Object) : Object :=
  match op with
  | "!" =>
    match right with
    | .Boolean true => .Boolean false
    | .Boolean false => .Boolean true
    | .Null => .Boolean true
    | _ => .Boolean false
  | "-" =>
    match right with
    | .Integer val => .Integer (wrap64 (-val))
    | _ => .Error "Unknown operator: -"
  | _ => .Error ("Unknown operator: " ++ op)

/-- `eval_infix`.  Integer `/` is translated as truncating division
(`Int.div`), matching i64 division for a nonzero divisor; the source
would abort on division by zero, here it returns the junk value 0. -/
def eval_infix (op : String) (left right : Object) : Object :=
  match left, right with
  | .Integer l, .Integer r =>
    match op with
    | "+" => .Integer (wrap64 (l + r))
    | "-" => .Integer (wrap64 (l - r))
    | "*" => .Integer (wrap64 (l * r))
    | "/" => .Integer (wrap64 (Int.tdiv l r))
    | "<" => .Boolean (decide (l < r))
    | ">" => .Boolean (decide (l > r))
    | "==" => .Boolean (decide (l = r))
    | "!=" => .Boolean (decide (l ≠ r))
    | _ => .Error ("Unknown op: " ++ op)
  | .String l, .String r =>
    match op with
    | "+" => .String (l ++ r)
    | "==" => .Boolean (decide (l = r))
    | "!=" => .Boolean (decide (l ≠ r))
    | _ => .Error "Unknown string op"
  | .String l, .Integer r =>
    match op with
    | "+" => .String (l ++ toString r)
    | _ => .Error "Type mismatch"
  | .Integer l, .String r =>
    match op with
    | "+" => .String (toString l ++ r)
    | _ => .Error "Type mismatch"
  | .Boolean l, .Boolean r =>
    match op with
    | "==" => .Boolean (decide (l = r))
    | "!=" => .Boolean (decide (l ≠ r))
    | _ => .Error "Unknown op"
  | _, _ => .Error "Type mismatch"

def eval_index (left index : Object) : Object :=
  match left, index with
  | .Array arr, .Integer idx =>
    if idx < 0 ∨ idx ≥ (arr.length : Int) then .Null
    else arr.getD idx.toNat .Null
  | .Hash pairs, index_obj =>
    (match get_hash_key index_obj with
     | some key =>
       match pairs.lookup key with
       | some obj => obj
       | none => .Null
     | none => .Error "Unusable as hash key")
  | _, _ => .Error "Index operator not supported"

/-- Model of Rust `<i64 as FromStr>::from_str`: optional sign, one or more
ASCII digits, magnitude within the i64 range. -/
def digitsVal (digits : List Char) : Nat :=
  digits.foldl (fun acc c => 10 * acc + (c.toNat - '0'.toNat)) 0

def i64FromStr (s : String) : Option Int :=
  let (neg, digits) :=
    match s.data with
    | '+' :: r => (false, r)
    | '-' :: r => (true, r)
    | r => (false, r)
  if digits = [] then none
  else if digits.all (fun c => c.isDigit) then
    let n : Nat := digitsVal digits
    if neg then
      if n ≤ 2 ^ 63 then some (-(n : Int)) else none
    else
      if n ≤ 2 ^ 63 - 1 then some (n : Int) else none
  else none

def hashInsert (pairs : List (HashKey × Object)) (key : HashKey) (val : Object) :
    List (HashKey × Object) :=
  match pairs with
  | [] => [(key, val)]
  | (k, v) :: rest =>
    if k = key then (k, val) :: rest else (k, v) :: hashInsert rest key val

/-- The standard-library bindings of `builtins::new_environment`, in source
insertion order. -/
def new_environment : List (String × Object) :=
  [("print", .Builtin .print), ("input", .Builtin .input),
   ("len", .Builtin .len), ("int", .Builtin .int),
   ("read_file", .Builtin .readFile), ("write_file", .Builtin .writeFile),
   ("push", .Builtin .push), ("first", .Builtin .first),
   ("last", .Builtin .last), ("rest", .Builtin .rest),
   ("import", .Builtin .importMod)]

/-- The builtin functions of `builtins.rs` applied to an argument list.
Host I/O (stdin, the file system) is modelled as an empty world: `input`
reads an empty line, `read_file` takes the missing-file branch (empty
string), `write_file` takes the failed-write branch (`false`), and
`import` takes the missing-module branch.  `print` genuinely returns
`Null`.  No claim exercises these builtins on a non-empty world. -/
def applyBuiltin (b : BuiltinId) (args : List Object) : Object :=
  match b with
  | .print => .Null
  | .input => .String ""
  | .len =>
    match args with
    | [a] =>
      match a with
      | .String s => .Integer s.utf8ByteSize
      | .Array arr => .Integer arr.length
      | _ => .Error "argument to len() not supported"
    | _ => .Error "len() takes exactly 1 argument"
  | .int =>
    match args with
    | [a] =>
      match a with
      | .String s =>
        (match i64FromStr s with
         | some val => .Integer val
         | none => .Error ("Could not convert " ++ s ++ " to int"))
      | .Integer i => .Integer i
      | _ => .Error "Cannot convert to int"
    | _ => .Error "int() takes 1 arg"
  | .readFile =>
    match args with
    | [a] =>
      match a with
      | .String _ => .String ""
      | _ => .Error "Argument must be a string path"
    | _ => .Error "read_file takes 1 arg (path)"
  | .writeFile =>
    match args with
    | [a, b] =>
      match a with
      | .String _ =>
        (match b with
         | .String _ => .Boolean false
         | .Integer _ => .Boolean false
         | _ => .Error "Second arg must be content string")
      | _ => .Error "First arg must be path string"
    | _ => .Error "write_file takes 2 args (path, content)"
  | .push =>
    match args with
    | [a, v] =>
      match a with
      | .Array arr => .Array (arr ++ [v])
      | _ => .Error "First argument to push must be ARRAY"
    | _ => .Error "push takes 2 args (array, element)"
  | .first =>
    match args with
    | [a] =>
      match a with
      | .Array arr => if arr.length > 0 then arr.headD .Null else .Null
      | _ => .Error "Argument must be array"
    | _ => .Error "first takes 1 arg"
  | .last =>
    match args with
    | [a] =>
      match a with
      | .Array arr => if arr.length > 0 then arr.getLastD .Null else .Null
      | _ => .Error "Argument must be array"
    | _ => .Error "last takes 1 arg"
  | .rest =>
    match args with
    | [a] =>
      match a with
      | .Array arr => if arr.length > 0 then .Array arr.tail else .Null
      | _ => .Error "Argument must be array"
    | _ => .Error "rest takes 1 arg"
  | .importMod =>
    match args with
    | [a] =>
      match a with
      | .String filename => .Error ("Module " ++ filename ++ " not found")
      | _ => .Error "import path must be a string"
    | _ => .Error "import takes 1 arg (filename)"

def bind_params (env : Environment) : List String → List Object → Environment
  | [], _ => env
  | _, [] => env
  | p :: ps, a :: as_ => bind_params (env.set p a) ps as_

mutual

/-- `eval_program`, fuelled: `none` means the fuel ran out (the source loops
without bound). -/
def eval_program : Nat → List Statement → Environment → Option (Object × Environment)
  | 0, _, _ => none
  | f + 1, stmts, env => eval_program_loop f stmts env .Null

def eval_program_loop : Nat → List Statement → Environment → Object →
    Option (Object × Environment)
  | 0, _, _, _ => none
  | _ + 1, [], env, result => some (result, env)
  | f + 1, stmt :: rest, env, _ => do
    let (result, env1) ← eval_statement f stmt env
    match result with
    | .Return val => some (val, env1)
    | .Error _ => some (result, env1)
    | _ => eval_program_loop f rest env1 result

def eval_statement : Nat → Statement → Environment → Option (Object × Environment)
  | 0, _, _ => none
  | f + 1, stmt, env =>
    match stmt with
    | .Expression exp => eval f exp env
    | .Return val => do
      let (value, env1) ← eval f val env
      if is_error value then some (value, env1)
      else some (.Return value, env1)
    | .Let name value => do
      let (val, env1) ← eval f value env
      if is_error val then some (val, env1)
      else some (.Null, env1.set name val)
    | _ => some (.Null, env)

def eval : Nat → Expression → Environment → Option (Object × Environment)
  | 0, _, _ => none
  | f + 1, node, env =>
    match node with
    | .IntegerLiteral i => some (.Integer i, env)
    | .Boolean b => some (.Boolean b, env)
    | .StringLiteral s => some (.String s, env)
    | .Prefix op right => do
      let (rv, env1) ← eval f right env
      if is_error rv then some (rv, env1)
      else some ( eval_prefix op rv, env1)
    | .Infix l op r => do
      let (lv, env1) ← eval f l env
      if is_error lv then some (lv, env1)
      else do
        let (rv, env2) ← eval f r env1
        if is_error rv then some (rv, env2)
        else some ( eval_infix op lv rv, env2)
    | .Identifier name =>
      (match env.get name with
       | some obj => some (obj, env)
       | none => some (.Error ("Variable " ++ name ++ " not found"), env))
    | .If c cons alt => do
      let (cv, env1) ← eval f c env
      if is_error cv then some (cv, env1)
      else if is_truthy cv then eval_block f cons env1
      else
        match alt with
        | some a => eval_block f a env1
        | none => some (.Null, env1)
    | .While c body => eval_while_loop f c body env .Null
    | .FunctionLiteral ps body => some (.Function ps body env, env)
    | .Call fexp args => do
      let (fv, env1) ← eval f fexp env
      if is_error fv then some (fv, env1)
      else do
        let (argvals, env2) ← eval_expressions f args env1
        match argvals with
        | [a] =>
          if is_error a then some (a, env2)
          else do
            let r ← apply_function f fv argvals
            some (r, env2)
        | _ => do
          let r ← apply_function f fv argvals
          some (r, env2)
    | .ArrayLiteral elems => do
      let (vals, env1) ← eval_expressions f elems env
      match vals with
      | [a] =>
        if is_error a then some (a, env1)
        else some (.Array vals, env1)
      | _ => some (.Array vals, env1)
    | .IndexExpression l idx => do
      let (lv, env1) ← eval f l env
      if is_error lv then some (lv, env1)
      else do
        let (iv, env2) ← eval f idx env1
        if is_error iv then some (iv, env2)
        else some (eval_index lv iv, env2)
    | .HashLiteral node =>
      match node with
      | .mk pairs => eval_hash_loop f pairs env []

def eval_while_loop : Nat → Expression → BlockStatement → Environment → Object →
    Option (Object × Environment)
  | 0, _, _, _, _ => none
  | f + 1, c, body, env, result => do
    let (cv, env1) ← eval f c env
    if is_error cv then some (cv, env1)
    else if ¬ is_truthy cv then some (result, env1)
    else do
      let (r2, env2) ← eval_block f body env1
      match r2 with
      | .Return _ => some (r2, env2)
      | _ => eval_while_loop f c body env2 r2

def eval_expressions : Nat → List Expression → Environment →
    Option (List Object × Environment)
  | 0, _, _ => none
  | f + 1, exps, env => eval_expressions_loop f exps env []

def eval_expressions_loop : Nat → List Expression → Environment → List Object →
    Option (List Object × Environment)
  | 0, _, _, _ => none
  | _ + 1, [], env, acc => some (acc, env)
  | f + 1, e :: rest, env, acc => do
    let (v, env1) ← eval f e env
    if is_error v then some ([v], env1)
    else eval_expressions_loop f rest env1 (acc ++ [v])

def eval_block : Nat → BlockStatement → Environment → Option (Object × Environment)
  | 0, _, _ => none
  | f + 1, .mk stmts, env => eval_block_loop f stmts env .Null

def eval_block_loop : Nat → List Statement → Environment → Object →
    Option (Object × Environment)
  | 0, _, _, _ => none
  | _ + 1, [], env, result => some (result, env)
  | f + 1, s :: rest, env, _ => do
    let (result, env1) ← eval_statement f s env
    match result with
    | .Return _ => some (result, env1)
    | .Error _ => some (result, env1)
    | _ => eval_block_loop f rest env1 result

def eval_hash_loop : Nat → List (Expression × Expression) → Environment →
    List (HashKey × Object) → Option (Object × Environment)
  | 0, _, _, _ => none
  | _ + 1, [], env, acc => some (.Hash acc, env)
  | f + 1, (ke, ve) :: rest, env, acc => do
    let (kv, env1) ← eval f ke env
    if is_error kv then some (kv, env1)
    else
      match get_hash_key kv with
      | none => some (.Error "Unusable as hash key", env1)
      | some hk => do
        let (vv, env2) ← eval f ve env1
        if is_error vv then some (vv, env2)
        else eval_hash_loop f rest env2 (hashInsert acc hk vv)

def apply_function : Nat → Object → List Object → Option Object
  | 0, _, _ => none
  | f + 1, func, args =>
    match func with
    | .Function params body fenv => do
      let enclosed := bind_params (Environment.new_enclosed fenv) params args
      let (result, _) ← eval_block f body enclosed
      match result with
      | .Return val => some val
      | _ => some result
    | .Builtin b => some (applyBuiltin b args)
    | _ => some (.Error "Not a function")

end

/-- `Lexer` state: the input as a character list plus the scanning cursor,
as in `lexer.rs`. -/
structure Lexer where
  input : List Char
  position : Nat
  read_position : Nat
  ch : Char
deriving Repr

def Lexer.read_char (l : Lexer) : Lexer :=
  let c := if l.read_position ≥ l.input.length then '\x00'
           else l.input.getD l.read_position '\x00'
  { l with ch := c, position := l.read_position, read_position := l.read_position + 1 }

def Lexer.new (input : String) : Lexer :=
  Lexer.read_char { input := input.data, position := 0, read_position := 0, ch := '\x00' }

def Lexer.peek_char (l : Lexer) : Char :=
  if l.read_position ≥ l.input.length then '\x00'
  else l.input.getD l.read_position '\x00'

def is_letter (ch : Char) : Bool := ch.isAlpha ∨ ch = '_'

def is_digit (ch : Char) : Bool := ch.isDigit

def lookup_ident (ident : String) : TokenType :=
  match ident with
  | "fn" => .Fn
  | "mut" => .Mut
  | "if" => .If
  | "else" => .Else
  | "true" => .True
  | "false" => .False
  | "return" => .Return
  | "material" => .Material
  | "context" => .Context
  | "while" => .While
  | _ => .Identifier

/-- `skip_whitespace`, fuelled (each step advances the cursor; the fuel is
always chosen at least the input length plus two, which suffices). -/
def Lexer.skip_whitespace : Nat → Lexer → Lexer
  | 0, l => l
  | f + 1, l => if l.ch.isWhitespace then Lexer.skip_whitespace f l.read_char else l

def Lexer.read_span : Nat → Lexer → (Char → Bool) → Lexer
  | 0, l, _ => l
  | f + 1, l, p => if p l.ch then Lexer.read_span f l.read_char p else l

/-- `read_identifier`: consume letters and return (literal, new state). -/
def Lexer.read_identifier (fuel : Nat) (l : Lexer) : String × Lexer :=
  let l2 := Lexer.read_span fuel l is_letter
  (String.mk (l.input.drop l.position |>.take (l2.position - l.position)), l2)

def Lexer.read_number (fuel : Nat) (l : Lexer) : String × Lexer :=
  let l2 := Lexer.read_span fuel l is_digit
  (String.mk (l.input.drop l.position |>.take (l2.position - l.position)), l2)

/-- `read_string`: starting on the opening quote, advance until the closing
quote or end of input; the literal is the characters strictly between. -/
def Lexer.read_string_loop : Nat → Lexer → Lexer
  | 0, l => l
  | f + 1, l =>
    let l2 := l.read_char
    if l2.ch = '"' ∨ l2.ch = '\x00' then l2 else Lexer.read_string_loop f l2

def Lexer.read_string (fuel : Nat) (l : Lexer) : String × Lexer :=
  let pos := l.position + 1
  let l2 := Lexer.read_string_loop fuel l
  (String.mk (l.input.drop pos |>.take (l2.position - pos)), l2)

def Lexer.skip_comment (fuel : Nat) (l : Lexer) : Lexer :=
  let l2 := Lexer.read_span fuel l (fun c => ¬ (c = '\n' ∨ c = '\x00'))
  Lexer.skip_whitespace fuel l2

def Token.new (token_type : TokenType) (literal : String) : Token :=
  { token_type := token_type, literal := literal }

/-- `next_token`, fuelled (the recursion re-enters after a `//` comment). -/
def Lexer.next_token : Nat → Lexer → Token × Lexer
  | 0, l => (Token.new .EOF "", l)
  | f + 1, l0 =>
    let l := Lexer.skip_whitespace (l0.input.length + 2) l0
    if l.ch = '/' ∧ l.peek_char = '/' then
      Lexer.next_token f (Lexer.skip_comment (l.input.length + 2) l)
    else if is_letter l.ch then
      let (literal, l2) := Lexer.read_identifier (l.input.length + 2) l
      ({ token_type := lookup_ident literal, literal := literal }, l2)
    else if is_digit l.ch then
      let (literal, l2) := Lexer.read_number (l.input.length + 2) l
      ({ token_type := .Int, literal := literal }, l2)
    else
      let (tok, l2) :=
        match l.ch with
        | '=' =>
          if l.peek_char = '=' then (Token.new .Eq "==", l.read_char)
          else (Token.new .Assign "=", l)
        | '!' =>
          if l.peek_char = '=' then (Token.new .NotEq "!=", l.read_char)
          else (Token.new .Illegal "!", l)
        | '"' =>
          let (str_lit, ls) := Lexer.read_string (l.input.length + 2) l
          (Token.new .String str_lit, ls)
        | '+' => (Token.new .Plus "+", l)
        | '-' => (Token.new .Minus "-", l)
        | '*' => (Token.new .Asterisk "*", l)
        | '/' => (Token.new .Slash "/", l)
        | '<' => (Token.new .Lt "<", l)
        | '>' => (Token.new .Gt ">", l)
        | ',' => (Token.new .Comma ",", l)
        | ':' => (Token.new .Colon ":", l)
        | '(' => (Token.new .LParen "(", l)
        | ')' => (Token.new .RParen ")", l)
        | '{' => (Token.new .LBrace "\x7b", l)
        | '}' => (Token.new .RBrace "\x7d", l)
        | '[' => (Token.new .LBracket "[", l)
        | ']' => (Token.new .RBracket "]", l)
        | '\x00' => (Token.new .EOF "", l)
        | _ => (Token.new .Illegal "", l)
      (tok, l2.read_char)

/-- `next_token` with the standard fuel: enough for any chain of comments in
the remaining input. -/
def Lexer.next_token_auto (l : Lexer) : Token × Lexer :=
  Lexer.next_token (l.input.length + 2) l

inductive Precedence where
  | Lowest | Equals | LessGreater | Sum | Product | Prefix | Call | Index
deriving DecidableEq, Repr

/-- The discriminant order of the `Precedence` enum (its derived
`PartialOrd`). -/
def Precedence.val : Precedence → Nat
  | .Lowest => 0 | .Equals => 1 | .LessGreater => 2 | .Sum => 3
  | .Product => 4 | .Prefix => 5 | .Call => 6 | .Index => 7

def precLt (a b : Precedence) : Bool := a.val < b.val

def token_precedence (t : TokenType) : Precedence :=
  match t with
  | .Eq | .NotEq => .Equals
  | .Lt | .Gt => .LessGreater
  | .Plus | .Minus => .Sum
  | .Slash | .Asterisk => .Product
  | .LParen => .Call
  | .LBracket => .Index
  | _ => .Lowest

structure Parser where
  l : Lexer
  cur_token : Token
  peek_token : Token
  errors : List String
deriving Repr

def Parser.new (l : Lexer) : Parser :=
  let (cur_token, l1) := l.next_token_auto
  let (peek_token, l2) := l1.next_token_auto
  { l := l2, cur_token := cur_token, peek_token := peek_token, errors := [] }

def Parser.next_token (p : Parser) : Parser :=
  let (t, l2) := p.l.next_token_auto
  { p with cur_token := p.peek_token, peek_token := t, l := l2 }

def Parser.expect_peek (p : Parser) (t : TokenType) : Bool × Parser :=
  if p.peek_token.token_type = t then (true, p.next_token) else (false, p)

def Parser.skip_semicolon (p : Parser) : Parser :=
  if p.peek_token.token_type = .Semicolon then p.next_token else p

mutual

def parse_program : Nat → Parser → List Statement × Parser
  | 0, p => ([], p)
  | f + 1, p =>
    if p.cur_token.token_type ≠ .EOF then
      let (stmtOpt, p1) := parse_statement f p
      let p2 := p1.next_token
      let (rest, p3) := parse_program f p2
      (match stmtOpt with
       | some s => s :: rest
       | none => rest, p3)
    else ([], p)

def parse_statement : Nat → Parser → Option Statement × Parser
  | 0, p => (none, p)
  | f + 1, p =>
    match p.cur_token.token_type with
    | .Mut => parse_let_statement f p
    | .Return => parse_return_statement f p
    | .Identifier =>
      if p.peek_token.token_type = .Assign then parse_assignment_statement f p
      else parse_expression_statement f p
    | _ => parse_expression_statement f p

def parse_assignment_statement : Nat → Parser → Option Statement × Parser
  | 0, p => (none, p)
  | f + 1, p =>
    let name := p.cur_token.literal
    let p1 := p.next_token.next_token
    match parse_expression f .Lowest p1 with
    | (none, p2) => (none, p2)
    | (some value, p2) => (some (.Assign name value), p2.skip_semicolon)

def parse_let_statement : Nat → Parser → Option Statement × Parser
  | 0, p => (none, p)
  | f + 1, p =>
    let p1 := p.next_token
    match p1.cur_token.token_type with
    | .Identifier =>
      let name := p1.cur_token.literal
      let p2 := p1.next_token
      if p2.cur_token.token_type ≠ .Assign then (none, p2)
      else
        let p3 := p2.next_token
        match parse_expression f .Lowest p3 with
        | (none, p4) => (none, p4)
        | (some value, p4) => (some (.Let name value), p4.skip_semicolon)
    | _ => (none, p1)

def parse_return_statement : Nat → Parser → Option Statement × Parser
  | 0, p => (none, p)
  | f + 1, p =>
    let p1 := p.next_token
    match parse_expression f .Lowest p1 with
    | (none, p2) => (none, p2)
    | (some value, p2) => (some (.Return value), p2.skip_semicolon)

def parse_expression_statement : Nat → Parser → Option Statement × Parser
  | 0, p => (none, p)
  | f + 1, p =>
    match parse_expression f .Lowest p with
    | (none, p1) => (none, p1)
    | (some expr, p1) => (some (.Expression expr), p1.skip_semicolon)

def parse_expression : Nat → Precedence → Parser → Option Expression × Parser
  | 0, _, p => (none, p)
  | f + 1, precedence, p =>
    let (left, p1) :=
      match p.cur_token.token_type with
      | .Identifier => (some (Expression.Identifier p.cur_token.literal), p)
      | .Int => (some (Expression.IntegerLiteral ((i64FromStr p.cur_token.literal).getD 0)), p)
      | .String => (some (Expression.StringLiteral p.cur_token.literal), p)
      | .True => (some (Expression.Boolean true), p)
      | .False => (some (Expression.Boolean false), p)
      | .Bang => parse_prefix_expression f p
      | .Minus => parse_prefix_expression f p
      | .LParen => parse_grouped_expression f p
      | .If => parse_if_expression f p
      | .Fn => parse_function_literal f p
      | .LBracket => parse_array_literal f p
      | .LBrace => parse_hash_literal f p
      | .While => parse_while_expression f p
      | _ => (none, p)
    match left with
    | none => (none, p1)
    | some left_expr => parse_infix_loop f precedence left_expr p1

def parse_infix_loop : Nat → Precedence → Expression → Parser → Option Expression × Parser
  | 0, _, left_expr, p => (some left_expr, p)
  | f + 1, precedence, left_expr, p =>
    if p.peek_token.token_type ≠ .Semicolon ∧
        precLt precedence (token_precedence p.peek_token.token_type) then
      match p.peek_token.token_type with
      | .Plus | .Minus | .Slash | .Asterisk | .Eq | .NotEq | .Lt | .Gt =>
        let p1 := p.next_token
        (match parse_infix_expression f left_expr p1 with
         | (none, p2) => (none, p2)
         | (some e2, p2) => parse_infix_loop f precedence e2 p2)
      | .LParen =>
        let p1 := p.next_token
        (match parse_call_expression f left_expr p1 with
         | (none, p2) => (none, p2)
         | (some e2, p2) => parse_infix_loop f precedence e2 p2)
      | .LBracket =>
        let p1 := p.next_token
        (match parse_index_expression f left_expr p1 with
         | (none, p2) => (none, p2)
         | (some e2, p2) => parse_infix_loop f precedence e2 p2)
      | _ => (some left_expr, p)
    else (some left_expr, p)

def parse_prefix_expression : Nat → Parser → Option Expression × Parser
  | 0, p => (none, p)
  | f + 1, p =>
    let operator := p.cur_token.literal
    let p1 := p.next_token
    match parse_expression f .Prefix p1 with
    | (none, p2) => (none, p2)
    | (some right, p2) => (some (.Prefix operator right), p2)

def parse_infix_expression : Nat → Expression → Parser → Option Expression × Parser
  | 0, _, p => (none, p)
  | f + 1, left, p =>
    let operator := p.cur_token.literal
    let precedence := token_precedence p.cur_token.token_type
    let p1 := p.next_token
    match parse_expression f precedence p1 with
    | (none, p2) => (none, p2)
    | (some right, p2) => (some (.Infix left operator right), p2)

def parse_grouped_expression : Nat → Parser → Option Expression × Parser
  | 0, p => (none, p)
  | f + 1, p =>
    let p1 := p.next_token
    let (exp, p2) := parse_expression f .Lowest p1
    let p3 := if p2.peek_token.token_type = .RParen then p2.next_token else p2
    (exp, p3)

def parse_if_expression : Nat → Parser → Option Expression × Parser
  | 0, p => (none, p)
  | f + 1, p =>
    match p.expect_peek .LParen with
    | (false, p1) => (none, p1)
    | (true, p1) =>
      let p2 := p1.next_token
      match parse_expression f .Lowest p2 with
      | (none, p3) => (none, p3)
      | (some condition, p3) =>
        match p3.expect_peek .RParen with
        | (false, p4) => (none, p4)
        | (true, p4) =>
          match p4.expect_peek .LBrace with
          | (false, p5) => (none, p5)
          | (true, p5) =>
            let (consequence, p6) := parse_block_statement f p5
            if p6.peek_token.token_type = .Else then
              let p7 := p6.next_token
              match p7.expect_peek .LBrace with
              | (false, p8) => (none, p8)
              | (true, p8) =>
                let (alternative, p9) := parse_block_statement f p8
                (some (.If condition consequence (some alternative)), p9)
            else (some (.If condition consequence none), p6)

def parse_while_expression : Nat → Parser → Option Expression × Parser
  | 0, p => (none, p)
  | f + 1, p =>
    match p.expect_peek .LParen with
    | (false, p1) => (none, p1)
    | (true, p1) =>
      let p2 := p1.next_token
      match parse_expression f .Lowest p2 with
      | (none, p3) => (none, p3)
      | (some condition, p3) =>
        match p3.expect_peek .RParen with
        | (false, p4) => (none, p4)
        | (true, p4) =>
          match p4.expect_peek .LBrace with
          | (false, p5) => (none, p5)
          | (true, p5) =>
            let (body, p6) := parse_block_statement f p5
            (some (.While condition body), p6)

def parse_block_statement : Nat → Parser → BlockStatement × Parser
  | 0, p => (.mk [], p)
  | f + 1, p => parse_block_loop f p.next_token

def parse_block_loop : Nat → Parser → BlockStatement × Parser
  | 0, p => (.mk [], p)
  | f + 1, p =>
    if p.cur_token.token_type ≠ .RBrace ∧ p.cur_token.token_type ≠ .EOF then
      let (stmtOpt, p1) := parse_statement f p
      let p2 := p1.next_token
      let (rest, p3) := parse_block_loop f p2
      (match rest with
       | .mk stmts =>
         match stmtOpt with
         | some s => (BlockStatement.mk (s :: stmts), p3)
         | none => (BlockStatement.mk stmts, p3))
    else (.mk [], p)

def parse_function_literal : Nat → Parser → Option Expression × Parser
  | 0, p => (none, p)
  | f + 1, p =>
    match p.expect_peek .LParen with
    | (false, p1) => (none, p1)
    | (true, p1) =>
      match parse_function_parameters f p1 with
      | (none, p2) => (none, p2)
      | (some parameters, p2) =>
        match p2.expect_peek .LBrace with
        | (false, p3) => (none, p3)
        | (true, p3) =>
          let (body, p4) := parse_block_statement f p3
          (some (.FunctionLiteral parameters body), p4)

def parse_function_parameters : Nat → Parser → Option (List String) × Parser
  | 0, p => (none, p)
  | f + 1, p =>
    if p.peek_token.token_type = .RParen then (some [], p.next_token)
    else
      let p1 := p.next_token
      let first := p1.cur_token.literal
      let (rest, p2) := parse_params_loop f p1
      match p2.expect_peek .RParen with
      | (false, p3) => (none, p3)
      | (true, p3) => (some (first :: rest), p3)

def parse_params_loop : Nat → Parser → List String × Parser
  | 0, p => ([], p)
  | f + 1, p =>
    if p.peek_token.token_type = .Comma then
      let p1 := p.next_token.next_token
      let (rest, p2) := parse_params_loop f p1
      (p1.cur_token.literal :: rest, p2)
    else ([], p)

def parse_call_expression : Nat → Expression → Parser → Option Expression × Parser
  | 0, _, p => (none, p)
  | f + 1, function, p =>
    match parse_expression_list f .RParen p with
    | (none, p1) => (none, p1)
    | (some arguments, p1) => (some (.Call function arguments), p1)

def parse_array_literal : Nat → Parser → Option Expression × Parser
  | 0, p => (none, p)
  | f + 1, p =>
    match parse_expression_list f .RBracket p with
    | (none, p1) => (none, p1)
    | (some elements, p1) => (some (.ArrayLiteral elements), p1)

def parse_hash_literal : Nat → Parser → Option Expression × Parser
  | 0, p => (none, p)
  | f + 1, p =>
    if p.peek_token.token_type = .RBrace then
      (some (.HashLiteral (.mk [])), p.next_token.next_token)
    else parse_hash_loop f p.next_token []

def parse_hash_loop : Nat → Parser → List (Expression × Expression) →
    Option Expression × Parser
  | 0, p, _ => (none, p)
  | f + 1, p, pairs =>
    match parse_expression f .Lowest p with
    | (none, p1) => (none, p1)
    | (some key, p1) =>
      match p1.expect_peek .Colon with
      | (false, p2) => (none, p2)
      | (true, p2) =>
        let p3 := p2.next_token
        match parse_expression f .Lowest p3 with
        | (none, p4) => (none, p4)
        | (some value, p4) =>
          let pairs2 := pairs ++ [(key, value)]
          if p4.peek_token.token_type = .RBrace then
            (some (.HashLiteral (.mk pairs2)), p4.next_token)
          else
            match p4.expect_peek .Comma with
            | (false, p5) => (none, p5)
            | (true, p5) => parse_hash_loop f p5.next_token pairs2

def parse_expression_list : Nat → TokenType → Parser → Option (List Expression) × Parser
  | 0, _, p => (none, p)
  | f + 1, endTok, p =>
    if p.peek_token.token_type = endTok then (some [], p.next_token)
    else
      let p1 := p.next_token
      match parse_expression f .Lowest p1 with
      | (none, p2) => (none, p2)
      | (some first, p2) =>
        match parse_list_loop f p2 with
        | (none, p3) => (none, p3)
        | (some rest, p3) =>
          match p3.expect_peek endTok with
          | (false, p4) => (none, p4)
          | (true, p4) => (some (first :: rest), p4)

def parse_list_loop : Nat → Parser → Option (List Expression) × Parser
  | 0, p => (none, p)
  | f + 1, p =>
    if p.peek_token.token_type = .Comma then
      let p1 := p.next_token.next_token
      match parse_expression f .Lowest p1 with
      | (none, p2) => (none, p2)
      | (some e, p2) =>
        match parse_list_loop f p2 with
        | (none, p3) => (none, p3)
        | (some rest, p3) => (some (e :: rest), p3)
    else (some [], p)

def parse_index_expression : Nat → Expression → Parser → Option Expression × Parser
  | 0, _, p => (none, p)
  | f + 1, left, p =>
    let p1 := p.next_token
    match parse_expression f .Lowest p1 with
    | (none, p2) => (none, p2)
    | (some index, p2) =>
      match p2.expect_peek .RBracket with
      | (false, p3) => (none, p3)
      | (true, p3) => (some (.IndexExpression left index), p3)

end

/-- Parse a whole source string: `Parser::new(Lexer::new(input))` followed by
`parse_program`, with fuel proportional to the input size. -/
def parse_source (fuel : Nat) (input : String) : List Statement × Parser :=
  parse_program fuel (Parser.new (Lexer.new input))

mutual

def stmtEq : Statement → Statement → Bool
  | .Let n1 v1, .Let n2 v2 => n1 = n2 && exprEq v1 v2
  | .Return v1, .Return v2 => exprEq v1 v2
  | .Expression e1, .Expression e2 => exprEq e1 e2
  | .Assign n1 v1, .Assign n2 v2 => n1 = n2 && exprEq v1 v2
  | _, _ => false

def exprEq : Expression → Expression → Bool
  | .IntegerLiteral a, .IntegerLiteral b => a = b
  | .Boolean a, .Boolean b => a = b
  | .Identifier a, .Identifier b => a = b
  | .Prefix o1 r1, .Prefix o2 r2 => o1 = o2 && exprEq r1 r2
  | .Infix l1 o1 r1, .Infix l2 o2 r2 => exprEq l1 l2 && o1 = o2 && exprEq r1 r2
  | .If c1 t1 a1, .If c2 t2 a2 =>
    exprEq c1 c2 && blockEq t1 t2 &&
    (match a1, a2 with
     | some b1, some b2 => blockEq b1 b2
     | none, none => true
     | _, _ => false)
  | .FunctionLiteral p1 b1, .FunctionLiteral p2 b2 => p1 = p2 && blockEq b1 b2
  | .Call f1 a1, .Call f2 a2 => exprEq f1 f2 && exprListEq a1 a2
  | .ArrayLiteral a1, .ArrayLiteral a2 => exprListEq a1 a2
  | .IndexExpression l1 i1, .IndexExpression l2 i2 => exprEq l1 l2 && exprEq i1 i2
  | .While c1 b1, .While c2 b2 => exprEq c1 c2 && blockEq b1 b2
  | .StringLiteral a, .StringLiteral b => a = b
  | .HashLiteral (.mk p1), .HashLiteral (.mk p2) => exprPairListEq p1 p2
  | _, _ => false

def exprListEq : List Expression → List Expression → Bool
  | [], [] => true
  | a :: as_, b :: bs => exprEq a b && exprListEq as_ bs
  | _, _ => false

def exprPairListEq : List (Expression × Expression) → List (Expression × Expression) → Bool
  | [], [] => true
  | (k1, v1) :: r1, (k2, v2) :: r2 => exprEq k1 k2 && exprEq v1 v2 && exprPairListEq r1 r2
  | _, _ => false

def blockEq : BlockStatement → BlockStatement → Bool
  | .mk s1, .mk s2 => stmtListEq s1 s2

def stmtListEq : List Statement → List Statement → Bool
  | [], [] => true
  | a :: as_, b :: bs => stmtEq a b && stmtListEq as_ bs
  | _, _ => false

end

def hashGet (pairs : List (HashKey × Object)) (key : HashKey) : Option Object :=
  match pairs with
  | [] => none
  | (k, v) :: rest => if k = key then some v else hashGet rest key

mutual

/-- Model of the derived `PartialEq` on `Object` (used by the VM for
`OpEqual` / `OpNotEqual`).  `Hash` equality mirrors `HashMap`: equal sizes
and every key of the left mapped to an equal value in the right. -/
def objEq : Object → Object → Bool
  | .Integer a, .Integer b => a = b
  | .Boolean a, .Boolean b => a = b
  | .String a, .String b => a = b
  | .Return a, .Return b => objEq a b
  | .Error a, .Error b => a = b
  | .Null, .Null => true
  | .Function p1 b1 e1, .Function p2 b2 e2 => p1 = p2 && blockEq b1 b2 && envEq e1 e2
  | .Builtin a, .Builtin b => a = b
  | .Array a, .Array b => objListEq a b
  | .Hash a, .Hash b => a.length = b.length && hashIncl a b
  | _, _ => false

def objListEq : List Object → List Object → Bool
  | [], [] => true
  | a :: as_, b :: bs => objEq a b && objListEq as_ bs
  | _, _ => false

def hashIncl : List (HashKey × Object) → List (HashKey × Object) → Bool
  | [], _ => true
  | (k, v) :: rest, b =>
    (match hashGet b k with
     | some w => objEq v w
     | none => false) && hashIncl rest b

def envEq : Environment → Environment → Bool
  | .mk s1 o1, .mk s2 o2 =>
    s1.length = s2.length && storeIncl s1 s2 &&
    (match o1, o2 with
     | some e1, some e2 => envEq e1 e2
     | none, none => true
     | _, _ => false)

def storeIncl : List (String × Object) → List (String × Object) → Bool
  | [], _ => true
  | (k, v) :: rest, b =>
    (match storeLookup b k with
     | some w => objEq v w
     | none => false) && storeIncl rest b

end

-- The bytecode ISA of code.rs ------------------------------------------------
def OP_CONSTANT : Nat := 0

def OP_ADD : Nat := 1

def OP_POP : Nat := 2

def OP_TRUE : Nat := 3

def OP_FALSE : Nat := 4

def OP_EQUAL : Nat := 5

def OP_NOT_EQUAL : Nat := 6

def OP_GREATER_THAN : Nat := 7

def OP_JUMP_NOT_TRUTHY : Nat := 8

def OP_JUMP : Nat := 9

def OP_GET_GLOBAL : Nat := 10

def OP_SET_GLOBAL : Nat := 11

structure Definition where
  name : String
  operand_widths : List Nat
deriving DecidableEq, Repr

def lookup (op : Nat) : Option Definition :=
  match op with
  | 0 => some { name := "OpConstant", operand_widths := [2] }
  | 1 => some { name := "OpAdd", operand_widths := [] }
  | 2 => some { name := "OpPop", operand_widths := [] }
  | 3 => some { name := "OpTrue", operand_widths := [] }
  | 4 => some { name := "OpFalse", operand_widths := [] }
  | 5 => some { name := "OpEqual", operand_widths := [] }
  | 6 => some { name := "OpNotEqual", operand_widths := [] }
  | 7 => some { name := "OpGreaterThan", operand_widths := [] }
  | 8 => some { name := "OpJumpNotTruthy", operand_widths := [2] }
  | 9 => some { name := "OpJump", operand_widths := [2] }
  | 10 => some { name := "OpGetGlobal", operand_widths := [2] }
  | 11 => some { name := "OpSetGlobal", operand_widths := [2] }
  | _ => none

/-- The operand region written by `make`: the zero-initialised buffer with
each operand written big-endian at its slot.  `(o >> 8) & 0xFF` and
`o & 0xFF` are translated as `o / 256 % 256` and `o % 256`.  If the operand
list is shorter than the width table the remaining slots stay zero, as in
the source; extra operands (which would index out of bounds and abort) are
ignored. -/
def makeOperandBytes : List Nat → List Nat → List Nat
  | [], _ => []
  | 2 :: ws, o :: os => o / 256 % 256 :: o % 256 :: makeOperandBytes ws os
  | w :: ws, [] => List.replicate w 0 ++ makeOperandBytes ws []
  | w :: ws, _ :: os => List.replicate w 0 ++ makeOperandBytes ws os

def make (op : Nat) (operands : List Nat) : List Nat :=
  match lookup op with
  | none => []
  | some d => op :: makeOperandBytes d.operand_widths operands

/-- `read_operands`: walk the width table decoding big-endian operands.
`read_u16` out-of-bounds indexing (an abort in the source) is modelled by
reading zeros. -/
def read_operands_go : List Nat → List Nat → Nat → List Nat × Nat
  | [], _, offset => ([], offset)
  | 2 :: ws, ins, offset =>
    let val := ins.getD offset 0 * 256 + ins.getD (offset + 1) 0
    let (rest, off2) := read_operands_go ws ins (offset + 2)
    (val :: rest, off2)
  | w :: ws, ins, offset => read_operands_go ws ins (offset + w)

def read_operands (d : Definition) (ins : List Nat) : List Nat × Nat :=
  read_operands_go d.operand_widths ins 0

-- symbol_table.rs ------------------------------------------------------------
inductive SymbolScope where
  | Global
deriving DecidableEq, Repr

structure Symbol where
  name : String
  scope : SymbolScope
  index : Nat
deriving DecidableEq, Repr

def symInsert (store : List (String × Symbol)) (name : String) (sym : Symbol) :
    List (String × Symbol) :=
  match store with
  | [] => [(name, sym)]
  | (k, v) :: rest =>
    if k = name then (k, sym) :: rest else (k, v) :: symInsert rest name sym

def symLookup (store : List (String × Symbol)) (name : String) : Option Symbol :=
  match store with
  | [] => none
  | (k, v) :: rest => if k = name then some v else symLookup rest name

structure SymbolTable where
  store : List (String × Symbol)
  num_definitions : Nat
deriving DecidableEq, Repr

def SymbolTable.new : SymbolTable := { store := [], num_definitions := 0 }

def SymbolTable.define (t : SymbolTable) (name : String) : Symbol × SymbolTable :=
  let symbol : Symbol := { name := name, scope := .Global, index := t.num_definitions }
  (symbol, { store := symInsert t.store name symbol,
             num_definitions := t.num_definitions + 1 })

def SymbolTable.resolve (t : SymbolTable) (name : String) : Option Symbol :=
  symLookup t.store name

-- compiler.rs ----------------------------------------------------------------
structure EmittedInstruction where
  opcode : Nat
  position : Nat
deriving DecidableEq, Repr

structure Compiler where
  instructions : List Nat
  constants : List Object
  symbol_table : SymbolTable
  last_instruction : Option EmittedInstruction
  previous_instruction : Option EmittedInstruction

def Compiler.new : Compiler :=
  { instructions := [], constants := [], symbol_table := SymbolTable.new,
    last_instruction := none, previous_instruction := none }

def Compiler.add_constant (c : Compiler) (obj : Object) : Compiler × Nat :=
  ({ c with constants := c.constants ++ [obj] }, c.constants.length)

def Compiler.emit (c : Compiler) (op : Nat) (operands : List Nat) : Compiler × Nat :=
  let ins := make op operands
  let pos := c.instructions.length
  ({ c with
      instructions := c.instructions ++ ins,
      previous_instruction := c.last_instruction,
      last_instruction := some { opcode := op, position := pos } }, pos)

/-- Overwrite bytes of a list starting at a position (`List.set` ignores an
out-of-range index; `change_operand` only ever writes in bounds). -/
def listOverwrite : List Nat → Nat → List Nat → List Nat
  | l, _, [] => l
  | l, pos, b :: bs => listOverwrite (l.set pos b) (pos + 1) bs

def Compiler.change_operand (c : Compiler) (op_pos operand : Nat) : Compiler :=
  let op := c.instructions.getD op_pos 0
  let new_instruction := make op [operand]
  { c with instructions := listOverwrite c.instructions op_pos new_instruction }

def Compiler.last_instruction_is_pop (c : Compiler) : Bool :=
  match c.last_instruction with
  | some ins => ins.opcode = OP_POP
  | none => false

def Compiler.remove_last_pop (c : Compiler) : Compiler :=
  match c.last_instruction with
  | some ins =>
    { c with
        instructions := c.instructions.take ins.position,
        last_instruction := c.previous_instruction }
  | none => c

mutual

def compile_statement : Statement → Compiler → Except String Compiler
  | .Let name value, c => do
    let c1 ← compile_expression value c
    let (symbol, tab) := c1.symbol_table.define name
    let c2 := { c1 with symbol_table := tab }
    pure (c2.emit OP_SET_GLOBAL [symbol.index]).1
  | .Expression exp, c =>
    -- the `OP_POP` emission is commented out in the source
    compile_expression exp c
  | _, _ => throw "Statement type not implemented yet"

def compile_expression : Expression → Compiler → Except String Compiler
  | .Infix left operator right, c =>
    if operator = "<" then do
      let c1 ← compile_expression right c
      let c2 ← compile_expression left c1
      pure (c2.emit OP_GREATER_THAN []).1
    else do
      let c1 ← compile_expression left c
      let c2 ← compile_expression right c1
      match operator with
      | "+" => pure (c2.emit OP_ADD []).1
      | "==" => pure (c2.emit OP_EQUAL []).1
      | "!=" => pure (c2.emit OP_NOT_EQUAL []).1
      | ">" => pure (c2.emit OP_GREATER_THAN []).1
      | _ => throw ("Unknown operator: " ++ operator)
  | .IntegerLiteral value, c =>
    let (c1, const_index) := c.add_constant (.Integer value)
    pure (c1.emit OP_CONSTANT [const_index]).1
  | .Boolean true, c => pure (c.emit OP_TRUE []).1
  | .Boolean false, c => pure (c.emit OP_FALSE []).1
  | .Identifier name, c =>
    (match c.symbol_table.resolve name with
     | some symbol => pure (c.emit OP_GET_GLOBAL [symbol.index]).1
     | none => throw ("Undefined variable: " ++ name))
  | .If condition consequence alternative, c => do
    let c1 ← compile_expression condition c
    let (c2, jump_not_truthy_pos) := c1.emit OP_JUMP_NOT_TRUTHY [9999]
    let c3 ← compile_block consequence c2
    let c4 := if c3.last_instruction_is_pop then c3.remove_last_pop else c3
    let (c5, jump_pos) := c4.emit OP_JUMP [9999]
    let after_consequence_pos := c5.instructions.length
    let c6 := c5.change_operand jump_not_truthy_pos after_consequence_pos
    let c7 ←
      match alternative with
      | some alt => do
        let ca ← compile_block alt c6
        pure (if ca.last_instruction_is_pop then ca.remove_last_pop else ca)
      | none => do
        let (ca, null_idx) := c6.add_constant .Null
        pure (ca.emit OP_CONSTANT [null_idx]).1
    let after_alternative_pos := c7.instructions.length
    pure (c7.change_operand jump_pos after_alternative_pos)
  | _, _ => throw "Expression type not implemented yet"

def compile_block : BlockStatement → Compiler → Except String Compiler
  | .mk stmts, c => compile_stmt_list stmts c

def compile_stmt_list : List Statement → Compiler → Except String Compiler
  | [], c => pure c
  | stmt :: rest, c => do
    let c1 ← compile_statement stmt c
    compile_stmt_list rest c1

end

/-- `Compiler::compile` on a fresh compiler. -/
def compile_program (program : List Statement) : Except String Compiler :=
  compile_stmt_list program Compiler.new

-- vm.rs ----------------------------------------------------------------------
def STACK_SIZE : Nat := 2048

def GLOBALS_SIZE : Nat := 65536

/-- VM state.  The stack models `stack[0..sp]` top-first (slots above `sp`
are never read by the source); the globals array (65536 slots, all `Null`)
is modelled as a total function — every index the VM can decode is a u16,
hence in bounds. -/
structure VM where
  constants : List Object
  instructions : List Nat
  stack : List Object
  globals : Nat → Object

def VM.new (bytecode : Compiler) : VM :=
  { constants := bytecode.constants, instructions := bytecode.instructions,
    stack := [], globals := fun _ => .Null }

def VM.stack_top (vm : VM) : Option Object := vm.stack.head?

def VM.push (vm : VM) (obj : Object) : Except String VM :=
  if vm.stack.length ≥ STACK_SIZE then .error "Stack Overflow"
  else .ok { vm with stack := obj :: vm.stack }

def VM.pop (vm : VM) : Object × VM :=
  match vm.stack with
  | [] => (.Null, vm)
  | h :: t => (h, { vm with stack := t })

def VM.is_truthy (obj : Object) : Bool :=
  match obj with
  | .Boolean b => b
  | .Null => false
  | _ => true

def execute_binary_operation (left right : Object) : Except String Object :=
  match left, right with
  | .Integer l, .Integer r => .ok (.Integer (wrap64 (l + r)))
  | _, _ => .error "Type mismatch or unsupported operation"

/-- One iteration of the `run` loop at instruction pointer `ip < len`:
returns the next `ip` and machine state, or the run-time error.  Reading a
byte or constant out of bounds would abort the source process; it is
modelled as a distinguished error. -/
def VM.exec_instruction (vm : VM) (ip : Nat) : Except String (Nat × VM) :=
  match vm.instructions.get? ip with
  | none => .error "panic: instruction fetch out of bounds"
  | some op =>
    let ip := ip + 1
    if op = OP_CONSTANT then
      match vm.instructions.get? ip, vm.instructions.get? (ip + 1) with
      | some b0, some b1 =>
        let const_index := b0 * 256 + b1
        (match vm.constants.get? const_index with
         | some obj => do
           let vm2 ← vm.push obj
           pure (ip + 2, vm2)
         | none => .error "panic: constant index out of bounds")
      | _, _ => .error "panic: operand fetch out of bounds"
    else if op = OP_POP then
      pure (ip, (vm.pop).2)
    else if op = OP_ADD then do
      let (right, vm1) := vm.pop
      let (left, vm2) := vm1.pop
      let result ← execute_binary_operation left right
      let vm3 ← vm2.push result
      pure (ip, vm3)
    else if op = OP_TRUE then do
      let vm1 ← vm.push (.Boolean true)
      pure (ip, vm1)
    else if op = OP_FALSE then do
      let vm1 ← vm.push (.Boolean false)
      pure (ip, vm1)
    else if op = OP_EQUAL then do
      let (right, vm1) := vm.pop
      let (left, vm2) := vm1.pop
      let vm3 ← vm2.push (.Boolean (objEq left right))
      pure (ip, vm3)
    else if op = OP_NOT_EQUAL then do
      let (right, vm1) := vm.pop
      let (left, vm2) := vm1.pop
      let vm3 ← vm2.push (.Boolean (! objEq left right))
      pure (ip, vm3)
    else if op = OP_GREATER_THAN then
      let (right, vm1) := vm.pop
      let (left, vm2) := vm1.pop
      match left, right with
      | .Integer l, .Integer r => do
        let vm3 ← vm2.push (.Boolean (decide (l > r)))
        pure (ip, vm3)
      | _, _ => .error "Type mismatch for >"
    else if op = OP_JUMP then
      match vm.instructions.get? ip, vm.instructions.get? (ip + 1) with
      | some b0, some b1 => pure (b0 * 256 + b1, vm)
      | _, _ => .error "panic: operand fetch out of bounds"
    else if op = OP_JUMP_NOT_TRUTHY then
      match vm.instructions.get? ip, vm.instructions.get? (ip + 1) with
      | some b0, some b1 =>
        let pos := b0 * 256 + b1
        let (condition, vm1) := vm.pop
        if ¬ VM.is_truthy condition then pure (pos, vm1)
        else pure (ip + 2, vm1)
      | _, _ => .error "panic: operand fetch out of bounds"
    else if op = OP_SET_GLOBAL then
      match vm.instructions.get? ip, vm.instructions.get? (ip + 1) with
      | some b0, some b1 =>
        let global_index := b0 * 256 + b1
        let (val, vm1) := vm.pop
        pure (ip + 2, { vm1 with globals := fun j => if j = global_index then val else vm1.globals j })
      | _, _ => .error "panic: operand fetch out of bounds"
    else if op = OP_GET_GLOBAL then
      match vm.instructions.get? ip, vm.instructions.get? (ip + 1) with
      | some b0, some b1 =>
        let global_index := b0 * 256 + b1
        do
          let vm1 ← vm.push (vm.globals global_index)
          pure (ip + 2, vm1)
      | _, _ => .error "panic: operand fetch out of bounds"
    else .error ("Unknown Opcode: " ++ toString op)

/-- The `run` loop, fuelled: `none` when the fuel runs out (the source loop
is unbounded), `some (.ok vm)` when `ip` passes the end of the
instructions, `some (.error msg)` on a run-time error. -/
def VM.run_loop : Nat → VM → Nat → Option (Except String VM)
  | 0, _, _ => none
  | f + 1, vm, ip =>
    if ip < vm.instructions.length then
      match vm.exec_instruction ip with
      | .ok (ip2, vm2) => VM.run_loop f vm2 ip2
      | .error msg => some (.error msg)
    else some (.ok vm)

def VM.run (fuel : Nat) (vm : VM) : Option (Except String VM) :=
  VM.run_loop fuel vm 0

/-- `builtins::import_fn` after a successful file read: parse the module
source, report parse errors, otherwise evaluate it in a fresh environment
with the standard library injected into the same frame, and export that
frame as a `Hash`.  The file-system read that produced `contents` is the
external boundary of the embedding. -/
def stdlib_env : Environment :=
  new_environment.foldl (fun e kv => e.set kv.1 kv.2) Environment.new

def import_eval (fuel : Nat) (contents : String) : Option Object :=
  let l := Lexer.new contents
  let (program, p) := parse_program fuel (Parser.new l)
  if p.errors ≠ [] then some (.Error "Parse errors in module")
  else
    match eval_program fuel program stdlib_env with
    | none => none
    | some (_, env2) => some env2.to_hash

/-- The amended C9 export contract: `import` parses the module (the error
list stays empty), evaluates it in the stdlib-preloaded single-frame
environment, and returns that frame as a `Hash` with `String` keys — so the
exported keys are the standard-library names together with the module's
top-level definitions, each mapped to its final value in the frame. -/
def ImportExportsTopFrame (fuel : Nat) (contents : String) (h : Object) : Prop :=
  ∃ prog p r env2,
    parse_program fuel (Parser.new (Lexer.new contents)) = (prog, p)
    ∧ p.errors = []
    ∧ eval_program fuel prog stdlib_env = some (r, env2)
    ∧ h = env2.to_hash
    ∧ ∀ kv ∈ new_environment, (storeLookup env2.store kv.1).isSome

-- C1 subset predicates -------------------------------------------------------
/-- Does a statement list end with an expression statement? -/
def endsWithExprStmt (stmts : List Statement) : Bool :=
  match stmts.getLast? with
  | some (.Expression _) => true
  | _ => false

mutual

/-- The compiler-supported expression subset named by the specification:
integer literals, boolean literals, identifiers, infix `+ < > == !=`, and
`if`/`else` whose blocks end with an expression statement. -/
def claimExprOk : Expression → Bool
  | .IntegerLiteral _ => true
  | .Boolean _ => true
  | .Identifier _ => true
  | .Infix l op r =>
    (op = "+" ∨ op = "<" ∨ op = ">" ∨ op = "==" ∨ op = "!=") &&
      claimExprOk l && claimExprOk r
  | .If c t a =>
    claimExprOk c && claimBlockOk t &&
      (match a with
       | some b => claimBlockOk b
       | none => true)
  | _ => false

def claimBlockOk : BlockStatement → Bool
  | .mk stmts => claimStmtListOk stmts && endsWithExprStmt stmts

def claimStmtListOk : List Statement → Bool
  | [] => true
  | s :: rest => claimStmtOk s && claimStmtListOk rest

def claimStmtOk : Statement → Bool
  | .Let _ v => claimExprOk v
  | .Expression e => claimExprOk e
  | _ => false

end

/-- The claim's program subset: mut- and expression statements over the
supported expressions, the body ending with an expression statement. -/
def claimProgOk (stmts : List Statement) : Bool :=
  claimStmtListOk stmts && endsWithExprStmt stmts

mutual

/-- The amended subset: as `claimExprOk` but each if-branch consists of
exactly one expression statement. -/
def amExprOk : Expression → Bool
  | .IntegerLiteral _ => true
  | .Boolean _ => true
  | .Identifier _ => true
  | .Infix l op r =>
    (op = "+" ∨ op = "<" ∨ op = ">" ∨ op = "==" ∨ op = "!=") &&
      amExprOk l && amExprOk r
  | .If c t a =>
    amExprOk c && amBlockOk t &&
      (match a with
       | some b => amBlockOk b
       | none => true)
  | _ => false

def amBlockOk : BlockStatement → Bool
  | .mk [Statement.Expression e] => amExprOk e
  | _ => false

end

def amStmtOk : Statement → Bool
  | .Let _ v => amExprOk v
  | .Expression e => amExprOk e
  | _ => false

def amProgOk (stmts : List Statement) : Bool :=
  stmts.all amStmtOk && endsWithExprStmt stmts

-- sizes (used to bound the VM stack and the instruction stream) -------------
mutual

def exprSize : Expression → Nat
  | .Infix l _ r => 1 + exprSize l + exprSize r
  | .If c t (some b) => 1 + exprSize c + blockSize t + blockSize b
  | .If c t none => 1 + exprSize c + blockSize t
  | .Prefix _ r => 1 + exprSize r
  | .IntegerLiteral _ => 1
  | .Boolean _ => 1
  | .Identifier _ => 1
  | .StringLiteral _ => 1
  | .FunctionLiteral _ _ => 1
  | .Call _ _ => 1
  | .ArrayLiteral _ => 1
  | .IndexExpression _ _ => 1
  | .While _ _ => 1
  | .HashLiteral _ => 1

def blockSize : BlockStatement → Nat
  | .mk stmts => stmtListSize stmts

def stmtListSize : List Statement → Nat
  | [] => 0
  | s :: rest => stmtSize s + stmtListSize rest

def stmtSize : Statement → Nat
  | .Let _ v => 1 + exprSize v
  | .Return v => 1 + exprSize v
  | .Expression e => 1 + exprSize e
  | .Assign _ v => 1 + exprSize v

end

def progSize (stmts : List Statement) : Nat := stmtListSize stmts

-- instruction-boundary scan (for the jump-target invariant) -----------------
def instr_width (op : Nat) : Option Nat :=
  (lookup op).map (fun d => 1 + d.operand_widths.sum)

/-- Scan the instruction stream from offset `i`, collecting the offset of
every instruction; `some` exactly when the stream decodes completely, and
the final entry of the list is the stream length. -/
def walk : Nat → List Nat → Nat → Option (List Nat)
  | 0, _, _ => none
  | f + 1, ins, i =>
    if i = ins.length then some [i]
    else
      match ins.get? i with
      | none => none
      | some op =>
        match instr_width op with
        | none => none
        | some w => (walk f ins (i + w)).map (fun l => i :: l)

def offsets (ins : List Nat) : Option (List Nat) :=
  walk (ins.length + 1) ins 0

/-- Amended jump-target invariant: every `OpJump`/`OpJumpNotTruthy` whose
opcode byte sits at an instruction boundary has an operand that is again an
instruction boundary (possibly the end of the stream). -/
def JumpTargetsOk (ins : List Nat) : Prop :=
  ∃ L, offsets ins = some L ∧
    ∀ j ∈ L, ∀ op, ins.get? j = some op → (op = OP_JUMP_NOT_TRUTHY ∨ op = OP_JUMP) →
      ∀ b0 b1, ins.get? (j + 1) = some b0 → ins.get? (j + 2) = some b1 →
        (b0 * 256 + b1) ∈ L

/-- The claim's stricter reading: the operand is the offset of an
instruction lying within the stream (a boundary strictly before the end). -/
def StartsWithin (ins : List Nat) (j : Nat) : Prop :=
  ∃ L, offsets ins = some L ∧ j ∈ L ∧ j < ins.length

/-- "Running the compiled bytecode on the VM returns Ok and the stack top
is `v`" (the run loop is fuelled, so termination is existential). -/
def VMComputes (c : Compiler) (v : Object) : Prop :=
  ∃ fuel vm, (VM.new c).run fuel = some (.ok vm) ∧ vm.stack_top = some v

/-- "Every name bound in the top frame of `env` is still bound in the top
frame of `env2`." -/
def keeps (env env2 : Environment) : Prop :=
  ∀ n, (storeLookup env.store n).isSome → (storeLookup env2.store n).isSome

-- ---------------------------------------------------------------------------
-- Infrastructure for the compiler/VM refinement proof (C1)
-- ---------------------------------------------------------------------------
/-- The bytes `code` appear in `P` starting at offset `o`. -/
def SpanAt (P : List Nat) (o : Nat) (code : List Nat) : Prop :=
  ∀ i, i < code.length → P.get? (o + i) = code.get? i

/-- Values a program of the compiler subset can produce: integers, booleans
and `Null` (from an else-less `if`). -/
def valOK : Object → Prop
  | .Integer _ => True
  | .Boolean _ => True
  | .Null => True
  | _ => False

/-- Correspondence between the compile-time symbol table together with the
VM's global slots, and the evaluator's environment: every resolvable name
has an in-range slot holding exactly the environment's value, and the next
slot index stays within the stack of 2048 definitions the size bound
admits. -/
def Rel (tab : SymbolTable) (g : Nat → Object) (env : Environment) : Prop :=
  tab.num_definitions ≤ 2048 ∧
  ∀ name sym, tab.resolve name = some sym →
    sym.index < tab.num_definitions ∧
    ∃ v, env.get name = some v ∧ g sym.index = v ∧ valOK v

/-- The compiler never emitted an `OpPop` (it never does in the supported
subset), so the peephole pop-removal is inert. -/
def popfree (c : Compiler) : Prop := c.last_instruction_is_pop = false

/-- Reachability in the VM's run loop: zero or more successful instruction
executions. -/
inductive StepsTo : VM → Nat → VM → Nat → Prop where
  | refl (vm : VM) (ip : Nat) : StepsTo vm ip vm ip
  | head {vm : VM} {ip ip2 ip3 : Nat} {vm2 vm3 : VM} :
      ip < vm.instructions.length →
      vm.exec_instruction ip = .ok (ip2, vm2) →
      StepsTo vm2 ip2 vm3 ip3 →
      StepsTo vm ip vm3 ip3

def C1prog : List Statement :=
  [Statement.Expression (Expression.If (Expression.Boolean true)
    (BlockStatement.mk [Statement.Expression (Expression.IntegerLiteral 10)])
    (some (BlockStatement.mk [Statement.Expression (Expression.IntegerLiteral 20)])))]

def C1compiled : Compiler :=
  Compiler.mk [3, 8, 0, 10, 0, 0, 0, 9, 0, 13, 0, 0, 1]
    [Object.Integer 10, Object.Integer 20] SymbolTable.new
    (some ⟨0, 10⟩) (some ⟨9, 7⟩)

/-- `t` is an instruction boundary of `code` (the end offset included). -/
def Bnd (code : List Nat) (t : Nat) : Prop :=
  ∃ B, offsets code = some B ∧ t ∈ B

/-- `code`, laid down at absolute offset `base`, decodes completely and every
jump opcode sitting at one of its instruction boundaries has an operand of
the form `base + t` with `t` satisfying `T`. -/
def JumpsInto (base : Nat) (code : List Nat) (T : Nat → Prop) : Prop :=
  ∃ B, offsets code = some B ∧
    ∀ j, j ∈ B → ∀ op, code.get? j = some op →
      (op = OP_JUMP_NOT_TRUTHY ∨ op = OP_JUMP) →
      ∀ b0 b1, code.get? (j + 1) = some b0 → code.get? (j + 2) = some b1 →
        ∃ t, b0 * 256 + b1 = base + t ∧ T t

/-- Every jump in `code` (at `base`) targets one of `code`'s own boundaries. -/
def GoodChunk (base : Nat) (code : List Nat) : Prop :=
  JumpsInto base code (Bnd code)

-- ===========================================================================
-- Theorems
-- ===========================================================================
/-- C2: the claim states that `Assign(name, value)` evaluates the value and
updates the binding, so that after `mut x = 1  x = 2` the lookup of `x`
yields `Integer(2)`.  In the code the `Assign` variant falls into the
catch-all arm of `eval_statement` and is a no-op: the value expression is
never evaluated and the environment is unchanged, so `x` stays bound to
`Integer(1)`. -/
theorem C2_assign_statement_is_noop :
    eval_program 10
        [Statement.Let "x" (Expression.IntegerLiteral 1),
         Statement.Assign "x" (Expression.IntegerLiteral 2)]
        Environment.new
      = some (Object.Null, Environment.mk [("x", Object.Integer 1)] none)
    ∧ (Environment.mk [("x", Object.Integer 1)] none).get "x" = some (Object.Integer 1)
    ∧ (Environment.mk [("x", Object.Integer 1)] none).get "x" ≠ some (Object.Integer 2) := by
  refine ⟨rfl, rfl, ?_⟩
  intro h
  simp [Environment.get, storeLookup] at h

/-- C3: the claim states the two calls of a `make_counter` closure return
`1` then `2`.  In the code the assignment inside the closure body is
dropped (`Assign` hits the evaluator's catch-all) and the closure holds a
by-value snapshot of its environment, so both calls return `Integer(0)`:
the full program and its three-statement prefix (one call) both evaluate to
`Integer(0)`. -/
theorem C3_counter_calls_return_zero :
    (eval_program 50
        [Statement.Let "make_counter" (Expression.FunctionLiteral []
           (BlockStatement.mk
             [Statement.Let "counter" (Expression.IntegerLiteral 0),
              Statement.Expression (Expression.FunctionLiteral []
                (BlockStatement.mk
                  [Statement.Assign "counter"
                     (Expression.Infix (Expression.Identifier "counter") "+"
                       (Expression.IntegerLiteral 1)),
                   Statement.Expression (Expression.Identifier "counter")]))])),
         Statement.Let "f" (Expression.Call (Expression.Identifier "make_counter") []),
         Statement.Expression (Expression.Call (Expression.Identifier "f") []),
         Statement.Expression (Expression.Call (Expression.Identifier "f") [])]
        Environment.new).map Prod.fst = some (Object.Integer 0)
    ∧ (eval_program 50
        [Statement.Let "make_counter" (Expression.FunctionLiteral []
           (BlockStatement.mk
             [Statement.Let "counter" (Expression.IntegerLiteral 0),
              Statement.Expression (Expression.FunctionLiteral []
                (BlockStatement.mk
                  [Statement.Assign "counter"
                     (Expression.Infix (Expression.Identifier "counter") "+"
                       (Expression.IntegerLiteral 1)),
                   Statement.Expression (Expression.Identifier "counter")]))])),
         Statement.Let "f" (Expression.Call (Expression.Identifier "make_counter") []),
         Statement.Expression (Expression.Call (Expression.Identifier "f") [])]
        Environment.new).map Prod.fst = some (Object.Integer 0) := by
  exact ⟨rfl, rfl⟩

/-- C4: the claim states an `Error` produced by a while body short-circuits
out of the loop like a `Return`.  The `While` arm only checks for `Return`:
here the body of `while (i < 2) { mut i = i + 1  if (i == 1) { bogus } else { 7 } }`
yields `Error` on the first iteration (shown by the second conjunct), yet
the loop keeps running and the whole program evaluates to `Integer(7)`,
discarding the error. -/
theorem C4_while_swallows_error :
    (eval_program 30
        [Statement.Let "i" (Expression.IntegerLiteral 0),
         Statement.Expression (Expression.While
           (Expression.Infix (Expression.Identifier "i") "<" (Expression.IntegerLiteral 2))
           (BlockStatement.mk
             [Statement.Let "i" (Expression.Infix (Expression.Identifier "i") "+"
                (Expression.IntegerLiteral 1)),
              Statement.Expression (Expression.If
                (Expression.Infix (Expression.Identifier "i") "==" (Expression.IntegerLiteral 1))
                (BlockStatement.mk [Statement.Expression (Expression.Identifier "bogus")])
                (some (BlockStatement.mk
                  [Statement.Expression (Expression.IntegerLiteral 7)])))]))]
        Environment.new).map Prod.fst = some (Object.Integer 7)
    ∧ (eval_block 20
        (BlockStatement.mk
          [Statement.Let "i" (Expression.Infix (Expression.Identifier "i") "+"
             (Expression.IntegerLiteral 1)),
           Statement.Expression (Expression.If
             (Expression.Infix (Expression.Identifier "i") "==" (Expression.IntegerLiteral 1))
             (BlockStatement.mk [Statement.Expression (Expression.Identifier "bogus")])
             (some (BlockStatement.mk
               [Statement.Expression (Expression.IntegerLiteral 7)])))])
        (Environment.mk [("i", Object.Integer 0)] none)).map Prod.fst
      = some (Object.Error "Variable bogus not found") := by
  exact ⟨rfl, rfl⟩

/-- C7: the claim states that `!` not followed by `=` lexes as a `Bang`
token.  The lexer's `'!'` arm returns an `Illegal` token instead (while
`!=` correctly lexes as `NotEq`), so `!true` never reaches the parser's
`Bang` prefix rule. -/
theorem C7_bang_lexes_as_illegal :
    (Lexer.next_token_auto (Lexer.new "!true")).1 = Token.new .Illegal "!"
    ∧ Token.new .Illegal "!" ≠ Token.new .Bang "!"
    ∧ (Lexer.next_token_auto (Lexer.new "!=true")).1 = Token.new .NotEq "!=" := by
  exact ⟨rfl, by decide, rfl⟩

/-- C5: the claim states parsing a malformed statement leaves at least one
message in the parser's error list.  The parser never pushes to `errors`:
for both `mut = 5` and an if-expression missing its closing parenthesis the
parse finishes (dropping or mangling the statement) with an empty error
list. -/
theorem C5_errors_list_stays_empty :
    (parse_source 50 "mut = 5").2.errors = []
    ∧ (parse_source 50 "mut = 5").1 = [Statement.Expression (Expression.IntegerLiteral 5)]
    ∧ (parse_source 50 "if (x").2.errors = [] := by
  exact ⟨rfl, rfl, rfl⟩

/-- C8: encode/decode round-trip of the ISA.  For every opcode `op` that
`lookup` defines and every operand list matching the declared widths with
each value below 65536, `make` produces `1 + sum(widths)` bytes starting
with `op`, and `read_operands` recovers exactly the operand list and
reports `sum(widths)` bytes read. -/
theorem C8_make_read_roundtrip (op : Nat) (d : Definition) (operands : List Nat)
    (hl : lookup op = some d)
    (hlen : operands.length = d.operand_widths.length)
    (hbound : ∀ o ∈ operands, o < 65536) :
    (make op operands).length = 1 + d.operand_widths.sum
    ∧ (make op operands).head? = some op
    ∧ read_operands d (make op operands).tail = (operands, d.operand_widths.sum) := by
  obtain _|_|_|_|_|_|_|_|_|_|_|_|n := op <;>
    simp only [lookup, Option.some.injEq] at hl
  all_goals first
    | exact Option.noConfusion hl
    | (subst hl
       rcases operands with _ | ⟨o, _ | ⟨o2, os⟩⟩ <;> simp at hlen
       all_goals first
         | exact ⟨rfl, rfl, rfl⟩
         | (have ho : o < 65536 := hbound o (by simp)
            refine ⟨rfl, rfl, ?_⟩
            simp [read_operands, read_operands_go, make, lookup, makeOperandBytes]
            omega))

/-- C8 witness: the round-trip at `OpJump` with operand 300. -/
theorem C8_witness :
    (make 9 [300]).length =
        1 + (Definition.mk "OpJump" [2]).operand_widths.sum
    ∧ (make 9 [300]).head? = some 9
    ∧ read_operands (Definition.mk "OpJump" [2]) (make 9 [300]).tail
        = ([300], (Definition.mk "OpJump" [2]).operand_widths.sum) :=
  C8_make_read_roundtrip 9 (Definition.mk "OpJump" [2]) [300] rfl rfl
    (by intro o ho; simp at ho; omega)

theorem i64FromStr_overflow (s : String) (h1 : s.data ≠ [])
    (h2 : ∀ c ∈ s.data, c.isDigit = true) (h3 : 2 ^ 63 ≤ digitsVal s.data) :
    i64FromStr s = none := by
  unfold i64FromStr
  rcases hd : s.data with _ | ⟨c, rest⟩
  · exact absurd hd h1
  have hc : c.isDigit = true := h2 c (by rw [hd]; exact List.mem_cons_self c rest)
  have hcp : c ≠ '+' := by rintro rfl; simp [Char.isDigit] at hc
  have hcm : c ≠ '-' := by rintro rfl; simp [Char.isDigit] at hc
  simp only [hd]
  rw [show (match c :: rest with
        | '+' :: r => ((false : Bool), r)
        | '-' :: r => ((true : Bool), r)
        | r => ((false : Bool), r)) = ((false : Bool), c :: rest) from by
      split
      · next heq => rw [List.cons.injEq] at heq; exact absurd heq.1 hcp
      · next heq => rw [List.cons.injEq] at heq; exact absurd heq.1 hcm
      · rfl]
  rw [hd] at h3
  have hall : ((c :: rest).all fun c => c.isDigit) = true := by
    rw [List.all_eq_true]
    intro x hx
    exact h2 x (hd ▸ hx)
  simp [hall, digitsVal]
  simp only [digitsVal, List.foldl_cons, Nat.mul_zero, Nat.zero_add,
    show Char.toNat '0' = 48 from rfl] at h3
  omega

/-- C10: an `Int` token whose digit string denotes a value outside the i64
range parses silently to `IntegerLiteral(0)` (the `unwrap_or(0)` in the
`Int` prefix rule), and evaluating that literal yields `Integer(0)`. -/
theorem C10_overflow_literal_parses_to_zero (s : String) (p : Parser)
    (f g : Nat) (env : Environment)
    (h1 : s.data ≠ []) (h2 : ∀ c ∈ s.data, c.isDigit = true)
    (h3 : 2 ^ 63 ≤ digitsVal s.data)
    (hc : p.cur_token = Token.new .Int s)
    (hp : p.peek_token.token_type = .EOF) :
    (parse_expression (f + 2) .Lowest p).1 = some (Expression.IntegerLiteral 0)
    ∧ eval (g + 1) (Expression.IntegerLiteral 0) env = some (Object.Integer 0, env) := by
  constructor
  · have hov := i64FromStr_overflow s h1 h2 h3
    simp [parse_expression, hc, Token.new, hov, parse_infix_loop, hp,
      token_precedence, precLt, Precedence.val]
  · rfl

/-- C10 witness: the literal 9223372036854775808 = 2^63. -/
theorem C10_witness :
    (parse_expression 42 .Lowest (Parser.new (Lexer.new "9223372036854775808"))).1
      = some (Expression.IntegerLiteral 0)
    ∧ eval 1 (Expression.IntegerLiteral 0) Environment.new
      = some (Object.Integer 0, Environment.new) :=
  C10_overflow_literal_parses_to_zero "9223372036854775808"
    (Parser.new (Lexer.new "9223372036854775808")) 40 0 Environment.new
    (by decide) (by decide) (by decide) (by rfl) (by rfl)

/-- C1 counterexample: the program `1 + if (true) { 2 3 } else { 4 }` lies
in the claimed subset (every block ends with an expression statement), the
compiler accepts it, and the evaluator produces `Integer(4)` — but the VM
leaves `Integer(5)` on the stack top: the extra value `2` left behind by
the two-statement consequence block is consumed by `OpAdd` in place of the
if-value `3`. -/
theorem C1_counterexample :
    claimProgOk
        [Statement.Expression (Expression.Infix (Expression.IntegerLiteral 1) "+"
          (Expression.If (Expression.Boolean true)
            (BlockStatement.mk
              [Statement.Expression (Expression.IntegerLiteral 2),
               Statement.Expression (Expression.IntegerLiteral 3)])
            (some (BlockStatement.mk
              [Statement.Expression (Expression.IntegerLiteral 4)]))))] = true
    ∧ (eval_program 20
        [Statement.Expression (Expression.Infix (Expression.IntegerLiteral 1) "+"
          (Expression.If (Expression.Boolean true)
            (BlockStatement.mk
              [Statement.Expression (Expression.IntegerLiteral 2),
               Statement.Expression (Expression.IntegerLiteral 3)])
            (some (BlockStatement.mk
              [Statement.Expression (Expression.IntegerLiteral 4)]))))]
        Environment.new).map Prod.fst = some (Object.Integer 4)
    ∧ (compile_program
        [Statement.Expression (Expression.Infix (Expression.IntegerLiteral 1) "+"
          (Expression.If (Expression.Boolean true)
            (BlockStatement.mk
              [Statement.Expression (Expression.IntegerLiteral 2),
               Statement.Expression (Expression.IntegerLiteral 3)])
            (some (BlockStatement.mk
              [Statement.Expression (Expression.IntegerLiteral 4)]))))]).map
        (fun c => ((VM.new c).run 100).map (fun r => r.map VM.stack_top))
      = .ok (some (.ok (some (Object.Integer 5))))
    ∧ Object.Integer 5 ≠ Object.Integer 4 := by
  refine ⟨rfl, rfl, rfl, ?_⟩
  intro h
  injection h with h2
  exact absurd h2 (by decide)

/-- C6 counterexample: compiling `if (true) { 10 } else { 20 }` emits the
byte stream `[3, 8,0,10, 0,0,0, 9,0,13, 0,0,1]`; its `OpJump` at offset 7
is a decoded instruction, but its operand 13 equals the stream length:
there is no instruction at offset 13 inside the vector, so the operand does
not point to the first byte of a valid instruction within `instructions`. -/
theorem C6_counterexample :
    (compile_program
        [Statement.Expression (Expression.If (Expression.Boolean true)
          (BlockStatement.mk [Statement.Expression (Expression.IntegerLiteral 10)])
          (some (BlockStatement.mk
            [Statement.Expression (Expression.IntegerLiteral 20)])))]).map
        Compiler.instructions
      = .ok [3, 8, 0, 10, 0, 0, 0, 9, 0, 13, 0, 0, 1]
    ∧ offsets [3, 8, 0, 10, 0, 0, 0, 9, 0, 13, 0, 0, 1] = some [0, 1, 4, 7, 10, 13]
    ∧ List.get? [3, 8, 0, 10, 0, 0, 0, 9, 0, 13, 0, 0, 1] 7 = some OP_JUMP
    ∧ List.get? [3, 8, 0, 10, 0, 0, 0, 9, 0, 13, 0, 0, 1] 8 = some 0
    ∧ List.get? [3, 8, 0, 10, 0, 0, 0, 9, 0, 13, 0, 0, 1] 9 = some 13
    ∧ ¬ StartsWithin [3, 8, 0, 10, 0, 0, 0, 9, 0, 13, 0, 0, 1] (0 * 256 + 13) := by
  refine ⟨rfl, rfl, rfl, rfl, rfl, ?_⟩
  rintro ⟨L, hL, hmem, hlt⟩
  exact absurd hlt (by decide)

theorem storeLookup_insert (s : List (String × Object)) (k : String) (v : Object)
    (n : String) :
    storeLookup (storeInsert s k v) n = if n = k then some v else storeLookup s n := by
  induction s with
  | nil =>
    simp only [storeInsert, storeLookup]
    by_cases h : k = n
    · subst h; simp
    · rw [if_neg h, if_neg (fun h2 => h h2.symm)]
  | cons a rest ih =>
    obtain ⟨a1, a2⟩ := a
    simp only [storeInsert]
    by_cases h1 : a1 = k
    · subst h1
      simp only [if_pos rfl, storeLookup]
      by_cases h2 : a1 = n
      · subst h2; simp
      · rw [if_neg h2, if_neg h2, if_neg (fun h3 : n = a1 => h2 h3.symm)]
    · rw [if_neg h1]
      simp only [storeLookup]
      by_cases h2 : a1 = n
      · subst h2
        rw [if_pos rfl, if_pos rfl, if_neg (fun h3 : a1 = k => h1 h3)]
      · rw [if_neg h2, if_neg h2, ih]

theorem keeps_refl (env : Environment) : keeps env env := fun _ h => h

theorem keeps_trans {a b c : Environment} (h1 : keeps a b) (h2 : keeps b c) :
    keeps a c := fun n h => h2 n (h1 n h)

theorem keeps_set (env : Environment) (k : String) (v : Object) :
    keeps env (env.set k v) := by
  intro n h
  obtain ⟨store, outer⟩ := env
  simp only [Environment.set, Environment.store] at h ⊢
  rw [storeLookup_insert]
  split
  · simp
  · exact h

theorem eval_keeps : ∀ f : Nat,
    (∀ stmts env acc r env2, eval_program_loop f stmts env acc = some (r, env2) → keeps env env2)
    ∧ (∀ stmts env r env2, eval_program f stmts env = some (r, env2) → keeps env env2)
    ∧ (∀ st env r env2, eval_statement f st env = some (r, env2) → keeps env env2)
    ∧ (∀ e env r env2, eval f e env = some (r, env2) → keeps env env2)
    ∧ (∀ c b env acc r env2, eval_while_loop f c b env acc = some (r, env2) → keeps env env2)
    ∧ (∀ es env r env2, eval_expressions f es env = some (r, env2) → keeps env env2)
    ∧ (∀ es env acc vs env2, eval_expressions_loop f es env acc = some (vs, env2) → keeps env env2)
    ∧ (∀ b env r env2, eval_block f b env = some (r, env2) → keeps env env2)
    ∧ (∀ ss env acc r env2, eval_block_loop f ss env acc = some (r, env2) → keeps env env2)
    ∧ (∀ ps env acc r env2, eval_hash_loop f ps env acc = some (r, env2) → keeps env env2) := by
  intro f
  induction f with
  | zero =>
    refine ⟨?_, ?_, ?_, ?_, ?_, ?_, ?_, ?_, ?_, ?_⟩ <;> intros <;>
      simp_all [eval_program_loop, eval_program, eval_statement, eval,
        eval_while_loop, eval_expressions, eval_expressions_loop, eval_block,
        eval_block_loop, eval_hash_loop]
  | succ f ih =>
    obtain ⟨ihPL, ihP, ihS, ihE, ihW, ihES, ihESL, ihB, ihBL, ihH⟩ := ih
    refine ⟨?_, ?_, ?_, ?_, ?_, ?_, ?_, ?_, ?_, ?_⟩
    · -- eval_program_loop
      intro stmts env acc r env2 h
      match stmts with
      | [] =>
        simp only [eval_program_loop, Option.some.injEq, Prod.mk.injEq] at h
        rw [← h.2]
        exact keeps_refl env
      | stmt :: rest =>
        simp only [eval_program_loop] at h
        rcases he : eval_statement f stmt env with _ | ⟨result, env1⟩ <;> rw [he] at h
        · simp at h
        · have k1 := ihS stmt env result env1 he
          simp only [bind, Option.bind] at h
          split at h
          · simp at h
            rw [← h.2]
            exact k1
          · simp at h
            rw [← h.2]
            exact k1
          · exact keeps_trans k1 (ihPL rest env1 result r env2 h)
    · -- eval_program
      intro stmts env r env2 h
      simp only [eval_program] at h
      exact ihPL stmts env .Null r env2 h
    · -- eval_statement
      intro st env r env2 h
      simp only [eval_statement] at h
      split at h
      · exact ihE _ env r env2 h
      · rcases he : eval f _ env with _ | ⟨value, env1⟩ <;> rw [he] at h
        · simp at h
        · have k1 := ihE _ env value env1 he
          simp only [bind, Option.bind] at h
          split at h <;> (simp at h; rw [← h.2]; exact k1)
      · rcases he : eval f _ env with _ | ⟨val, env1⟩ <;> rw [he] at h
        · simp at h
        · have k1 := ihE _ env val env1 he
          simp only [bind, Option.bind] at h
          split at h
          · simp at h
            rw [← h.2]
            exact k1
          · simp at h
            rw [← h.2]
            exact keeps_trans k1 (keeps_set env1 _ val)
      · simp at h
        rw [← h.2]
        exact keeps_refl env
    · -- eval
      intro e env r env2 h
      simp only [eval] at h
      split at h
      · -- IntegerLiteral
        simp at h; rw [← h.2]; exact keeps_refl env
      · -- Boolean
        simp at h; rw [← h.2]; exact keeps_refl env
      · -- StringLiteral
        simp at h; rw [← h.2]; exact keeps_refl env
      · -- Prefix
        rcases he : eval f _ env with _ | ⟨rv, env1⟩ <;> rw [he] at h
        · simp at h
        · have k1 := ihE _ env rv env1 he
          simp only [bind, Option.bind] at h
          split at h <;> (simp at h; rw [← h.2]; exact k1)
      · -- Infix
        rcases he : eval f _ env with _ | ⟨lv, env1⟩ <;> rw [he] at h
        · simp at h
        · have k1 := ihE _ env lv env1 he
          simp only [bind, Option.bind] at h
          split at h
          · simp at h; rw [← h.2]; exact k1
          · rcases he2 : eval f _ env1 with _ | ⟨rv, env3⟩ <;> rw [he2] at h
            · simp at h
            · have k2 := ihE _ env1 rv env3 he2
              simp only [bind, Option.bind] at h
              split at h <;> (simp at h; rw [← h.2]; exact keeps_trans k1 k2)
      · -- Identifier
        split at h <;> (simp at h; rw [← h.2]; exact keeps_refl env)
      · -- If
        rcases he : eval f _ env with _ | ⟨cv, env1⟩ <;> rw [he] at h
        · simp at h
        · have k1 := ihE _ env cv env1 he
          simp only [bind, Option.bind] at h
          split at h
          · simp at h; rw [← h.2]; exact k1
          · split at h
            · exact keeps_trans k1 (ihB _ env1 r env2 h)
            · split at h
              · exact keeps_trans k1 (ihB _ env1 r env2 h)
              · simp at h; rw [← h.2]; exact k1
      · -- While
        exact ihW _ _ env .Null r env2 h
      · -- FunctionLiteral
        simp at h; rw [← h.2]; exact keeps_refl env
      · -- Call
        rcases he : eval f _ env with _ | ⟨fv, env1⟩ <;> rw [he] at h
        · simp at h
        · have k1 := ihE _ env fv env1 he
          simp only [bind, Option.bind] at h
          split at h
          · simp at h; rw [← h.2]; exact k1
          · rcases he2 : eval_expressions f _ env1 with _ | ⟨argvals, env3⟩ <;> rw [he2] at h
            · simp at h
            · have k2 := ihES _ env1 argvals env3 he2
              simp only [bind, Option.bind] at h
              have kk : keeps env env3 := keeps_trans k1 k2
              split at h
              · rename_i a
                by_cases hee : is_error a = true
                · rw [if_pos hee] at h
                  simp at h
                  rw [← h.2]
                  exact kk
                · rw [if_neg hee] at h
                  rcases ha : apply_function f fv [a] with _ | r4 <;> rw [ha] at h
                  · simp at h
                  · simp only [bind, Option.bind] at h
                    simp at h
                    rw [← h.2]
                    exact kk
              · rcases ha : apply_function f fv argvals with _ | r4 <;> rw [ha] at h
                · simp at h
                · simp only [bind, Option.bind] at h
                  simp at h
                  rw [← h.2]
                  exact kk
      · -- ArrayLiteral
        rcases he : eval_expressions f _ env with _ | ⟨vals, env1⟩ <;> rw [he] at h
        · simp at h
        · have k1 := ihES _ env vals env1 he
          simp only [bind, Option.bind] at h
          split at h
          · split at h <;> (simp at h; rw [← h.2]; exact k1)
          · simp at h; rw [← h.2]; exact k1
      · -- IndexExpression
        rcases he : eval f _ env with _ | ⟨lv, env1⟩ <;> rw [he] at h
        · simp at h
        · have k1 := ihE _ env lv env1 he
          simp only [bind, Option.bind] at h
          split at h
          · simp at h; rw [← h.2]; exact k1
          · rcases he2 : eval f _ env1 with _ | ⟨iv, env3⟩ <;> rw [he2] at h
            · simp at h
            · have k2 := ihE _ env1 iv env3 he2
              simp only [bind, Option.bind] at h
              split at h <;> (simp at h; rw [← h.2]; exact keeps_trans k1 k2)
      · -- HashLiteral
        split at h
        exact ihH _ env [] r env2 h
    · -- eval_while_loop
      intro c b env acc r env2 h
      simp only [eval_while_loop] at h
      rcases he : eval f c env with _ | ⟨cv, env1⟩ <;> rw [he] at h
      · simp at h
      · have k1 := ihE c env cv env1 he
        simp only [bind, Option.bind] at h
        split at h
        · simp at h; rw [← h.2]; exact k1
        · split at h
          · simp at h; rw [← h.2]; exact k1
          · rcases he2 : eval_block f b env1 with _ | ⟨r2, env3⟩ <;> rw [he2] at h
            · simp at h
            · have k2 := ihB b env1 r2 env3 he2
              simp only [bind, Option.bind] at h
              split at h
              · simp at h; rw [← h.2]; exact keeps_trans k1 k2
              · exact keeps_trans k1 (keeps_trans k2 (ihW c b env3 r2 r env2 h))
    · -- eval_expressions
      intro es env r env2 h
      simp only [eval_expressions] at h
      exact ihESL es env [] r env2 h
    · -- eval_expressions_loop
      intro es env acc vs env2 h
      match es with
      | [] =>
        simp only [eval_expressions_loop, Option.some.injEq, Prod.mk.injEq] at h
        rw [← h.2]
        exact keeps_refl env
      | e :: rest =>
        simp only [eval_expressions_loop] at h
        rcases he : eval f e env with _ | ⟨v, env1⟩ <;> rw [he] at h
        · simp at h
        · have k1 := ihE e env v env1 he
          simp only [bind, Option.bind] at h
          split at h
          · simp at h; rw [← h.2]; exact k1
          · exact keeps_trans k1 (ihESL rest env1 (acc ++ [v]) vs env2 h)
    · -- eval_block
      intro b env r env2 h
      match b with
      | .mk stmts =>
        simp only [eval_block] at h
        exact ihBL stmts env .Null r env2 h
    · -- eval_block_loop
      intro ss env acc r env2 h
      match ss with
      | [] =>
        simp only [eval_block_loop, Option.some.injEq, Prod.mk.injEq] at h
        rw [← h.2]
        exact keeps_refl env
      | stmt :: rest =>
        simp only [eval_block_loop] at h
        rcases he : eval_statement f stmt env with _ | ⟨result, env1⟩ <;> rw [he] at h
        · simp at h
        · have k1 := ihS stmt env result env1 he
          simp only [bind, Option.bind] at h
          split at h
          · simp at h; rw [← h.2]; exact k1
          · simp at h; rw [← h.2]; exact k1
          · exact keeps_trans k1 (ihBL rest env1 result r env2 h)
    · -- eval_hash_loop
      intro ps env acc r env2 h
      match ps with
      | [] =>
        simp only [eval_hash_loop, Option.some.injEq, Prod.mk.injEq] at h
        rw [← h.2]
        exact keeps_refl env
      | (ke, ve) :: rest =>
        simp only [eval_hash_loop] at h
        rcases he : eval f ke env with _ | ⟨kv, env1⟩ <;> rw [he] at h
        · simp at h
        · have k1 := ihE ke env kv env1 he
          simp only [bind, Option.bind] at h
          split at h
          · simp at h; rw [← h.2]; exact k1
          · split at h
            · simp at h; rw [← h.2]; exact k1
            · rcases he2 : eval f ve env1 with _ | ⟨vv, env3⟩ <;> rw [he2] at h
              · simp at h
              · have k2 := ihE ve env1 vv env3 he2
                simp only [bind, Option.bind] at h
                split at h
                · simp at h; rw [← h.2]; exact keeps_trans k1 k2
                · exact keeps_trans k1 (keeps_trans k2 (ihH rest env3 _ r env2 h))

theorem stdlib_env_binds : ∀ kv ∈ new_environment,
    (storeLookup stdlib_env.store kv.1).isSome := by decide

/-- C9 amended: for every module source that parses cleanly, `import`
returns the `Hash` of the final top environment frame: `String` keys for
the standard-library names and the module's top-level definitions, each
mapped to its final value (the stdlib is injected into the very frame that
gets exported, so its names appear among the keys too). -/
theorem C9_amended (fuel : Nat) (contents : String) (h : Object)
    (hclean : (parse_program fuel (Parser.new (Lexer.new contents))).2.errors = [])
    (himp : import_eval fuel contents = some h) :
    ImportExportsTopFrame fuel contents h := by
  rcases hp2 : parse_program fuel (Parser.new (Lexer.new contents)) with ⟨prog, p⟩
  have hcl2 : p.errors = [] := by rw [hp2] at hclean; exact hclean
  simp only [import_eval] at himp
  rw [hp2] at himp
  rw [if_neg (by simp [hcl2])] at himp
  rcases hev : eval_program fuel prog stdlib_env with _ | ⟨r, env2⟩ <;> rw [hev] at himp
  · simp at himp
  · simp only [Option.some.injEq] at himp
    refine ⟨prog, p, r, env2, hp2, hcl2, hev, himp.symm, ?_⟩
    intro kv hkv
    exact (eval_keeps fuel).2.1 prog stdlib_env r env2 hev kv.1 (stdlib_env_binds kv hkv)

/-- C9 witness: the amended contract at the one-line module `mut a = 1`. -/
theorem C9_witness :
    ImportExportsTopFrame 50 "mut a = 1"
      (Object.Hash
        [(.String "print", .Builtin .print), (.String "input", .Builtin .input),
         (.String "len", .Builtin .len), (.String "int", .Builtin .int),
         (.String "read_file", .Builtin .readFile),
         (.String "write_file", .Builtin .writeFile),
         (.String "push", .Builtin .push), (.String "first", .Builtin .first),
         (.String "last", .Builtin .last), (.String "rest", .Builtin .rest),
         (.String "import", .Builtin .importMod), (.String "a", .Integer 1)]) :=
  C9_amended 50 "mut a = 1" _ rfl rfl

/-- C9 counterexample: the module `mut a = 1` declares only `a`, yet the
returned `Hash` also carries the key `"print"` (and the other ten
standard-library names): the keys are not exactly the module's top-level
declared names. -/
theorem C9_counterexample :
    import_eval 50 "mut a = 1"
      = some (Object.Hash
        [(.String "print", .Builtin .print), (.String "input", .Builtin .input),
         (.String "len", .Builtin .len), (.String "int", .Builtin .int),
         (.String "read_file", .Builtin .readFile),
         (.String "write_file", .Builtin .writeFile),
         (.String "push", .Builtin .push), (.String "first", .Builtin .first),
         (.String "last", .Builtin .last), (.String "rest", .Builtin .rest),
         (.String "import", .Builtin .importMod), (.String "a", .Integer 1)])
    ∧ hashGet
        [(.String "print", .Builtin .print), (.String "input", .Builtin .input),
         (.String "len", .Builtin .len), (.String "int", .Builtin .int),
         (.String "read_file", .Builtin .readFile),
         (.String "write_file", .Builtin .writeFile),
         (.String "push", .Builtin .push), (.String "first", .Builtin .first),
         (.String "last", .Builtin .last), (.String "rest", .Builtin .rest),
         (.String "import", .Builtin .importMod), (.String "a", .Integer 1)]
        (HashKey.String "print") = some (Object.Builtin .print)
    ∧ (parse_program 50 (Parser.new (Lexer.new "mut a = 1"))).1
        = [Statement.Let "a" (Expression.IntegerLiteral 1)]
    ∧ "print" ≠ "a" := by
  exact ⟨rfl, rfl, rfl, by decide⟩

theorem StepsTo.trans {vm1 vm2 vm3 : VM} {ip1 ip2 ip3 : Nat}
    (h1 : StepsTo vm1 ip1 vm2 ip2) (h2 : StepsTo vm2 ip2 vm3 ip3) :
    StepsTo vm1 ip1 vm3 ip3 := by
  induction h1 with
  | refl => exact h2
  | head hlt hex _ ih => exact .head hlt hex (ih h2)

theorem StepsTo.single {vm vm2 : VM} {ip ip2 : Nat}
    (hlt : ip < vm.instructions.length)
    (hex : vm.exec_instruction ip = .ok (ip2, vm2)) :
    StepsTo vm ip vm2 ip2 := .head hlt hex (.refl vm2 ip2)

theorem run_of_stepsTo {vm vm2 : VM} {ip ip2 : Nat}
    (h : StepsTo vm ip vm2 ip2) (hend : ¬ ip2 < vm2.instructions.length) :
    ∃ f, VM.run_loop f vm ip = some (.ok vm2) := by
  induction h with
  | refl vm ip =>
    exact ⟨1, by simp [VM.run_loop, hend]⟩
  | head hlt hex _ ih =>
    obtain ⟨f, hf⟩ := ih hend
    refine ⟨f + 1, ?_⟩
    rw [VM.run_loop, if_pos hlt]
    rw [show _ = Except.ok _ from hex]
    exact hf

theorem get?_lt {P : List Nat} {i x : Nat} (h : P.get? i = some x) : i < P.length :=
  List.get?_eq_some.mp h |>.1

theorem step_constant {vm : VM} {ip b0 b1 : Nat} {obj : Object}
    (h0 : vm.instructions.get? ip = some OP_CONSTANT)
    (h1 : vm.instructions.get? (ip + 1) = some b0)
    (h2 : vm.instructions.get? (ip + 2) = some b1)
    (hc : vm.constants.get? (b0 * 256 + b1) = some obj)
    (hs : vm.stack.length < 2048) :
    vm.exec_instruction ip = .ok (ip + 3, { vm with stack := obj :: vm.stack }) := by
  simp only [List.get?_eq_getElem?] at h0 h1 h2 hc
  simp [pure, Except.pure, bind, Except.bind, VM.exec_instruction, h0, h1, h2, hc, VM.push, STACK_SIZE,
    Nat.not_le.mpr hs, OP_CONSTANT]

theorem step_true {vm : VM} {ip : Nat}
    (h0 : vm.instructions.get? ip = some OP_TRUE)
    (hs : vm.stack.length < 2048) :
    vm.exec_instruction ip
      = .ok (ip + 1, { vm with stack := Object.Boolean true :: vm.stack }) := by
  simp only [List.get?_eq_getElem?] at h0
  simp [pure, Except.pure, bind, Except.bind, VM.exec_instruction, h0, VM.push, STACK_SIZE, Nat.not_le.mpr hs,
    OP_CONSTANT, OP_POP, OP_ADD, OP_TRUE]

theorem step_false {vm : VM} {ip : Nat}
    (h0 : vm.instructions.get? ip = some OP_FALSE)
    (hs : vm.stack.length < 2048) :
    vm.exec_instruction ip
      = .ok (ip + 1, { vm with stack := Object.Boolean false :: vm.stack }) := by
  simp only [List.get?_eq_getElem?] at h0
  simp [pure, Except.pure, bind, Except.bind, VM.exec_instruction, h0, VM.push, STACK_SIZE, Nat.not_le.mpr hs,
    OP_CONSTANT, OP_POP, OP_ADD, OP_TRUE, OP_FALSE]

theorem step_add {vm : VM} {ip : Nat} {l r : Int} {s : List Object}
    (h0 : vm.instructions.get? ip = some OP_ADD)
    (hst : vm.stack = Object.Integer r :: Object.Integer l :: s)
    (hs : s.length < 2048) :
    vm.exec_instruction ip
      = .ok (ip + 1, { vm with stack := Object.Integer (wrap64 (l + r)) :: s }) := by
  simp only [List.get?_eq_getElem?] at h0
  simp [pure, Except.pure, bind, Except.bind, VM.exec_instruction, h0, VM.pop, hst, execute_binary_operation,
    VM.push, STACK_SIZE, Nat.not_le.mpr hs, OP_CONSTANT, OP_POP, OP_ADD]

theorem step_equal {vm : VM} {ip : Nat} {a b : Object} {s : List Object}
    (h0 : vm.instructions.get? ip = some OP_EQUAL)
    (hst : vm.stack = a :: b :: s)
    (hs : s.length < 2048) :
    vm.exec_instruction ip
      = .ok (ip + 1, { vm with stack := Object.Boolean (objEq b a) :: s }) := by
  simp only [List.get?_eq_getElem?] at h0
  simp [pure, Except.pure, bind, Except.bind, VM.exec_instruction, h0, VM.pop, hst, VM.push, STACK_SIZE,
    Nat.not_le.mpr hs, OP_CONSTANT, OP_POP, OP_ADD, OP_TRUE, OP_FALSE, OP_EQUAL]

theorem step_not_equal {vm : VM} {ip : Nat} {a b : Object} {s : List Object}
    (h0 : vm.instructions.get? ip = some OP_NOT_EQUAL)
    (hst : vm.stack = a :: b :: s)
    (hs : s.length < 2048) :
    vm.exec_instruction ip
      = .ok (ip + 1, { vm with stack := Object.Boolean (! objEq b a) :: s }) := by
  simp only [List.get?_eq_getElem?] at h0
  simp [pure, Except.pure, bind, Except.bind, VM.exec_instruction, h0, VM.pop, hst, VM.push, STACK_SIZE,
    Nat.not_le.mpr hs, OP_CONSTANT, OP_POP, OP_ADD, OP_TRUE, OP_FALSE, OP_EQUAL,
    OP_NOT_EQUAL]

theorem step_greater_than {vm : VM} {ip : Nat} {l r : Int} {s : List Object}
    (h0 : vm.instructions.get? ip = some OP_GREATER_THAN)
    (hst : vm.stack = Object.Integer r :: Object.Integer l :: s)
    (hs : s.length < 2048) :
    vm.exec_instruction ip
      = .ok (ip + 1, { vm with stack := Object.Boolean (decide (l > r)) :: s }) := by
  simp only [List.get?_eq_getElem?] at h0
  simp [pure, Except.pure, bind, Except.bind, VM.exec_instruction, h0, VM.pop, hst, VM.push, STACK_SIZE,
    Nat.not_le.mpr hs, OP_CONSTANT, OP_POP, OP_ADD, OP_TRUE, OP_FALSE, OP_EQUAL,
    OP_NOT_EQUAL, OP_GREATER_THAN]

theorem step_jump {vm : VM} {ip b0 b1 : Nat}
    (h0 : vm.instructions.get? ip = some OP_JUMP)
    (h1 : vm.instructions.get? (ip + 1) = some b0)
    (h2 : vm.instructions.get? (ip + 2) = some b1) :
    vm.exec_instruction ip = .ok (b0 * 256 + b1, vm) := by
  simp only [List.get?_eq_getElem?] at h0 h1 h2
  simp [pure, Except.pure, bind, Except.bind, VM.exec_instruction, h0, h1, h2, OP_CONSTANT, OP_POP, OP_ADD, OP_TRUE,
    OP_FALSE, OP_EQUAL, OP_NOT_EQUAL, OP_GREATER_THAN, OP_JUMP]

theorem step_jnt {vm : VM} {ip b0 b1 : Nat} {c : Object} {s : List Object}
    (h0 : vm.instructions.get? ip = some OP_JUMP_NOT_TRUTHY)
    (h1 : vm.instructions.get? (ip + 1) = some b0)
    (h2 : vm.instructions.get? (ip + 2) = some b1)
    (hst : vm.stack = c :: s) :
    vm.exec_instruction ip
      = .ok (if VM.is_truthy c then ip + 3 else b0 * 256 + b1,
             { vm with stack := s }) := by
  simp only [List.get?_eq_getElem?] at h0 h1 h2
  by_cases ht : VM.is_truthy c = true <;>
    simp [pure, Except.pure, bind, Except.bind, VM.exec_instruction, h0, h1, h2, VM.pop, hst, ht, OP_CONSTANT, OP_POP,
      OP_ADD, OP_TRUE, OP_FALSE, OP_EQUAL, OP_NOT_EQUAL, OP_GREATER_THAN,
      OP_JUMP, OP_JUMP_NOT_TRUTHY]

theorem step_set_global {vm : VM} {ip b0 b1 : Nat} {v : Object} {s : List Object}
    (h0 : vm.instructions.get? ip = some OP_SET_GLOBAL)
    (h1 : vm.instructions.get? (ip + 1) = some b0)
    (h2 : vm.instructions.get? (ip + 2) = some b1)
    (hst : vm.stack = v :: s) :
    vm.exec_instruction ip
      = .ok (ip + 3,
             { vm with
                stack := s,
                globals := fun j => if j = b0 * 256 + b1 then v else vm.globals j }) := by
  simp only [List.get?_eq_getElem?] at h0 h1 h2
  simp [pure, Except.pure, bind, Except.bind, VM.exec_instruction, h0, h1, h2, VM.pop, hst, OP_CONSTANT, OP_POP,
    OP_ADD, OP_TRUE, OP_FALSE, OP_EQUAL, OP_NOT_EQUAL, OP_GREATER_THAN,
    OP_JUMP, OP_JUMP_NOT_TRUTHY, OP_SET_GLOBAL]

theorem step_get_global {vm : VM} {ip b0 b1 : Nat}
    (h0 : vm.instructions.get? ip = some OP_GET_GLOBAL)
    (h1 : vm.instructions.get? (ip + 1) = some b0)
    (h2 : vm.instructions.get? (ip + 2) = some b1)
    (hs : vm.stack.length < 2048) :
    vm.exec_instruction ip
      = .ok (ip + 3, { vm with stack := vm.globals (b0 * 256 + b1) :: vm.stack }) := by
  simp only [List.get?_eq_getElem?] at h0 h1 h2
  simp [pure, Except.pure, bind, Except.bind, VM.exec_instruction, h0, h1, h2, VM.push, STACK_SIZE, Nat.not_le.mpr hs,
    OP_CONSTANT, OP_POP, OP_ADD, OP_TRUE, OP_FALSE, OP_EQUAL, OP_NOT_EQUAL,
    OP_GREATER_THAN, OP_JUMP, OP_JUMP_NOT_TRUTHY, OP_SET_GLOBAL, OP_GET_GLOBAL]

theorem spanAt_append {P : List Nat} {o : Nat} {c1 c2 : List Nat} :
    SpanAt P o (c1 ++ c2) ↔ SpanAt P o c1 ∧ SpanAt P (o + c1.length) c2 := by
  constructor
  · intro h
    constructor
    · intro i hi
      rw [h i (by simp; omega)]
      rw [List.get?_append hi]
    · intro i hi
      have := h (c1.length + i) (by simp; omega)
      rw [show o + (c1.length + i) = o + c1.length + i by omega] at this
      rw [this, List.get?_append_right (by omega)]
      simp
  · rintro ⟨h1, h2⟩ i hi
    simp at hi
    by_cases hlt : i < c1.length
    · rw [h1 i hlt, List.get?_append hlt]
    · have := h2 (i - c1.length) (by omega)
      rw [show o + c1.length + (i - c1.length) = o + i by omega] at this
      rw [this, List.get?_append_right (by omega)]

theorem spanAt_cons {P : List Nat} {o b : Nat} {rest : List Nat} :
    SpanAt P o (b :: rest) ↔ P.get? o = some b ∧ SpanAt P (o + 1) rest := by
  constructor
  · intro h
    constructor
    · have := h 0 (by simp)
      simpa using this
    · intro i hi
      have := h (i + 1) (by simp; omega)
      rw [show o + (i + 1) = o + 1 + i by omega] at this
      simpa using this
  · rintro ⟨h1, h2⟩ i hi
    match i with
    | 0 => simpa using h1
    | j + 1 =>
      have := h2 j (by simp at hi; omega)
      rw [show o + 1 + j = o + (j + 1) by omega] at this
      simpa using this

theorem spanAt_nil {P : List Nat} {o : Nat} : SpanAt P o [] := by
  intro i hi
  simp at hi

theorem u16_round {v : Nat} (h : v ≤ 65535) : v / 256 % 256 * 256 + v % 256 = v := by
  omega

theorem set_append_cons (X : List Nat) (y v : Nat) (Y : List Nat) :
    (X ++ y :: Y).set X.length v = X ++ v :: Y := by
  induction X with
  | nil => simp
  | cons a rest ih => simp [List.set, ih]

theorem listOverwrite_three (X : List Nat) (a b c x y z : Nat) (Y : List Nat) :
    listOverwrite (X ++ a :: b :: c :: Y) X.length [x, y, z] = X ++ x :: y :: z :: Y := by
  simp only [listOverwrite]
  rw [set_append_cons]
  rw [show X ++ x :: b :: c :: Y = (X ++ [x]) ++ b :: c :: Y by simp]
  rw [show X.length + 1 = (X ++ [x]).length by simp]
  rw [set_append_cons]
  rw [show (X ++ [x]) ++ y :: c :: Y = (X ++ [x, y]) ++ c :: Y by simp]
  rw [show (X ++ [x]).length + 1 = (X ++ [x, y]).length by simp]
  rw [set_append_cons]
  simp

theorem getD_append_cons (X : List Nat) (y : Nat) (Y : List Nat) (d : Nat) :
    (X ++ y :: Y).getD X.length d = y := by
  induction X with
  | nil => simp
  | cons a rest ih => simpa using ih

/-- `change_operand` on a three-byte jump instruction sitting after prefix
`X`: the opcode is re-read in place and the operand re-encoded big-endian. -/
theorem change_operand_spec (c : Compiler) (X : List Nat) (op a b v : Nat)
    (Y : List Nat)
    (hins : c.instructions = X ++ op :: a :: b :: Y)
    (hmk : make op [v] = [op, v / 256 % 256, v % 256]) :
    (c.change_operand X.length v).instructions
      = X ++ op :: (v / 256 % 256) :: (v % 256) :: Y := by
  unfold Compiler.change_operand
  rw [hins, getD_append_cons]
  simp only [hmk]
  exact listOverwrite_three X op a b op (v / 256 % 256) (v % 256) Y

theorem change_operand_fields (c : Compiler) (p v : Nat) :
    (c.change_operand p v).constants = c.constants
    ∧ (c.change_operand p v).symbol_table = c.symbol_table
    ∧ (c.change_operand p v).last_instruction = c.last_instruction := by
  simp [Compiler.change_operand]

theorem make_jnt (v : Nat) : make OP_JUMP_NOT_TRUTHY [v] = [8, v / 256 % 256, v % 256] := rfl

theorem make_jump (v : Nat) : make OP_JUMP [v] = [9, v / 256 % 256, v % 256] := rfl

theorem exprSize_pos (e : Expression) : 1 ≤ exprSize e := by
  match e with
  | .If c t (some b) => simp only [exprSize]; omega
  | .If c t none => simp only [exprSize]; omega
  | .Infix l op r => simp only [exprSize]; omega
  | .Prefix o r => simp only [exprSize]; omega
  | .IntegerLiteral _ | .Boolean _ | .Identifier _ | .StringLiteral _
  | .FunctionLiteral _ _ | .Call _ _ | .ArrayLiteral _ | .IndexExpression _ _
  | .While _ _ | .HashLiteral _ => simp only [exprSize]; omega

/-- Extract the single expression evaluation from a one-statement block. -/
theorem eval_block_single_expr {f : Nat} {t : Expression} {env : Environment}
    {v : Object} {env2 : Environment}
    (h : eval_block f (BlockStatement.mk [Statement.Expression t]) env = some (v, env2)) :
    ∃ g, eval g t env = some (v, env2) := by
  match f with
  | 0 => simp [eval_block] at h
  | 1 => simp [eval_block, eval_block_loop] at h
  | 2 => simp [eval_block, eval_block_loop, eval_statement] at h
  | f + 3 =>
    simp only [eval_block, eval_block_loop] at h
    rcases he : eval_statement (f + 1) (Statement.Expression t) env
        with _ | ⟨result, env1⟩ <;> rw [he] at h
    · simp at h
    · simp only [bind, Option.bind] at h
      have hsplit : result = v ∧ env1 = env2 := by
        split at h <;> (simp at h; exact ⟨h.1, h.2⟩)
      simp only [eval_statement] at he
      obtain ⟨rfl, rfl⟩ := hsplit
      exact ⟨f, he⟩

/-- Subset expressions do not touch the environment. -/
theorem eval_subset_env : ∀ (n : Nat) (e : Expression) (f : Nat) (env : Environment)
    (v : Object) (env' : Environment),
    exprSize e ≤ n → amExprOk e = true →
    eval f e env = some (v, env') → env' = env := by
  intro n
  induction n with
  | zero =>
    intro e f env v env' hn
    exact fun _ _ => absurd hn (by have := exprSize_pos e; omega)
  | succ n ih =>
    intro e f env v env' hn hok heval
    match f with
    | 0 => simp [eval] at heval
    | f + 1 =>
      match e with
      | .IntegerLiteral _ | .Boolean _ | .StringLiteral _ =>
        simp only [eval, Option.some.injEq, Prod.mk.injEq] at heval
        exact heval.2.symm
      | .Identifier name =>
        simp only [eval] at heval
        split at heval <;>
          (simp only [Option.some.injEq, Prod.mk.injEq] at heval; exact heval.2.symm)
      | .Infix l op r =>
        simp only [amExprOk, Bool.and_eq_true] at hok
        simp only [exprSize] at hn
        simp only [eval] at heval
        rcases he1 : eval f l env with _ | ⟨lv, env1⟩ <;> rw [he1] at heval
        · simp at heval
        · have k1 : env1 = env := ih l f env lv env1 (by omega) hok.1.2 he1
          simp only [bind, Option.bind] at heval
          split at heval
          · simp only [Option.some.injEq, Prod.mk.injEq] at heval
            rw [← heval.2, k1]
          · rcases he2 : eval f r env1 with _ | ⟨rv, env2⟩ <;> rw [he2] at heval
            · simp at heval
            · have k2 : env2 = env1 := ih r f env1 rv env2 (by omega) hok.2 he2
              simp only [bind, Option.bind] at heval
              split at heval <;>
                (simp only [Option.some.injEq, Prod.mk.injEq] at heval
                 rw [← heval.2, k2, k1])
      | .If c bt balt =>
        unfold amExprOk at hok
        simp only [Bool.and_eq_true] at hok
        obtain ⟨⟨hokc, hokt⟩, hoka⟩ := hok
        simp only [eval] at heval
        rcases he1 : eval f c env with _ | ⟨cv, env1⟩ <;> rw [he1] at heval
        · simp at heval
        · have k1 : env1 = env := ih c f env cv env1
            (by rcases balt <;> simp [exprSize] at hn <;> omega) hokc he1
          simp only [bind, Option.bind] at heval
          split at heval
          · simp only [Option.some.injEq, Prod.mk.injEq] at heval
            rw [← heval.2, k1]
          · split at heval
            · -- truthy: consequence block
              obtain ⟨stmts⟩ := bt
              match stmts, hokt, heval with
              | [Statement.Expression t], hokt, heval =>
                obtain ⟨g, hg⟩ := eval_block_single_expr heval
                have : env' = env1 :=
                  ih t g env1 v env'
                    (by rcases balt <;>
                       simp [exprSize, blockSize, stmtListSize, stmtSize] at hn <;> omega)
                    (by simpa [amBlockOk] using hokt) hg
                rw [this, k1]
            · match balt, hoka with
              | some (BlockStatement.mk [Statement.Expression t2]), hoka =>
                obtain ⟨g, hg⟩ := eval_block_single_expr heval
                have : env' = env1 :=
                  ih t2 g env1 v env'
                    (by simp [blockSize, stmtListSize, stmtSize, exprSize] at hn; omega)
                    (by simpa [amBlockOk] using hoka) hg
                rw [this, k1]
              | none, hoka =>
                simp only [Option.some.injEq, Prod.mk.injEq] at heval
                rw [← heval.2, k1]

theorem stepsTo_three {vm1 vm2 vm3 vm4 : VM} {o a b : Nat}
    (h1 : StepsTo vm1 o vm2 (o + a))
    (h2 : StepsTo vm2 (o + a) vm3 (o + a + b))
    (hlt : o + a + b < vm3.instructions.length)
    (h3 : vm3.exec_instruction (o + a + b) = .ok (o + a + b + 1, vm4)) :
    StepsTo vm1 o vm4 (o + (a + b + 1)) := by
  have h := (h1.trans h2).trans (StepsTo.single hlt h3)
  rwa [show o + a + b + 1 = o + (a + b + 1) by omega] at h

theorem infix_int_shape {op : String} {lv rv : Object}
    (hop : op = "+" ∨ op = "<" ∨ op = ">")
    (hl : valOK lv) (hr : valOK rv)
    (he : is_error ( eval_infix op lv rv) = false) :
    ∃ a b : Int, lv = .Integer a ∧ rv = .Integer b := by
  rcases hop with rfl | rfl | rfl <;>
    cases lv <;> cases rv <;> first
      | exact ⟨_, _, rfl, rfl⟩
      | exact False.elim hl
      | exact False.elim hr
      | exact (Bool.noConfusion (he.symm.trans rfl) : False).elim

theorem infix_eq_shape {op : String} {lv rv : Object}
    (hop : op = "==" ∨ op = "!=")
    (hl : valOK lv) (hr : valOK rv)
    (he : is_error ( eval_infix op lv rv) = false) :
    (∃ a b : Int, lv = .Integer a ∧ rv = .Integer b) ∨
    (∃ a b : Bool, lv = .Boolean a ∧ rv = .Boolean b) := by
  rcases hop with rfl | rfl <;>
    cases lv <;> cases rv <;> first
      | exact Or.inl ⟨_, _, rfl, rfl⟩
      | exact Or.inr ⟨_, _, rfl, rfl⟩
      | exact False.elim hl
      | exact False.elim hr
      | exact (Bool.noConfusion (he.symm.trans rfl) : False).elim

theorem eval_infix_inv {g : Nat} {l r : Expression} {op : String} {env : Environment}
    {v : Object} {env2 : Environment}
    (h : eval (g + 1) (.Infix l op r) env = some (v, env2))
    (herr : is_error v = false) :
    ∃ lv env1 rv, eval g l env = some (lv, env1) ∧ is_error lv = false ∧
      eval g r env1 = some (rv, env2) ∧ is_error rv = false ∧
      eval_infix op lv rv = v := by
  simp only [eval] at h
  rcases hel : eval g l env with _ | ⟨lv, env1⟩ <;> rw [hel] at h
  · simp at h
  · simp only [bind, Option.bind] at h
    split at h
    · rename_i hl
      simp only [Option.some.injEq, Prod.mk.injEq] at h
      rw [h.1] at hl
      rw [herr] at hl
      exact absurd hl (by simp)
    · rename_i hl
      rcases her : eval g r env1 with _ | ⟨rv, env3⟩ <;> rw [her] at h
      · simp at h
      · simp only [bind, Option.bind] at h
        split at h
        · rename_i hr
          simp only [Option.some.injEq, Prod.mk.injEq] at h
          rw [h.1] at hr
          rw [herr] at hr
          exact absurd hr (by simp)
        · rename_i hr
          simp only [Option.some.injEq, Prod.mk.injEq] at h
          exact ⟨lv, env1, rv, rfl, by simpa using hl, by rw [← h.2]; exact her,
            by simpa using hr, h.1⟩

theorem amBlockOk_shape {b : BlockStatement} (h : amBlockOk b = true) :
    ∃ t, b = BlockStatement.mk [Statement.Expression t] ∧ amExprOk t = true := by
  obtain ⟨stmts⟩ := b
  match stmts, h with
  | [Statement.Expression t], h => exact ⟨t, rfl, h⟩
  | [], h => unfold amBlockOk at h; simp at h
  | [Statement.Let n v], h => unfold amBlockOk at h; simp at h
  | [Statement.Return v], h => unfold amBlockOk at h; simp at h
  | [Statement.Assign n v], h => unfold amBlockOk at h; simp at h
  | s1 :: s2 :: rest, h => unfold amBlockOk at h; simp at h

theorem compile_block_single (t : Expression) (c : Compiler) :
    compile_block (BlockStatement.mk [Statement.Expression t]) c
      = compile_expression t c := by
  simp only [compile_block, compile_stmt_list, compile_statement]
  rcases h : compile_expression t c with msg | c1 <;>
    simp [h, bind, Except.bind, pure, Except.pure, compile_stmt_list]

theorem pair_match_test (x y z : Nat)
    (h : (match (x, y) with | (a, b) => a + b) = z) : x + y = z := by
  dsimp only at h
  exact h

theorem eval_if_inv {g : Nat} {c : Expression} {bt : BlockStatement}
    {balt : Option BlockStatement} {env : Environment} {v : Object} {env2 : Environment}
    (h : eval (g + 1) (.If c bt balt) env = some (v, env2))
    (herr : is_error v = false) :
    ∃ cv env1, eval g c env = some (cv, env1) ∧ is_error cv = false ∧
      ((is_truthy cv = true ∧ eval_block g bt env1 = some (v, env2))
       ∨ (is_truthy cv = false ∧
          match balt with
          | some alt => eval_block g alt env1 = some (v, env2)
          | none => v = Object.Null ∧ env2 = env1)) := by
  simp only [eval] at h
  rcases hec : eval g c env with _ | ⟨cv, env1⟩ <;> rw [hec] at h
  · simp at h
  · simp only [bind, Option.bind] at h
    split at h
    · rename_i hcerr
      simp only [Option.some.injEq, Prod.mk.injEq] at h
      rw [h.1] at hcerr
      rw [herr] at hcerr
      exact absurd hcerr (by simp)
    · rename_i hcerr
      split at h
      · rename_i htr
        exact ⟨cv, env1, rfl, by simpa using hcerr, Or.inl ⟨htr, h⟩⟩
      · rename_i htr
        match balt, h with
        | some alt, h =>
          exact ⟨cv, env1, rfl, by simpa using hcerr,
            Or.inr ⟨by simpa using htr, h⟩⟩
        | none, h =>
          simp only [Option.some.injEq, Prod.mk.injEq] at h
          exact ⟨cv, env1, rfl, by simpa using hcerr,
            Or.inr ⟨by simpa using htr, h.1.symm, h.2.symm⟩⟩

theorem spanAt_le {P : List Nat} {o : Nat} {code : List Nat} (h : SpanAt P o code)
    (hlt : 0 < code.length) : o + code.length ≤ P.length := by
  match code, hlt with
  | b :: rest, _ =>
    have hl := h rest.length (by simp)
    rw [List.get?_eq_get (show rest.length < (b :: rest).length from
      Nat.lt_succ_self rest.length)] at hl
    have := get?_lt hl
    simp only [List.length_cons]
    omega

theorem change_operand_spec2 (c : Compiler) (X : List Nat) (op a b v p : Nat)
    (Y : List Nat)
    (hins : c.instructions = X ++ op :: a :: b :: Y)
    (hp : p = X.length)
    (hmk : make op [v] = [op, v / 256 % 256, v % 256]) :
    (c.change_operand p v).instructions
      = X ++ op :: (v / 256 % 256) :: (v % 256) :: Y := by
  subst hp
  exact change_operand_spec c X op a b v Y hins hmk

theorem popfree_change (c : Compiler) (p v : Nat) (h : popfree c) :
    popfree (c.change_operand p v) := by
  simpa [popfree, Compiler.last_instruction_is_pop, Compiler.change_operand] using h

theorem vm_is_truthy_eq (o : Object) : VM.is_truthy o = is_truthy o := by
  cases o <;> first
    | rfl
    | (rename_i b; cases b <;> rfl)

theorem popfree_emit (c : Compiler) (op : Nat) (ops : List Nat) (h : ¬ op = OP_POP) :
    popfree (c.emit op ops).1 := by
  simp [popfree, Compiler.emit, Compiler.last_instruction_is_pop, h]

theorem popfree_skip (c : Compiler) (h : popfree c) :
    (if c.last_instruction_is_pop then c.remove_last_pop else c) = c := by
  rw [if_neg]
  simp [popfree] at h
  simp [h]

theorem spanAt_self (P : List Nat) : SpanAt P 0 P := by
  intro i hi
  simp

set_option maxHeartbeats 3200000 in
/-- Main simulation lemma: compiling an expression of the amended subset
appends a block of code that, run on the VM from the matching offset,
pushes exactly the evaluator's value. -/
theorem compile_expr_correct : ∀ (n : Nat) (e : Expression) (cs cs' : Compiler),
    exprSize e ≤ n →
    amExprOk e = true →
    compile_expression e cs = .ok cs' →
    popfree cs →
    ∃ code : List Nat,
      cs'.instructions = cs.instructions ++ code
      ∧ code.length ≤ 6 * exprSize e
      ∧ cs'.symbol_table = cs.symbol_table
      ∧ (∃ newc, cs'.constants = cs.constants ++ newc)
      ∧ cs'.constants.length ≤ cs.constants.length + exprSize e
      ∧ popfree cs'
      ∧ ∀ (vm : VM) (f : Nat) (v : Object) (env env' : Environment),
          SpanAt vm.instructions cs.instructions.length code →
          (∃ restc, vm.constants = cs'.constants ++ restc) →
          eval f e env = some (v, env') →
          is_error v = false →
          Rel cs.symbol_table vm.globals env →
          vm.stack.length + exprSize e ≤ 2048 →
          vm.instructions.length ≤ 65535 →
          cs.constants.length + exprSize e ≤ 65536 →
          env' = env ∧ valOK v ∧
          StepsTo vm cs.instructions.length
            { vm with stack := v :: vm.stack } (cs.instructions.length + code.length) := by
  intro n
  induction n with
  | zero =>
    intro e cs cs' hn
    exact fun _ _ _ => absurd hn (by have := exprSize_pos e; omega)
  | succ n ih =>
    intro e cs cs' hn hok hcomp hpf
    match e with
    | .IntegerLiteral value =>
      simp only [compile_expression, Compiler.add_constant, Compiler.emit, pure,
        Except.pure, Except.ok.injEq] at hcomp
      subst hcomp
      refine ⟨make OP_CONSTANT [cs.constants.length], rfl,
        by simp [make, lookup, makeOperandBytes, OP_CONSTANT, exprSize], rfl,
        ⟨[Object.Integer value], rfl⟩, by simp [exprSize],
        by simp [popfree, Compiler.last_instruction_is_pop, OP_CONSTANT, OP_POP], ?_⟩
      intro vm f v env env' hspan hconsts heval herr hrel hstk hil hcb
      match f with
      | 0 => simp [eval] at heval
      | f + 1 =>
        simp only [eval, Option.some.injEq, Prod.mk.injEq] at heval
        obtain ⟨hv, henv⟩ := heval
        subst hv; subst henv
        refine ⟨rfl, by simp [valOK], ?_⟩
        rw [show make OP_CONSTANT [cs.constants.length]
            = [0, cs.constants.length / 256 % 256, cs.constants.length % 256] from rfl]
          at hspan ⊢
        rw [spanAt_cons, spanAt_cons, spanAt_cons] at hspan
        obtain ⟨h0, h1, h2, _⟩ := hspan
        have hidx : cs.constants.length ≤ 65535 := by
          simp [exprSize] at hcb
          omega
        have hcget : vm.constants.get? (cs.constants.length / 256 % 256 * 256
            + cs.constants.length % 256) = some (Object.Integer value) := by
          rw [u16_round hidx]
          obtain ⟨restc, hr⟩ := hconsts
          rw [hr]
          rw [List.get?_append (by simp)]
          rw [List.get?_append_right (by omega)]
          simp
        have hs : vm.stack.length < 2048 := by
          simp [exprSize] at hstk
          omega
        have hstep := step_constant h0 h1 h2 hcget hs
        exact StepsTo.single (get?_lt h0) hstep
    | .Boolean true =>
      simp only [compile_expression, Compiler.emit, pure, Except.pure,
        Except.ok.injEq] at hcomp
      subst hcomp
      refine ⟨[OP_TRUE], rfl, by simp [exprSize], rfl, ⟨[], by simp⟩,
        by simp [exprSize],
        by simp [popfree, Compiler.last_instruction_is_pop, OP_TRUE, OP_POP], ?_⟩
      intro vm f v env env' hspan hconsts heval herr hrel hstk hil hcb
      match f with
      | 0 => simp [eval] at heval
      | f + 1 =>
        simp only [eval, Option.some.injEq, Prod.mk.injEq] at heval
        obtain ⟨hv, henv⟩ := heval
        subst hv; subst henv
        refine ⟨rfl, by simp [valOK], ?_⟩
        rw [spanAt_cons] at hspan
        obtain ⟨h0, _⟩ := hspan
        have hs : vm.stack.length < 2048 := by
          simp [exprSize] at hstk
          omega
        exact StepsTo.single (get?_lt h0) (step_true h0 hs)
    | .Boolean false =>
      simp only [compile_expression, Compiler.emit, pure, Except.pure,
        Except.ok.injEq] at hcomp
      subst hcomp
      refine ⟨[OP_FALSE], rfl, by simp [exprSize], rfl, ⟨[], by simp⟩,
        by simp [exprSize],
        by simp [popfree, Compiler.last_instruction_is_pop, OP_FALSE, OP_POP], ?_⟩
      intro vm f v env env' hspan hconsts heval herr hrel hstk hil hcb
      match f with
      | 0 => simp [eval] at heval
      | f + 1 =>
        simp only [eval, Option.some.injEq, Prod.mk.injEq] at heval
        obtain ⟨hv, henv⟩ := heval
        subst hv; subst henv
        refine ⟨rfl, by simp [valOK], ?_⟩
        rw [spanAt_cons] at hspan
        obtain ⟨h0, _⟩ := hspan
        have hs : vm.stack.length < 2048 := by
          simp [exprSize] at hstk
          omega
        exact StepsTo.single (get?_lt h0) (step_false h0 hs)
    | .Identifier name =>
      rcases hres : cs.symbol_table.resolve name with _ | sym <;>
        simp only [compile_expression, hres, Compiler.emit, pure, Except.pure] at hcomp
      · exact absurd hcomp (by simp)
      simp only [Except.ok.injEq] at hcomp
      subst hcomp
      refine ⟨make OP_GET_GLOBAL [sym.index], rfl,
        by simp [make, lookup, makeOperandBytes, OP_GET_GLOBAL, exprSize], rfl,
        ⟨[], by simp⟩, by simp [exprSize],
        by simp [popfree, Compiler.last_instruction_is_pop, OP_GET_GLOBAL, OP_POP], ?_⟩
      intro vm f v env env' hspan hconsts heval herr hrel hstk hil hcb
      obtain ⟨hnd, hrel2⟩ := hrel
      obtain ⟨hidx_lt, v0, hget, hglob, hvok⟩ := hrel2 name sym hres
      match f with
      | 0 => simp [eval] at heval
      | f + 1 =>
        simp only [eval, hget, Option.some.injEq, Prod.mk.injEq] at heval
        obtain ⟨hv, henv⟩ := heval
        subst hv; subst henv
        refine ⟨rfl, hvok, ?_⟩
        rw [show make OP_GET_GLOBAL [sym.index]
            = [10, sym.index / 256 % 256, sym.index % 256] from rfl] at hspan ⊢
        rw [spanAt_cons, spanAt_cons, spanAt_cons] at hspan
        obtain ⟨h0, h1, h2, _⟩ := hspan
        have hs : vm.stack.length < 2048 := by
          simp [exprSize] at hstk
          omega
        have hstep := step_get_global h0 h1 h2 hs
        rw [u16_round (by omega), hglob] at hstep
        exact StepsTo.single (get?_lt h0) hstep
    | .Infix l op r =>
      simp only [amExprOk, Bool.and_eq_true, decide_eq_true_eq] at hok
      obtain ⟨⟨hop, hokl⟩, hokr⟩ := hok
      simp only [exprSize] at hn
      rcases hop with rfl | rfl | rfl | rfl | rfl
      · -- "+"
        simp only [compile_expression] at hcomp
        rw [if_neg (by decide)] at hcomp
        rcases hc1 : compile_expression l cs with msg | c1 <;> rw [hc1] at hcomp <;>
          simp only [bind, Except.bind] at hcomp
        · simp at hcomp
        rcases hc2 : compile_expression r c1 with msg | c2 <;> rw [hc2] at hcomp <;>
          simp only [bind, Except.bind] at hcomp
        · simp at hcomp
        simp only [pure, Except.pure, Except.ok.injEq] at hcomp
        subst hcomp
        obtain ⟨codeL, hiL, hlenL, hsymL, ⟨newcL, hconL⟩, hclenL, hpfL, hsimL⟩ :=
          ih l cs c1 (by omega) hokl hc1 hpf
        obtain ⟨codeR, hiR, hlenR, hsymR, ⟨newcR, hconR⟩, hclenR, hpfR, hsimR⟩ :=
          ih r c1 c2 (by omega) hokr hc2 hpfL
        refine ⟨codeL ++ codeR ++ make OP_ADD [], by simp [Compiler.emit, hiR, hiL], ?_,
          by simp [Compiler.emit, hsymR, hsymL],
          ⟨newcL ++ newcR, by simp [Compiler.emit, hconR, hconL]⟩, ?_,
          popfree_emit c2 OP_ADD [] (by simp [OP_ADD, OP_POP]), ?_⟩
        · have hm : (make OP_ADD []).length = 1 := by
            simp [make, lookup, makeOperandBytes, OP_ADD]
          simp only [List.length_append, exprSize]
          omega
        · simp only [Compiler.emit, exprSize]
          omega
        intro vm f v env env' hspan hconsts heval herr hrel hstk hil hcb
        obtain ⟨restc, hconsts⟩ := hconsts
        simp only [exprSize] at hstk hcb
        match f with
        | 0 => simp [eval] at heval
        | g + 1 =>
          obtain ⟨lv, env1, rv, hel, hlerr, her, hrerr, hv⟩ := eval_infix_inv heval herr
          rw [List.append_assoc] at hspan
          obtain ⟨hspanL, hspan2⟩ := spanAt_append.mp hspan
          obtain ⟨hspanR, hspanOp⟩ := spanAt_append.mp hspan2
          have hc1len : c1.instructions.length = cs.instructions.length + codeL.length := by
            rw [hiL]
            simp
          obtain ⟨henv1, hvokl, hstepsL⟩ :=
            hsimL vm g lv env env1 hspanL
              ⟨newcR ++ restc, by
                rw [hconsts]
                simp [Compiler.emit, hconR, List.append_assoc]⟩
              hel hlerr hrel (by omega) hil (by omega)
          have hel1 := exprSize_pos l
          obtain ⟨henv2, hvokr, hstepsR⟩ :=
            hsimR { vm with stack := lv :: vm.stack } g rv env1 env'
              (by rw [hc1len]; exact hspanR)
              ⟨restc, by
                show vm.constants = c2.constants ++ restc
                rw [hconsts]
                simp [Compiler.emit]⟩
              her hrerr (by rw [hsymL, henv1]; exact hrel)
              (by simp; omega) hil (by omega)
          rw [hc1len] at hstepsR
          obtain ⟨a, b, rfl, rfl⟩ :=
            infix_int_shape (Or.inl rfl) hvokl hvokr (by rw [hv]; exact herr)
          rw [show make OP_ADD [] = [OP_ADD] from rfl] at hspanOp
          rw [spanAt_cons] at hspanOp
          obtain ⟨h0, -⟩ := hspanOp
          have hstep :=
            @step_add { vm with stack := Object.Integer b :: Object.Integer a :: vm.stack }
              (cs.instructions.length + codeL.length + codeR.length) a b vm.stack
              h0 rfl (by omega)
          refine ⟨henv2.trans henv1, ?_, ?_⟩
          · rw [← hv]
            exact trivial
          · rw [← hv]
            have hlen : (codeL ++ codeR ++ make OP_ADD []).length
                = codeL.length + codeR.length + 1 := by
              simp [make, lookup, makeOperandBytes, OP_ADD]
              omega
            rw [hlen]
            exact stepsTo_three hstepsL hstepsR (get?_lt h0) hstep
      · -- "<"
        simp only [compile_expression, if_true] at hcomp
        rcases hc1 : compile_expression r cs with msg | c1 <;> rw [hc1] at hcomp <;>
          simp only [bind, Except.bind] at hcomp
        · simp at hcomp
        rcases hc2 : compile_expression l c1 with msg | c2 <;> rw [hc2] at hcomp <;>
          simp only [bind, Except.bind] at hcomp
        · simp at hcomp
        simp only [pure, Except.pure, Except.ok.injEq] at hcomp
        subst hcomp
        obtain ⟨codeR, hiR, hlenR, hsymR, ⟨newcR, hconR⟩, hclenR, hpfR, hsimR⟩ :=
          ih r cs c1 (by omega) hokr hc1 hpf
        obtain ⟨codeL, hiL, hlenL, hsymL, ⟨newcL, hconL⟩, hclenL, hpfL, hsimL⟩ :=
          ih l c1 c2 (by omega) hokl hc2 hpfR
        refine ⟨codeR ++ codeL ++ make OP_GREATER_THAN [],
          by simp [Compiler.emit, hiL, hiR], ?_,
          by simp [Compiler.emit, hsymL, hsymR],
          ⟨newcR ++ newcL, by simp [Compiler.emit, hconL, hconR]⟩, ?_,
          popfree_emit c2 OP_GREATER_THAN [] (by simp [OP_GREATER_THAN, OP_POP]), ?_⟩
        · have hm : (make OP_GREATER_THAN []).length = 1 := by
            simp [make, lookup, makeOperandBytes, OP_GREATER_THAN]
          simp only [List.length_append, exprSize]
          omega
        · simp only [Compiler.emit, exprSize]
          omega
        intro vm f v env env' hspan hconsts heval herr hrel hstk hil hcb
        obtain ⟨restc, hconsts⟩ := hconsts
        simp only [exprSize] at hstk hcb
        match f with
        | 0 => simp [eval] at heval
        | g + 1 =>
          obtain ⟨lv, env1, rv, hel, hlerr, her, hrerr, hv⟩ := eval_infix_inv heval herr
          have henv1 : env1 = env :=
            eval_subset_env (exprSize l) l g env lv env1 le_rfl hokl hel
          rw [henv1] at her hel
          rw [List.append_assoc] at hspan
          obtain ⟨hspanR, hspan2⟩ := spanAt_append.mp hspan
          obtain ⟨hspanL, hspanOp⟩ := spanAt_append.mp hspan2
          have hc1len : c1.instructions.length = cs.instructions.length + codeR.length := by
            rw [hiR]
            simp
          obtain ⟨henv2, hvokr, hstepsR⟩ :=
            hsimR vm g rv env env' hspanR
              ⟨newcL ++ restc, by
                rw [hconsts]
                simp [Compiler.emit, hconL, List.append_assoc]⟩
              her hrerr hrel (by omega) hil (by omega)
          have her1 := exprSize_pos r
          obtain ⟨henv3, hvokl2, hstepsL⟩ :=
            hsimL { vm with stack := rv :: vm.stack } g lv env env
              (by rw [hc1len]; exact hspanL)
              ⟨restc, by
                show vm.constants = c2.constants ++ restc
                rw [hconsts]
                simp [Compiler.emit]⟩
              hel hlerr (by rw [hsymR]; exact hrel)
              (by simp; omega) hil (by omega)
          rw [hc1len] at hstepsL
          obtain ⟨a, b, rfl, rfl⟩ :=
            infix_int_shape (Or.inr (Or.inl rfl)) hvokl2 hvokr (by rw [hv]; exact herr)
          rw [show make OP_GREATER_THAN [] = [OP_GREATER_THAN] from rfl] at hspanOp
          rw [spanAt_cons] at hspanOp
          obtain ⟨h0, -⟩ := hspanOp
          refine ⟨henv2, ?_, ?_⟩
          · rw [← hv]
            exact trivial
          · rw [← hv]
            have h2 : eval_infix "<" (Object.Integer a) (Object.Integer b)
                = Object.Boolean (decide (b > a)) := by
              rw [decide_eq_decide.mpr gt_iff_lt]
              rfl
            rw [h2]
            have hlen : (codeR ++ codeL ++ make OP_GREATER_THAN []).length
                = codeR.length + codeL.length + 1 := by
              simp [make, lookup, makeOperandBytes, OP_GREATER_THAN]
              omega
            rw [hlen]
            exact stepsTo_three hstepsR hstepsL (get?_lt h0)
              (@step_greater_than
                { vm with stack := Object.Integer a :: Object.Integer b :: vm.stack }
                (cs.instructions.length + codeR.length + codeL.length) b a vm.stack
                h0 rfl (by omega))
      · -- ">"
        simp only [compile_expression] at hcomp
        rw [if_neg (by decide)] at hcomp
        rcases hc1 : compile_expression l cs with msg | c1 <;> rw [hc1] at hcomp <;>
          simp only [bind, Except.bind] at hcomp
        · simp at hcomp
        rcases hc2 : compile_expression r c1 with msg | c2 <;> rw [hc2] at hcomp <;>
          simp only [bind, Except.bind] at hcomp
        · simp at hcomp
        simp only [pure, Except.pure, Except.ok.injEq] at hcomp
        subst hcomp
        obtain ⟨codeL, hiL, hlenL, hsymL, ⟨newcL, hconL⟩, hclenL, hpfL, hsimL⟩ :=
          ih l cs c1 (by omega) hokl hc1 hpf
        obtain ⟨codeR, hiR, hlenR, hsymR, ⟨newcR, hconR⟩, hclenR, hpfR, hsimR⟩ :=
          ih r c1 c2 (by omega) hokr hc2 hpfL
        refine ⟨codeL ++ codeR ++ make OP_GREATER_THAN [], by simp [Compiler.emit, hiR, hiL], ?_,
          by simp [Compiler.emit, hsymR, hsymL],
          ⟨newcL ++ newcR, by simp [Compiler.emit, hconR, hconL]⟩, ?_,
          popfree_emit c2 OP_GREATER_THAN [] (by simp [OP_GREATER_THAN, OP_POP]), ?_⟩
        · have hm : (make OP_GREATER_THAN []).length = 1 := by
            simp [make, lookup, makeOperandBytes, OP_GREATER_THAN]
          simp only [List.length_append, exprSize]
          omega
        · simp only [Compiler.emit, exprSize]
          omega
        intro vm f v env env' hspan hconsts heval herr hrel hstk hil hcb
        obtain ⟨restc, hconsts⟩ := hconsts
        simp only [exprSize] at hstk hcb
        match f with
        | 0 => simp [eval] at heval
        | g + 1 =>
          obtain ⟨lv, env1, rv, hel, hlerr, her, hrerr, hv⟩ := eval_infix_inv heval herr
          rw [List.append_assoc] at hspan
          obtain ⟨hspanL, hspan2⟩ := spanAt_append.mp hspan
          obtain ⟨hspanR, hspanOp⟩ := spanAt_append.mp hspan2
          have hc1len : c1.instructions.length = cs.instructions.length + codeL.length := by
            rw [hiL]
            simp
          obtain ⟨henv1, hvokl, hstepsL⟩ :=
            hsimL vm g lv env env1 hspanL
              ⟨newcR ++ restc, by
                rw [hconsts]
                simp [Compiler.emit, hconR, List.append_assoc]⟩
              hel hlerr hrel (by omega) hil (by omega)
          have hel1 := exprSize_pos l
          obtain ⟨henv2, hvokr, hstepsR⟩ :=
            hsimR { vm with stack := lv :: vm.stack } g rv env1 env'
              (by rw [hc1len]; exact hspanR)
              ⟨restc, by
                show vm.constants = c2.constants ++ restc
                rw [hconsts]
                simp [Compiler.emit]⟩
              her hrerr (by rw [hsymL, henv1]; exact hrel)
              (by simp; omega) hil (by omega)
          rw [hc1len] at hstepsR
          rw [show make OP_GREATER_THAN [] = [OP_GREATER_THAN] from rfl] at hspanOp
          rw [spanAt_cons] at hspanOp
          obtain ⟨h0, -⟩ := hspanOp
          have hlen : (codeL ++ codeR ++ make OP_GREATER_THAN []).length
              = codeL.length + codeR.length + 1 := by
            simp [make, lookup, makeOperandBytes, OP_GREATER_THAN]
            omega
          obtain ⟨a, b, rfl, rfl⟩ :=
            infix_int_shape (Or.inr (Or.inr rfl)) hvokl hvokr (by rw [hv]; exact herr)
          refine ⟨henv2.trans henv1, ?_, ?_⟩
          · rw [← hv]
            exact trivial
          · rw [← hv]
            rw [hlen]
            exact stepsTo_three hstepsL hstepsR (get?_lt h0)
              (@step_greater_than
                { vm with stack := Object.Integer b :: Object.Integer a :: vm.stack }
                (cs.instructions.length + codeL.length + codeR.length) a b vm.stack
                h0 rfl (by omega))
      · -- "=="
        simp only [compile_expression] at hcomp
        rw [if_neg (by decide)] at hcomp
        rcases hc1 : compile_expression l cs with msg | c1 <;> rw [hc1] at hcomp <;>
          simp only [bind, Except.bind] at hcomp
        · simp at hcomp
        rcases hc2 : compile_expression r c1 with msg | c2 <;> rw [hc2] at hcomp <;>
          simp only [bind, Except.bind] at hcomp
        · simp at hcomp
        simp only [pure, Except.pure, Except.ok.injEq] at hcomp
        subst hcomp
        obtain ⟨codeL, hiL, hlenL, hsymL, ⟨newcL, hconL⟩, hclenL, hpfL, hsimL⟩ :=
          ih l cs c1 (by omega) hokl hc1 hpf
        obtain ⟨codeR, hiR, hlenR, hsymR, ⟨newcR, hconR⟩, hclenR, hpfR, hsimR⟩ :=
          ih r c1 c2 (by omega) hokr hc2 hpfL
        refine ⟨codeL ++ codeR ++ make OP_EQUAL [], by simp [Compiler.emit, hiR, hiL], ?_,
          by simp [Compiler.emit, hsymR, hsymL],
          ⟨newcL ++ newcR, by simp [Compiler.emit, hconR, hconL]⟩, ?_,
          popfree_emit c2 OP_EQUAL [] (by simp [OP_EQUAL, OP_POP]), ?_⟩
        · have hm : (make OP_EQUAL []).length = 1 := by
            simp [make, lookup, makeOperandBytes, OP_EQUAL]
          simp only [List.length_append, exprSize]
          omega
        · simp only [Compiler.emit, exprSize]
          omega
        intro vm f v env env' hspan hconsts heval herr hrel hstk hil hcb
        obtain ⟨restc, hconsts⟩ := hconsts
        simp only [exprSize] at hstk hcb
        match f with
        | 0 => simp [eval] at heval
        | g + 1 =>
          obtain ⟨lv, env1, rv, hel, hlerr, her, hrerr, hv⟩ := eval_infix_inv heval herr
          rw [List.append_assoc] at hspan
          obtain ⟨hspanL, hspan2⟩ := spanAt_append.mp hspan
          obtain ⟨hspanR, hspanOp⟩ := spanAt_append.mp hspan2
          have hc1len : c1.instructions.length = cs.instructions.length + codeL.length := by
            rw [hiL]
            simp
          obtain ⟨henv1, hvokl, hstepsL⟩ :=
            hsimL vm g lv env env1 hspanL
              ⟨newcR ++ restc, by
                rw [hconsts]
                simp [Compiler.emit, hconR, List.append_assoc]⟩
              hel hlerr hrel (by omega) hil (by omega)
          have hel1 := exprSize_pos l
          obtain ⟨henv2, hvokr, hstepsR⟩ :=
            hsimR { vm with stack := lv :: vm.stack } g rv env1 env'
              (by rw [hc1len]; exact hspanR)
              ⟨restc, by
                show vm.constants = c2.constants ++ restc
                rw [hconsts]
                simp [Compiler.emit]⟩
              her hrerr (by rw [hsymL, henv1]; exact hrel)
              (by simp; omega) hil (by omega)
          rw [hc1len] at hstepsR
          rw [show make OP_EQUAL [] = [OP_EQUAL] from rfl] at hspanOp
          rw [spanAt_cons] at hspanOp
          obtain ⟨h0, -⟩ := hspanOp
          have hlen : (codeL ++ codeR ++ make OP_EQUAL []).length
              = codeL.length + codeR.length + 1 := by
            simp [make, lookup, makeOperandBytes, OP_EQUAL]
            omega
          rcases infix_eq_shape (Or.inl rfl) hvokl hvokr (by rw [hv]; exact herr) with
            ⟨a, b, rfl, rfl⟩ | ⟨a, b, rfl, rfl⟩
          · refine ⟨henv2.trans henv1, ?_, ?_⟩
            · rw [← hv]
              exact trivial
            · rw [← hv]
              have h2 : eval_infix "==" (Object.Integer a) (Object.Integer b)
                  = Object.Boolean (objEq (Object.Integer a) (Object.Integer b)) := by
                rw [show objEq (Object.Integer a) (Object.Integer b) = decide (a = b) from by
                  simp [objEq]]
                rfl
              rw [h2, hlen]
              exact stepsTo_three hstepsL hstepsR (get?_lt h0)
                (@step_equal
                  { vm with stack := Object.Integer b :: Object.Integer a :: vm.stack }
                  (cs.instructions.length + codeL.length + codeR.length)
                  (Object.Integer b) (Object.Integer a) vm.stack
                  h0 rfl (by omega))
          · refine ⟨henv2.trans henv1, ?_, ?_⟩
            · rw [← hv]
              exact trivial
            · rw [← hv]
              have h2 : eval_infix "==" (Object.Boolean a) (Object.Boolean b)
                  = Object.Boolean (objEq (Object.Boolean a) (Object.Boolean b)) := by
                rw [show objEq (Object.Boolean a) (Object.Boolean b) = decide (a = b) from by
                  simp [objEq]]
                rfl
              rw [h2, hlen]
              exact stepsTo_three hstepsL hstepsR (get?_lt h0)
                (@step_equal
                  { vm with stack := Object.Boolean b :: Object.Boolean a :: vm.stack }
                  (cs.instructions.length + codeL.length + codeR.length)
                  (Object.Boolean b) (Object.Boolean a) vm.stack
                  h0 rfl (by omega))
      · -- "!="
        simp only [compile_expression] at hcomp
        rw [if_neg (by decide)] at hcomp
        rcases hc1 : compile_expression l cs with msg | c1 <;> rw [hc1] at hcomp <;>
          simp only [bind, Except.bind] at hcomp
        · simp at hcomp
        rcases hc2 : compile_expression r c1 with msg | c2 <;> rw [hc2] at hcomp <;>
          simp only [bind, Except.bind] at hcomp
        · simp at hcomp
        simp only [pure, Except.pure, Except.ok.injEq] at hcomp
        subst hcomp
        obtain ⟨codeL, hiL, hlenL, hsymL, ⟨newcL, hconL⟩, hclenL, hpfL, hsimL⟩ :=
          ih l cs c1 (by omega) hokl hc1 hpf
        obtain ⟨codeR, hiR, hlenR, hsymR, ⟨newcR, hconR⟩, hclenR, hpfR, hsimR⟩ :=
          ih r c1 c2 (by omega) hokr hc2 hpfL
        refine ⟨codeL ++ codeR ++ make OP_NOT_EQUAL [], by simp [Compiler.emit, hiR, hiL], ?_,
          by simp [Compiler.emit, hsymR, hsymL],
          ⟨newcL ++ newcR, by simp [Compiler.emit, hconR, hconL]⟩, ?_,
          popfree_emit c2 OP_NOT_EQUAL [] (by simp [OP_NOT_EQUAL, OP_POP]), ?_⟩
        · have hm : (make OP_NOT_EQUAL []).length = 1 := by
            simp [make, lookup, makeOperandBytes, OP_NOT_EQUAL]
          simp only [List.length_append, exprSize]
          omega
        · simp only [Compiler.emit, exprSize]
          omega
        intro vm f v env env' hspan hconsts heval herr hrel hstk hil hcb
        obtain ⟨restc, hconsts⟩ := hconsts
        simp only [exprSize] at hstk hcb
        match f with
        | 0 => simp [eval] at heval
        | g + 1 =>
          obtain ⟨lv, env1, rv, hel, hlerr, her, hrerr, hv⟩ := eval_infix_inv heval herr
          rw [List.append_assoc] at hspan
          obtain ⟨hspanL, hspan2⟩ := spanAt_append.mp hspan
          obtain ⟨hspanR, hspanOp⟩ := spanAt_append.mp hspan2
          have hc1len : c1.instructions.length = cs.instructions.length + codeL.length := by
            rw [hiL]
            simp
          obtain ⟨henv1, hvokl, hstepsL⟩ :=
            hsimL vm g lv env env1 hspanL
              ⟨newcR ++ restc, by
                rw [hconsts]
                simp [Compiler.emit, hconR, List.append_assoc]⟩
              hel hlerr hrel (by omega) hil (by omega)
          have hel1 := exprSize_pos l
          obtain ⟨henv2, hvokr, hstepsR⟩ :=
            hsimR { vm with stack := lv :: vm.stack } g rv env1 env'
              (by rw [hc1len]; exact hspanR)
              ⟨restc, by
                show vm.constants = c2.constants ++ restc
                rw [hconsts]
                simp [Compiler.emit]⟩
              her hrerr (by rw [hsymL, henv1]; exact hrel)
              (by simp; omega) hil (by omega)
          rw [hc1len] at hstepsR
          rw [show make OP_NOT_EQUAL [] = [OP_NOT_EQUAL] from rfl] at hspanOp
          rw [spanAt_cons] at hspanOp
          obtain ⟨h0, -⟩ := hspanOp
          have hlen : (codeL ++ codeR ++ make OP_NOT_EQUAL []).length
              = codeL.length + codeR.length + 1 := by
            simp [make, lookup, makeOperandBytes, OP_NOT_EQUAL]
            omega
          rcases infix_eq_shape (Or.inr rfl) hvokl hvokr (by rw [hv]; exact herr) with
            ⟨a, b, rfl, rfl⟩ | ⟨a, b, rfl, rfl⟩
          · refine ⟨henv2.trans henv1, ?_, ?_⟩
            · rw [← hv]
              exact trivial
            · rw [← hv]
              have h2 : eval_infix "!=" (Object.Integer a) (Object.Integer b)
                  = Object.Boolean (! objEq (Object.Integer a) (Object.Integer b)) := by
                rw [show objEq (Object.Integer a) (Object.Integer b) = decide (a = b) from by
                  simp [objEq]]
                show Object.Boolean (decide (a ≠ b))
                    = Object.Boolean (! decide (a = b))
                simp
              rw [h2, hlen]
              exact stepsTo_three hstepsL hstepsR (get?_lt h0)
                (@step_not_equal
                  { vm with stack := Object.Integer b :: Object.Integer a :: vm.stack }
                  (cs.instructions.length + codeL.length + codeR.length)
                  (Object.Integer b) (Object.Integer a) vm.stack
                  h0 rfl (by omega))
          · refine ⟨henv2.trans henv1, ?_, ?_⟩
            · rw [← hv]
              exact trivial
            · rw [← hv]
              have h2 : eval_infix "!=" (Object.Boolean a) (Object.Boolean b)
                  = Object.Boolean (! objEq (Object.Boolean a) (Object.Boolean b)) := by
                rw [show objEq (Object.Boolean a) (Object.Boolean b) = decide (a = b) from by
                  simp [objEq]]
                show Object.Boolean (decide (a ≠ b))
                    = Object.Boolean (! decide (a = b))
                simp
              rw [h2, hlen]
              exact stepsTo_three hstepsL hstepsR (get?_lt h0)
                (@step_not_equal
                  { vm with stack := Object.Boolean b :: Object.Boolean a :: vm.stack }
                  (cs.instructions.length + codeL.length + codeR.length)
                  (Object.Boolean b) (Object.Boolean a) vm.stack
                  h0 rfl (by omega))
    | .If c bt balt =>
      unfold amExprOk at hok
      simp only [Bool.and_eq_true] at hok
      obtain ⟨⟨hokc, hokt⟩, hoka⟩ := hok
      obtain ⟨t, rfl, hokT⟩ := amBlockOk_shape hokt
      rcases balt with _ | alt
      · -- no alternative: compiler synthesises a Null constant for the else path
        simp only [exprSize, blockSize, stmtListSize, stmtSize] at hn
        simp only [compile_expression] at hcomp
        rcases hc1 : compile_expression c cs with msg | c1 <;> rw [hc1] at hcomp <;>
          simp only [bind, Except.bind] at hcomp
        · simp at hcomp
        rw [show c1.emit OP_JUMP_NOT_TRUTHY [9999]
            = ((c1.emit OP_JUMP_NOT_TRUTHY [9999]).1, c1.instructions.length) from rfl]
          at hcomp
        dsimp only at hcomp
        rw [compile_block_single] at hcomp
        rcases hc3 : compile_expression t (c1.emit OP_JUMP_NOT_TRUTHY [9999]).1
            with msg | c3 <;> rw [hc3] at hcomp <;>
          simp only [bind, Except.bind] at hcomp
        · simp at hcomp
        obtain ⟨codeC, hiC, hlenC, hsymC, ⟨newcC, hconC⟩, hclenC, hpfC, hsimC⟩ :=
          ih c cs c1 (by omega) hokc hc1 hpf
        obtain ⟨codeT, hiT, hlenT, hsymT, ⟨newcT, hconT⟩, hclenT, hpfT, hsimT⟩ :=
          ih t (c1.emit OP_JUMP_NOT_TRUTHY [9999]).1 c3 (by omega) hokT hc3
            (popfree_emit c1 OP_JUMP_NOT_TRUTHY [9999]
              (by simp [OP_JUMP_NOT_TRUTHY, OP_POP]))
        rw [popfree_skip c3 hpfT] at hcomp
        rw [show ((c3.emit OP_JUMP [9999]).1.change_operand c1.instructions.length
              (c3.emit OP_JUMP [9999]).1.instructions.length).add_constant Object.Null
            = ((((c3.emit OP_JUMP [9999]).1.change_operand c1.instructions.length
                (c3.emit OP_JUMP [9999]).1.instructions.length).add_constant Object.Null).1,
              ((c3.emit OP_JUMP [9999]).1.change_operand c1.instructions.length
                (c3.emit OP_JUMP [9999]).1.instructions.length).constants.length) from rfl]
          at hcomp
        dsimp only at hcomp
        simp only [pure, Except.pure, Except.ok.injEq] at hcomp
        subst hcomp
        have hc1len : c1.instructions.length = cs.instructions.length + codeC.length := by
          rw [hiC]
          simp
        have hmk1 : make OP_JUMP_NOT_TRUTHY [9999] = [8, 39, 15] := rfl
        have hmk2 : make OP_JUMP [9999] = [9, 39, 15] := rfl
        have hI2 : (c1.emit OP_JUMP_NOT_TRUTHY [9999]).1.instructions
            = c1.instructions ++ [8, 39, 15] := by
          simp [Compiler.emit, hmk1]
        have hI3 : c3.instructions = c1.instructions ++ 8 :: 39 :: 15 :: codeT := by
          rw [hiT, hI2]
          simp
        have hI5 : (c3.emit OP_JUMP [9999]).1.instructions
            = c1.instructions ++ 8 :: 39 :: 15 :: (codeT ++ [9, 39, 15]) := by
          simp [Compiler.emit, hmk2, hI3]
        have hacp : (c3.emit OP_JUMP [9999]).1.instructions.length
            = cs.instructions.length + codeC.length + 3 + codeT.length + 3 := by
          rw [hI5]
          simp only [List.length_append, List.length_cons, List.length_nil, hc1len]
          omega
        have hI6 := change_operand_spec (c3.emit OP_JUMP [9999]).1 c1.instructions 8 39 15
            (c3.emit OP_JUMP [9999]).1.instructions.length (codeT ++ [9, 39, 15]) hI5
            (make_jnt _)
        rw [hacp] at hI6
        rw [hacp]
        have hsym6 : ((c3.emit OP_JUMP [9999]).1.change_operand c1.instructions.length
              (cs.instructions.length + codeC.length + 3 + codeT.length + 3)).symbol_table
            = cs.symbol_table := by
          simp [Compiler.change_operand, Compiler.emit, hsymT, hsymC]
        have hcon6 : ((c3.emit OP_JUMP [9999]).1.change_operand c1.instructions.length
              (cs.instructions.length + codeC.length + 3 + codeT.length + 3)).constants
            = c3.constants := by
          simp [Compiler.change_operand, Compiler.emit]
        rw [hcon6]
        simp only [Compiler.emit] at hconT hclenT hsymT
        have hjp : (c3.emit OP_JUMP [9999]).2
            = cs.instructions.length + codeC.length + 3 + codeT.length := by
          show c3.instructions.length = _
          rw [hI3]
          simp only [List.length_append, List.length_cons, List.length_nil, hc1len]
          omega
        have hmk3 : make OP_CONSTANT [c3.constants.length]
            = [0, c3.constants.length / 256 % 256, c3.constants.length % 256] := rfl
        have hIX : ((((c3.emit OP_JUMP [9999]).1.change_operand c1.instructions.length
              (cs.instructions.length + codeC.length + 3 + codeT.length + 3)).add_constant
                Object.Null).1.emit OP_CONSTANT [c3.constants.length]).1.instructions
            = (c1.instructions ++ 8
                :: ((cs.instructions.length + codeC.length + 3 + codeT.length + 3) / 256 % 256)
                :: ((cs.instructions.length + codeC.length + 3 + codeT.length + 3) % 256)
                :: codeT) ++ 9 :: 39 :: 15
                :: [0, c3.constants.length / 256 % 256, c3.constants.length % 256] := by
          rw [show ((((c3.emit OP_JUMP [9999]).1.change_operand c1.instructions.length
                (cs.instructions.length + codeC.length + 3 + codeT.length + 3)).add_constant
                  Object.Null).1.emit OP_CONSTANT [c3.constants.length]).1.instructions
              = ((c3.emit OP_JUMP [9999]).1.change_operand c1.instructions.length
                  (cs.instructions.length + codeC.length + 3 + codeT.length + 3)).instructions
                ++ make OP_CONSTANT [c3.constants.length] from rfl]
          rw [hmk3, hI6]
          simp
        have hb : ((((c3.emit OP_JUMP [9999]).1.change_operand c1.instructions.length
              (cs.instructions.length + codeC.length + 3 + codeT.length + 3)).add_constant
                Object.Null).1.emit OP_CONSTANT [c3.constants.length]).1.instructions.length
            = cs.instructions.length + codeC.length + 3 + codeT.length + 3 + 3 := by
          rw [hIX]
          simp only [List.length_append, List.length_cons, List.length_nil, hc1len]
          omega
        rw [hjp, hb]
        have hfin := change_operand_spec2
            ((((c3.emit OP_JUMP [9999]).1.change_operand c1.instructions.length
              (cs.instructions.length + codeC.length + 3 + codeT.length + 3)).add_constant
                Object.Null).1.emit OP_CONSTANT [c3.constants.length]).1
            (c1.instructions ++ 8
              :: ((cs.instructions.length + codeC.length + 3 + codeT.length + 3) / 256 % 256)
              :: ((cs.instructions.length + codeC.length + 3 + codeT.length + 3) % 256)
              :: codeT) 9 39 15
            (cs.instructions.length + codeC.length + 3 + codeT.length + 3 + 3)
            (cs.instructions.length + codeC.length + 3 + codeT.length)
            [0, c3.constants.length / 256 % 256, c3.constants.length % 256] hIX
            (by
              simp only [List.length_append, List.length_cons, List.length_nil, hc1len]
              omega)
            (make_jump _)
        have hconX : ((((c3.emit OP_JUMP [9999]).1.change_operand c1.instructions.length
              (cs.instructions.length + codeC.length + 3 + codeT.length + 3)).add_constant
                Object.Null).1.emit OP_CONSTANT [c3.constants.length]).1.constants
            = c3.constants ++ [Object.Null] := by
          rw [← hcon6]
          rfl
        have hsymX : ((((c3.emit OP_JUMP [9999]).1.change_operand c1.instructions.length
              (cs.instructions.length + codeC.length + 3 + codeT.length + 3)).add_constant
                Object.Null).1.emit OP_CONSTANT [c3.constants.length]).1.symbol_table
            = cs.symbol_table := by
          rw [← hsym6]
          rfl
        refine ⟨codeC
            ++ ([8, (cs.instructions.length + codeC.length + 3 + codeT.length + 3) / 256 % 256,
                 (cs.instructions.length + codeC.length + 3 + codeT.length + 3) % 256]
            ++ (codeT
            ++ ([9, (cs.instructions.length + codeC.length + 3 + codeT.length + 3 + 3) / 256
                      % 256,
                 (cs.instructions.length + codeC.length + 3 + codeT.length + 3 + 3) % 256]
            ++ [0, c3.constants.length / 256 % 256, c3.constants.length % 256]))),
          ?_, ?_, ?_, ?_, ?_, ?_, ?_⟩
        · rw [hfin, hiC]
          simp
        · simp only [List.length_append, List.length_cons, List.length_nil, exprSize,
            blockSize, stmtListSize, stmtSize]
          omega
        · rw [show (Compiler.change_operand _ (cs.instructions.length + codeC.length + 3
                + codeT.length) (cs.instructions.length + codeC.length + 3 + codeT.length + 3
                + 3)).symbol_table = _ from (change_operand_fields _ _ _).2.1]
          rw [hsymX]
        · exact ⟨newcC ++ (newcT ++ [Object.Null]), by
            rw [show (Compiler.change_operand _ (cs.instructions.length + codeC.length + 3
                  + codeT.length) (cs.instructions.length + codeC.length + 3 + codeT.length
                  + 3 + 3)).constants = _ from (change_operand_fields _ _ _).1]
            rw [hconX, hconT, hconC]
            simp⟩
        · rw [show (Compiler.change_operand _ (cs.instructions.length + codeC.length + 3
                + codeT.length) (cs.instructions.length + codeC.length + 3 + codeT.length + 3
                + 3)).constants = _ from (change_operand_fields _ _ _).1]
          rw [hconX]
          simp only [exprSize, blockSize, stmtListSize, stmtSize, List.length_append,
            List.length_cons, List.length_nil]
          omega
        · exact popfree_change _ _ _
            (popfree_emit _ OP_CONSTANT _ (by simp [OP_CONSTANT, OP_POP]))
        intro vm f v env env' hspan hconsts heval herr hrel hstk hil hcb
        obtain ⟨restc, hconsts⟩ := hconsts
        simp only [exprSize, blockSize, stmtListSize, stmtSize] at hstk hcb
        rw [show (Compiler.change_operand _ (cs.instructions.length + codeC.length + 3
              + codeT.length) (cs.instructions.length + codeC.length + 3 + codeT.length + 3
              + 3)).constants = _ from (change_operand_fields _ _ _).1, hconX] at hconsts
        have hBle : cs.instructions.length + codeC.length + 3 + codeT.length + 3 + 3
            ≤ 65535 := by
          have hle := spanAt_le hspan (by simp)
          simp only [List.length_append, List.length_cons, List.length_nil] at hle
          omega
        obtain ⟨hspanC, hspan2⟩ := spanAt_append.mp hspan
        obtain ⟨hspanJNT, hspan3⟩ := spanAt_append.mp hspan2
        obtain ⟨hspanT, hspan4⟩ := spanAt_append.mp hspan3
        obtain ⟨hspanJ, hspanK⟩ := spanAt_append.mp hspan4
        simp only [List.length_append, List.length_cons, List.length_nil]
          at hspanJNT hspanT hspanJ hspanK
        rw [spanAt_cons, spanAt_cons, spanAt_cons] at hspanJNT
        obtain ⟨h8, hA1, hA2, -⟩ := hspanJNT
        rw [spanAt_cons, spanAt_cons, spanAt_cons] at hspanJ
        obtain ⟨h9, hB1, hB2, -⟩ := hspanJ
        rw [spanAt_cons, spanAt_cons, spanAt_cons] at hspanK
        obtain ⟨h0c, hN1, hN2, -⟩ := hspanK
        match f with
        | 0 => simp [eval] at heval
        | g + 1 =>
          obtain ⟨cv, env1, hec, hcerr, hbr⟩ := eval_if_inv heval herr
          obtain ⟨henvC, hvokC, hstepsC⟩ :=
            hsimC vm g cv env env1 hspanC
              ⟨newcT ++ (Object.Null :: restc), by
                rw [hconsts, hconT]
                simp⟩
              hec hcerr hrel (by omega) hil (by omega)
          have hstepJNT := @step_jnt { vm with stack := cv :: vm.stack }
            (cs.instructions.length + codeC.length) _ _ _ _ h8 hA1 hA2 rfl
          rw [vm_is_truthy_eq] at hstepJNT
          rcases hbr with ⟨htr, hblk⟩ | ⟨htr, hrest⟩
          · -- truthy: run the consequence, then jump past the Null constant
            rw [htr, if_pos rfl] at hstepJNT
            obtain ⟨g2, hevt⟩ := eval_block_single_expr hblk
            rw [henvC] at hevt
            have hoffT : (c1.emit OP_JUMP_NOT_TRUTHY [9999]).1.instructions.length
                = cs.instructions.length + codeC.length + 3 := by
              rw [hI2]
              simp only [List.length_append, List.length_cons, List.length_nil, hc1len]
            obtain ⟨henvT, hvokT, hstepsT⟩ :=
              hsimT vm g2 v env env'
                (by rw [hoffT]; exact hspanT)
                ⟨Object.Null :: restc, by
                  rw [hconsts]
                  simp [Compiler.emit, hconT]⟩
                hevt herr
                (by simp only [Compiler.emit]; rw [hsymC]; exact hrel)
                (by omega) hil
                (by simp only [Compiler.emit]; omega)
            rw [hoffT] at hstepsT
            have hstepJ := @step_jump { vm with stack := v :: vm.stack }
              (cs.instructions.length + codeC.length + 3 + codeT.length) _ _ h9 hB1 hB2
            rw [u16_round hBle] at hstepJ
            refine ⟨henvT, hvokT, ?_⟩
            rw [show cs.instructions.length + (codeC
                ++ ([8, (cs.instructions.length + codeC.length + 3 + codeT.length + 3) / 256
                      % 256,
                    (cs.instructions.length + codeC.length + 3 + codeT.length + 3) % 256]
                ++ (codeT
                ++ ([9, (cs.instructions.length + codeC.length + 3 + codeT.length + 3 + 3)
                        / 256 % 256,
                    (cs.instructions.length + codeC.length + 3 + codeT.length + 3 + 3) % 256]
                ++ [0, c3.constants.length / 256 % 256, c3.constants.length % 256])))).length
              = cs.instructions.length + codeC.length + 3 + codeT.length + 3 + 3 from by
              simp only [List.length_append, List.length_cons, List.length_nil]
              omega]
            exact ((hstepsC.trans (StepsTo.single (get?_lt h8) hstepJNT)).trans
              hstepsT).trans (StepsTo.single (get?_lt h9) hstepJ)
          · -- falsy: jump to the synthesised Null constant and push it
            rw [htr] at hstepJNT
            rw [if_neg (by simp)] at hstepJNT
            rw [u16_round (by omega)] at hstepJNT
            obtain ⟨hv, henv2⟩ := hrest
            have hNle : c3.constants.length ≤ 65535 := by omega
            have hcget : vm.constants.get? (c3.constants.length / 256 % 256 * 256
                + c3.constants.length % 256) = some Object.Null := by
              rw [u16_round hNle, hconsts]
              rw [List.get?_append (by simp)]
              rw [List.get?_append_right (by omega)]
              simp
            have hstepK := @step_constant vm
              (cs.instructions.length + codeC.length + 3 + codeT.length + 3) _ _ Object.Null
              h0c hN1 hN2 hcget (by omega)
            refine ⟨henv2.trans henvC, by rw [hv]; exact trivial, ?_⟩
            rw [hv]
            rw [show cs.instructions.length + (codeC
                ++ ([8, (cs.instructions.length + codeC.length + 3 + codeT.length + 3) / 256
                      % 256,
                    (cs.instructions.length + codeC.length + 3 + codeT.length + 3) % 256]
                ++ (codeT
                ++ ([9, (cs.instructions.length + codeC.length + 3 + codeT.length + 3 + 3)
                        / 256 % 256,
                    (cs.instructions.length + codeC.length + 3 + codeT.length + 3 + 3) % 256]
                ++ [0, c3.constants.length / 256 % 256, c3.constants.length % 256])))).length
              = cs.instructions.length + codeC.length + 3 + codeT.length + 3 + 3 from by
              simp only [List.length_append, List.length_cons, List.length_nil]
              omega]
            exact (hstepsC.trans (StepsTo.single (get?_lt h8) hstepJNT)).trans
              (StepsTo.single (get?_lt h0c) hstepK)
      · -- some alternative
        obtain ⟨t2, rfl, hokT2⟩ := amBlockOk_shape (by simpa using hoka)
        simp only [exprSize, blockSize, stmtListSize, stmtSize] at hn
        simp only [compile_expression] at hcomp
        rcases hc1 : compile_expression c cs with msg | c1 <;> rw [hc1] at hcomp <;>
          simp only [bind, Except.bind] at hcomp
        · simp at hcomp
        rw [show c1.emit OP_JUMP_NOT_TRUTHY [9999]
            = ((c1.emit OP_JUMP_NOT_TRUTHY [9999]).1, c1.instructions.length) from rfl]
          at hcomp
        dsimp only at hcomp
        rw [compile_block_single] at hcomp
        rcases hc3 : compile_expression t (c1.emit OP_JUMP_NOT_TRUTHY [9999]).1
            with msg | c3 <;> rw [hc3] at hcomp <;>
          simp only [bind, Except.bind] at hcomp
        · simp at hcomp
        obtain ⟨codeC, hiC, hlenC, hsymC, ⟨newcC, hconC⟩, hclenC, hpfC, hsimC⟩ :=
          ih c cs c1 (by omega) hokc hc1 hpf
        obtain ⟨codeT, hiT, hlenT, hsymT, ⟨newcT, hconT⟩, hclenT, hpfT, hsimT⟩ :=
          ih t (c1.emit OP_JUMP_NOT_TRUTHY [9999]).1 c3 (by omega) hokT hc3
            (popfree_emit c1 OP_JUMP_NOT_TRUTHY [9999]
              (by simp [OP_JUMP_NOT_TRUTHY, OP_POP]))
        rw [popfree_skip c3 hpfT] at hcomp
        rw [compile_block_single] at hcomp
        rcases hc7 : compile_expression t2
            ((c3.emit OP_JUMP [9999]).1.change_operand c1.instructions.length
              (c3.emit OP_JUMP [9999]).1.instructions.length) with msg | c7 <;>
          rw [hc7] at hcomp <;> dsimp only at hcomp
        · simp at hcomp
        obtain ⟨codeE, hiE, hlenE, hsymE, ⟨newcE, hconE⟩, hclenE, hpfE, hsimE⟩ :=
          ih t2 ((c3.emit OP_JUMP [9999]).1.change_operand c1.instructions.length
              (c3.emit OP_JUMP [9999]).1.instructions.length) c7 (by omega) hokT2 hc7
            (popfree_change _ _ _
              (popfree_emit c3 OP_JUMP [9999] (by simp [OP_JUMP, OP_POP])))
        simp only [pure, Except.pure] at hcomp
        rw [popfree_skip c7 hpfE] at hcomp
        simp only [Except.ok.injEq] at hcomp
        subst hcomp
        have hc1len : c1.instructions.length = cs.instructions.length + codeC.length := by
          rw [hiC]
          simp
        have hmk1 : make OP_JUMP_NOT_TRUTHY [9999] = [8, 39, 15] := rfl
        have hmk2 : make OP_JUMP [9999] = [9, 39, 15] := rfl
        have hI2 : (c1.emit OP_JUMP_NOT_TRUTHY [9999]).1.instructions
            = c1.instructions ++ [8, 39, 15] := by
          simp [Compiler.emit, hmk1]
        have hI3 : c3.instructions = c1.instructions ++ 8 :: 39 :: 15 :: codeT := by
          rw [hiT, hI2]
          simp
        have hI5 : (c3.emit OP_JUMP [9999]).1.instructions
            = c1.instructions ++ 8 :: 39 :: 15 :: (codeT ++ [9, 39, 15]) := by
          simp [Compiler.emit, hmk2, hI3]
        have hacp : (c3.emit OP_JUMP [9999]).1.instructions.length
            = cs.instructions.length + codeC.length + 3 + codeT.length + 3 := by
          rw [hI5]
          simp only [List.length_append, List.length_cons, List.length_nil, hc1len]
          omega
        have hI6 := change_operand_spec (c3.emit OP_JUMP [9999]).1 c1.instructions 8 39 15
            (c3.emit OP_JUMP [9999]).1.instructions.length (codeT ++ [9, 39, 15]) hI5
            (make_jnt _)
        rw [hacp] at hI6 hc7 hiE hsymE hconE hclenE hsimE
        have hjp : (c3.emit OP_JUMP [9999]).2
            = cs.instructions.length + codeC.length + 3 + codeT.length := by
          show c3.instructions.length = _
          rw [hI3]
          simp only [List.length_append, List.length_cons, List.length_nil, hc1len]
          omega
        have hb : c7.instructions.length
            = cs.instructions.length + codeC.length + 3 + codeT.length + 3
              + codeE.length := by
          rw [hiE, hI6]
          simp only [List.length_append, List.length_cons, List.length_nil, hc1len]
          omega
        rw [hjp, hb]
        have hins2 : c7.instructions
            = (c1.instructions ++ 8
                :: ((cs.instructions.length + codeC.length + 3 + codeT.length + 3) / 256 % 256)
                :: ((cs.instructions.length + codeC.length + 3 + codeT.length + 3) % 256)
                :: codeT) ++ 9 :: 39 :: 15 :: codeE := by
          rw [hiE, hI6]
          simp
        have hfin := change_operand_spec2 c7
            (c1.instructions ++ 8
              :: ((cs.instructions.length + codeC.length + 3 + codeT.length + 3) / 256 % 256)
              :: ((cs.instructions.length + codeC.length + 3 + codeT.length + 3) % 256)
              :: codeT) 9 39 15
            (cs.instructions.length + codeC.length + 3 + codeT.length + 3 + codeE.length)
            (cs.instructions.length + codeC.length + 3 + codeT.length) codeE hins2
            (by
              simp only [List.length_append, List.length_cons, List.length_nil, hc1len]
              omega)
            (make_jump _)
        have hsym6 : ((c3.emit OP_JUMP [9999]).1.change_operand c1.instructions.length
              (cs.instructions.length + codeC.length + 3 + codeT.length + 3)).symbol_table
            = cs.symbol_table := by
          simp [Compiler.change_operand, Compiler.emit, hsymT, hsymC]
        have hcon6 : ((c3.emit OP_JUMP [9999]).1.change_operand c1.instructions.length
              (cs.instructions.length + codeC.length + 3 + codeT.length + 3)).constants
            = c3.constants := by
          simp [Compiler.change_operand, Compiler.emit]
        rw [hcon6] at hconE hclenE
        simp only [Compiler.emit] at hconT hclenT hsymT
        refine ⟨codeC
            ++ ([8, (cs.instructions.length + codeC.length + 3 + codeT.length + 3) / 256 % 256,
                 (cs.instructions.length + codeC.length + 3 + codeT.length + 3) % 256]
            ++ (codeT
            ++ ([9, (cs.instructions.length + codeC.length + 3 + codeT.length + 3
                      + codeE.length) / 256 % 256,
                 (cs.instructions.length + codeC.length + 3 + codeT.length + 3
                      + codeE.length) % 256]
            ++ codeE))), ?_, ?_, ?_, ?_, ?_, ?_, ?_⟩
        · rw [hfin, hiC]
          simp
        · simp only [List.length_append, List.length_cons, List.length_nil, exprSize,
            blockSize, stmtListSize, stmtSize]
          omega
        · rw [show (c7.change_operand (cs.instructions.length + codeC.length + 3
                + codeT.length) (cs.instructions.length + codeC.length + 3 + codeT.length + 3
                + codeE.length)).symbol_table = c7.symbol_table from
              (change_operand_fields c7 _ _).2.1]
          rw [hsymE, hsym6]
        · exact ⟨newcC ++ (newcT ++ newcE), by
            rw [show (c7.change_operand (cs.instructions.length + codeC.length + 3
                  + codeT.length) (cs.instructions.length + codeC.length + 3 + codeT.length + 3
                  + codeE.length)).constants = c7.constants from
                (change_operand_fields c7 _ _).1]
            rw [hconE, hconT, hconC]
            simp⟩
        · rw [show (c7.change_operand (cs.instructions.length + codeC.length + 3
                + codeT.length) (cs.instructions.length + codeC.length + 3 + codeT.length + 3
                + codeE.length)).constants = c7.constants from
              (change_operand_fields c7 _ _).1]
          simp only [exprSize, blockSize, stmtListSize, stmtSize]
          omega
        · exact popfree_change _ _ _ hpfE
        intro vm f v env env' hspan hconsts heval herr hrel hstk hil hcb
        obtain ⟨restc, hconsts⟩ := hconsts
        simp only [exprSize, blockSize, stmtListSize, stmtSize] at hstk hcb
        rw [show (c7.change_operand (cs.instructions.length + codeC.length + 3
              + codeT.length) (cs.instructions.length + codeC.length + 3 + codeT.length + 3
              + codeE.length)).constants = c7.constants from
            (change_operand_fields c7 _ _).1] at hconsts
        have hBle : cs.instructions.length + codeC.length + 3 + codeT.length + 3
            + codeE.length ≤ 65535 := by
          have hle := spanAt_le hspan (by simp)
          simp only [List.length_append, List.length_cons, List.length_nil] at hle
          omega
        obtain ⟨hspanC, hspan2⟩ := spanAt_append.mp hspan
        obtain ⟨hspanJNT, hspan3⟩ := spanAt_append.mp hspan2
        obtain ⟨hspanT, hspan4⟩ := spanAt_append.mp hspan3
        obtain ⟨hspanJ, hspanE2⟩ := spanAt_append.mp hspan4
        simp only [List.length_append, List.length_cons, List.length_nil]
          at hspanJNT hspanT hspanJ hspanE2
        rw [spanAt_cons, spanAt_cons, spanAt_cons] at hspanJNT
        obtain ⟨h8, hA1, hA2, -⟩ := hspanJNT
        rw [spanAt_cons, spanAt_cons, spanAt_cons] at hspanJ
        obtain ⟨h9, hB1, hB2, -⟩ := hspanJ
        match f with
        | 0 => simp [eval] at heval
        | g + 1 =>
          obtain ⟨cv, env1, hec, hcerr, hbr⟩ := eval_if_inv heval herr
          obtain ⟨henvC, hvokC, hstepsC⟩ :=
            hsimC vm g cv env env1 hspanC
              ⟨newcT ++ (newcE ++ restc), by
                rw [hconsts, hconE, hconT]
                simp⟩
              hec hcerr hrel (by omega) hil (by omega)
          have hstepJNT := @step_jnt { vm with stack := cv :: vm.stack }
            (cs.instructions.length + codeC.length) _ _ _ _ h8 hA1 hA2 rfl
          rw [vm_is_truthy_eq] at hstepJNT
          rcases hbr with ⟨htr, hblk⟩ | ⟨htr, hrest⟩
          · -- truthy: run the consequence, then jump to the end
            rw [htr, if_pos rfl] at hstepJNT
            obtain ⟨g2, hevt⟩ := eval_block_single_expr hblk
            rw [henvC] at hevt
            have hoffT : (c1.emit OP_JUMP_NOT_TRUTHY [9999]).1.instructions.length
                = cs.instructions.length + codeC.length + 3 := by
              rw [hI2]
              simp only [List.length_append, List.length_cons, List.length_nil, hc1len]
            obtain ⟨henvT, hvokT, hstepsT⟩ :=
              hsimT vm g2 v env env'
                (by rw [hoffT]; exact hspanT)
                ⟨newcE ++ restc, by
                  rw [hconsts, hconE]
                  simp [Compiler.emit, hconT]⟩
                hevt herr
                (by simp only [Compiler.emit]; rw [hsymC]; exact hrel)
                (by omega) hil
                (by simp only [Compiler.emit]; omega)
            rw [hoffT] at hstepsT
            have hstepJ := @step_jump { vm with stack := v :: vm.stack }
              (cs.instructions.length + codeC.length + 3 + codeT.length) _ _ h9 hB1 hB2
            rw [u16_round hBle] at hstepJ
            refine ⟨henvT, hvokT, ?_⟩
            rw [show cs.instructions.length + (codeC
                ++ ([8, (cs.instructions.length + codeC.length + 3 + codeT.length + 3) / 256
                      % 256,
                    (cs.instructions.length + codeC.length + 3 + codeT.length + 3) % 256]
                ++ (codeT
                ++ ([9, (cs.instructions.length + codeC.length + 3 + codeT.length + 3
                        + codeE.length) / 256 % 256,
                    (cs.instructions.length + codeC.length + 3 + codeT.length + 3
                        + codeE.length) % 256]
                ++ codeE)))).length
              = cs.instructions.length + codeC.length + 3 + codeT.length + 3
                + codeE.length from by
              simp only [List.length_append, List.length_cons, List.length_nil]
              omega]
            exact ((hstepsC.trans (StepsTo.single (get?_lt h8) hstepJNT)).trans
              hstepsT).trans (StepsTo.single (get?_lt h9) hstepJ)
          · -- falsy: jump to the alternative and run it
            rw [htr] at hstepJNT
            rw [if_neg (by simp)] at hstepJNT
            rw [u16_round (by omega)] at hstepJNT
            obtain ⟨g2, hevt2⟩ := eval_block_single_expr hrest
            rw [henvC] at hevt2
            have hoffE : List.length ((c3.emit OP_JUMP [9999]).1.change_operand
                  c1.instructions.length
                  (cs.instructions.length + codeC.length + 3 + codeT.length + 3)).instructions
                = cs.instructions.length + codeC.length + 3 + codeT.length + 3 := by
              rw [hI6]
              simp only [List.length_append, List.length_cons, List.length_nil, hc1len]
              omega
            obtain ⟨henvE, hvokE, hstepsE⟩ :=
              hsimE vm g2 v env env'
                (by rw [hoffE]; exact hspanE2)
                ⟨restc, by rw [hconsts, hconE]⟩
                hevt2 herr
                (by rw [hsym6]; exact hrel)
                (by omega) hil
                (by rw [hcon6]; omega)
            rw [hoffE] at hstepsE
            refine ⟨henvE, hvokE, ?_⟩
            rw [show cs.instructions.length + (codeC
                ++ ([8, (cs.instructions.length + codeC.length + 3 + codeT.length + 3) / 256
                      % 256,
                    (cs.instructions.length + codeC.length + 3 + codeT.length + 3) % 256]
                ++ (codeT
                ++ ([9, (cs.instructions.length + codeC.length + 3 + codeT.length + 3
                        + codeE.length) / 256 % 256,
                    (cs.instructions.length + codeC.length + 3 + codeT.length + 3
                        + codeE.length) % 256]
                ++ codeE)))).length
              = cs.instructions.length + codeC.length + 3 + codeT.length + 3
                + codeE.length from by
              simp only [List.length_append, List.length_cons, List.length_nil]
              omega]
            exact (hstepsC.trans (StepsTo.single (get?_lt h8) hstepJNT)).trans hstepsE
    | .Prefix _ _ => simp [amExprOk] at hok
    | .StringLiteral _ => simp [amExprOk] at hok
    | .FunctionLiteral _ _ => simp [amExprOk] at hok
    | .Call _ _ => simp [amExprOk] at hok
    | .ArrayLiteral _ => simp [amExprOk] at hok
    | .IndexExpression _ _ => simp [amExprOk] at hok
    | .While _ _ => simp [amExprOk] at hok
    | .HashLiteral _ => simp [amExprOk] at hok

theorem symLookup_insert (s : List (String × Symbol)) (k : String) (v : Symbol)
    (n : String) :
    symLookup (symInsert s k v) n = if n = k then some v else symLookup s n := by
  induction s with
  | nil =>
    simp only [symInsert, symLookup]
    by_cases h : k = n
    · subst h
      simp
    · rw [if_neg h, if_neg (fun h2 => h h2.symm)]
  | cons a rest ih =>
    obtain ⟨a1, a2⟩ := a
    simp only [symInsert]
    by_cases h1 : a1 = k
    · subst h1
      simp only [if_pos rfl, symLookup]
      by_cases h2 : a1 = n
      · subst h2
        simp
      · rw [if_neg h2, if_neg h2, if_neg (fun h3 : n = a1 => h2 h3.symm)]
    · rw [if_neg h1]
      simp only [symLookup]
      by_cases h2 : a1 = n
      · subst h2
        rw [if_pos rfl, if_pos rfl, if_neg (fun h3 : a1 = k => h1 h3)]
      · rw [if_neg h2, if_neg h2, ih]

theorem env_get_set (env : Environment) (k : String) (v : Object) (n : String) :
    (env.set k v).get n = if n = k then some v else env.get n := by
  obtain ⟨s, o⟩ := env
  simp only [Environment.set]
  rcases o with _ | oo <;>
    simp only [Environment.get.eq_1, Environment.get.eq_2, storeLookup_insert] <;>
    by_cases h : n = k <;>
    simp [h]

theorem endsWith_cons (s : Statement) (b : Statement) (t : List Statement) :
    endsWithExprStmt (s :: b :: t) = endsWithExprStmt (b :: t) := by
  simp [endsWithExprStmt, List.getLast?_cons_cons]

/-- Compiling a statement list: the emitted block, run on the VM, pushes one
value per expression statement (no `OpPop` is ever emitted) and updates the
globals in step with the evaluator, finishing with the final value on top
whenever the list ends with an expression statement. -/
theorem compile_stmts_correct : ∀ (stmts : List Statement) (cs cs' : Compiler),
    stmts.all amStmtOk = true →
    compile_stmt_list stmts cs = .ok cs' →
    popfree cs →
    ∃ code : List Nat,
      cs'.instructions = cs.instructions ++ code
      ∧ code.length ≤ 6 * stmtListSize stmts
      ∧ (∃ newc, cs'.constants = cs.constants ++ newc)
      ∧ cs'.constants.length ≤ cs.constants.length + stmtListSize stmts
      ∧ cs'.symbol_table.num_definitions
          ≤ cs.symbol_table.num_definitions + stmtListSize stmts
      ∧ popfree cs'
      ∧ ∀ (vm : VM) (f : Nat) (prev v : Object) (env env' : Environment),
          SpanAt vm.instructions cs.instructions.length code →
          (∃ restc, vm.constants = cs'.constants ++ restc) →
          eval_program_loop f stmts env prev = some (v, env') →
          is_error v = false →
          Rel cs.symbol_table vm.globals env →
          vm.stack.length + stmtListSize stmts ≤ 2048 →
          cs.symbol_table.num_definitions + stmtListSize stmts ≤ 2048 →
          vm.instructions.length ≤ 65535 →
          cs.constants.length + stmtListSize stmts ≤ 65536 →
          ∃ s2 g2,
            StepsTo vm cs.instructions.length
              { vm with stack := s2 ++ vm.stack, globals := g2 }
              (cs.instructions.length + code.length)
            ∧ Rel cs'.symbol_table g2 env'
            ∧ s2.length ≤ stmtListSize stmts
            ∧ (stmts = [] → s2 = [] ∧ v = prev)
            ∧ (endsWithExprStmt stmts = true → ∃ s3, s2 = v :: s3) := by
  intro stmts
  induction stmts with
  | nil =>
    intro cs cs' hall hcomp hpf
    simp only [compile_stmt_list, pure, Except.pure, Except.ok.injEq] at hcomp
    subst hcomp
    refine ⟨[], by simp, by simp [stmtListSize], ⟨[], by simp⟩,
      by simp [stmtListSize], by simp [stmtListSize], hpf, ?_⟩
    intro vm f prev v env env' hspan hconsts heval herr hrel hstk hnum hil hcb
    match f with
    | 0 => simp [eval_program_loop] at heval
    | F + 1 =>
      simp only [eval_program_loop, Option.some.injEq, Prod.mk.injEq] at heval
      obtain ⟨hv, henv⟩ := heval
      refine ⟨[], vm.globals, ?_, henv ▸ hrel, by simp [stmtListSize],
        fun _ => ⟨rfl, hv.symm⟩, ?_⟩
      · exact StepsTo.refl vm cs.instructions.length
      · intro h
        simp [endsWithExprStmt] at h
  | cons stmt rest ihr =>
    intro cs cs' hall hcomp hpf
    simp only [List.all_cons, Bool.and_eq_true] at hall
    obtain ⟨hstmt, hrest⟩ := hall
    simp only [compile_stmt_list] at hcomp
    rcases hs1 : compile_statement stmt cs with msg | cs1 <;> rw [hs1] at hcomp <;>
      simp only [bind, Except.bind] at hcomp
    · simp at hcomp
    match stmt, hstmt with
    | .Expression e, hstmt =>
      have hokV : amExprOk e = true := by simpa [amStmtOk] using hstmt
      simp only [compile_statement] at hs1
      obtain ⟨codeV, hiV, hlenV, hsymV, ⟨newcV, hconV⟩, hclenV, hpfV, hsimV⟩ :=
        compile_expr_correct (exprSize e) e cs cs1 le_rfl hokV hs1 hpf
      obtain ⟨codeR, hiR, hlenR, ⟨newcR, hconR⟩, hclenR, hnumR, hpfR, hsimR⟩ :=
        ihr cs1 cs' hrest hcomp hpfV
      rw [hsymV] at hnumR
      refine ⟨codeV ++ codeR, by rw [hiR, hiV]; simp, ?_,
        ⟨newcV ++ newcR, by rw [hconR, hconV]; simp⟩, ?_, ?_, hpfR, ?_⟩
      · simp only [List.length_append, stmtListSize, stmtSize]
        omega
      · simp only [stmtListSize, stmtSize]
        omega
      · simp only [stmtListSize, stmtSize]
        omega
      intro vm f prev v env env' hspan hconsts heval herr hrel hstk hnum hil hcb
      obtain ⟨restc, hconsts⟩ := hconsts
      simp only [stmtListSize, stmtSize] at hstk hnum hcb
      obtain ⟨hspanV, hspanR⟩ := spanAt_append.mp hspan
      have hc1len : cs1.instructions.length
          = cs.instructions.length + codeV.length := by
        rw [hiV]
        simp
      match f with
      | 0 => simp [eval_program_loop] at heval
      | F + 1 =>
        simp only [eval_program_loop] at heval
        rcases hes : eval_statement F (Statement.Expression e) env
            with _ | ⟨result, env1⟩ <;> rw [hes] at heval
        · simp at heval
        simp only [bind, Option.bind] at heval
        match F, hes with
        | 0, hes => simp [eval_statement] at hes
        | G + 1, hes =>
          simp only [eval_statement] at hes
          have hsimVapp : is_error result = false →
              env1 = env ∧ valOK result ∧
              StepsTo vm cs.instructions.length
                { vm with stack := result :: vm.stack }
                (cs.instructions.length + codeV.length) := fun hre =>
            hsimV vm G result env env1 hspanV
              ⟨newcR ++ restc, by rw [hconsts, hconR]; simp⟩
              hes hre hrel (by omega) hil (by omega)
          split at heval
          · -- a Return value out of an expression is impossible in the subset
            rename_i rv
            exact absurd (hsimVapp rfl).2.1 (fun hk => hk)
          · -- an Error result is excluded by the final non-error hypothesis
            rename_i msg
            simp only [Option.some.injEq, Prod.mk.injEq] at heval
            rw [← heval.1] at herr
            simp [is_error] at herr
          · rename_i hnr hne
            have hre : is_error result = false := by
              cases result <;> first
                | rfl
                | exact absurd rfl (hne _)
            obtain ⟨henv1, hvokV, hstepsV⟩ := hsimVapp hre
            obtain ⟨s2, g2, hstepsR, hrelR, hs2len, hnilR, hendR⟩ :=
              hsimR { vm with stack := result :: vm.stack } (G + 1) result v env1 env'
                (by rw [hc1len]; exact hspanR)
                ⟨restc, hconsts⟩
                heval herr
                (by rw [hsymV, henv1]; exact hrel)
                (by simp; omega) (by rw [hsymV]; omega) hil
                (by omega)
            rw [hc1len] at hstepsR
            refine ⟨s2 ++ [result], g2, ?_, hrelR, ?_, by simp, ?_⟩
            · rw [show (s2 ++ [result]) ++ vm.stack = s2 ++ result :: vm.stack from by
                simp]
              rw [show cs.instructions.length + (codeV ++ codeR).length
                  = cs.instructions.length + codeV.length + codeR.length from by
                simp [Nat.add_assoc]]
              exact hstepsV.trans hstepsR
            · simp only [List.length_append, List.length_cons, List.length_nil,
                stmtListSize, stmtSize]
              omega
            · intro hend
              rcases hrr : rest with _ | ⟨b, t⟩
              · obtain ⟨hs2nil, hvres⟩ := hnilR hrr
                subst hs2nil
                exact ⟨[], by rw [hvres]; simp⟩
              · rw [hrr] at hendR
                rw [hrr, endsWith_cons] at hend
                obtain ⟨s3, hs3⟩ := hendR hend
                exact ⟨s3 ++ [result], by rw [hs3]; simp⟩
    | .Let name value, hstmt =>
      have hokV : amExprOk value = true := by simpa [amStmtOk] using hstmt
      simp only [compile_statement] at hs1
      rcases hcv : compile_expression value cs with msg | c1 <;> rw [hcv] at hs1 <;>
        simp only [bind, Except.bind] at hs1
      · simp at hs1
      simp only [SymbolTable.define] at hs1
      simp only [pure, Except.pure, Except.ok.injEq] at hs1
      subst hs1
      obtain ⟨codeV, hiV, hlenV, hsymV, ⟨newcV, hconV⟩, hclenV, hpfV, hsimV⟩ :=
        compile_expr_correct (exprSize value) value cs c1 le_rfl hokV hcv hpf
      rw [hsymV] at hcomp
      obtain ⟨codeR, hiR, hlenR, ⟨newcR, hconR⟩, hclenR, hnumR, hpfR, hsimR⟩ :=
        ihr _ cs' hrest hcomp
          (popfree_emit _ OP_SET_GLOBAL _ (by simp [OP_SET_GLOBAL, OP_POP]))
      have hmkSG : make OP_SET_GLOBAL [cs.symbol_table.num_definitions]
          = [11, cs.symbol_table.num_definitions / 256 % 256,
             cs.symbol_table.num_definitions % 256] := rfl
      have hc1len : c1.instructions.length = cs.instructions.length + codeV.length := by
        rw [hiV]
        simp
      simp only [Compiler.emit] at hiR hconR hclenR hnumR
      refine ⟨codeV ++ ([11, cs.symbol_table.num_definitions / 256 % 256,
          cs.symbol_table.num_definitions % 256] ++ codeR), ?_, ?_,
        ⟨newcV ++ newcR, by rw [hconR, hconV]; simp⟩, ?_, ?_, hpfR, ?_⟩
      · rw [hiR]
        simp only [hmkSG, hiV]
        simp
      · simp only [List.length_append, List.length_cons, List.length_nil,
          stmtListSize, stmtSize]
        omega
      · simp only [stmtListSize, stmtSize]
        omega
      · simp only [stmtListSize, stmtSize]
        omega
      intro vm f prev v env env' hspan hconsts heval herr hrel hstk hnum hil hcb
      obtain ⟨restc, hconsts⟩ := hconsts
      simp only [stmtListSize, stmtSize] at hstk hnum hcb
      obtain ⟨hspanV, hspan2⟩ := spanAt_append.mp hspan
      obtain ⟨hspanSG, hspanR⟩ := spanAt_append.mp hspan2
      simp only [List.length_append, List.length_cons, List.length_nil]
        at hspanSG hspanR
      rw [spanAt_cons, spanAt_cons, spanAt_cons] at hspanSG
      obtain ⟨h11, hi1, hi2, -⟩ := hspanSG
      match f with
      | 0 => simp [eval_program_loop] at heval
      | F + 1 =>
        simp only [eval_program_loop] at heval
        rcases hes : eval_statement F (Statement.Let name value) env
            with _ | ⟨result, env1⟩ <;> rw [hes] at heval
        · simp at heval
        simp only [bind, Option.bind] at heval
        match F, hes with
        | 0, hes => simp [eval_statement] at hes
        | G + 1, hes =>
          simp only [eval_statement] at hes
          rcases hev : eval G value env with _ | ⟨val, envv⟩ <;> rw [hev] at hes
          · simp at hes
          simp only [bind, Option.bind] at hes
          by_cases hverr : is_error val = true
          · rw [if_pos hverr] at hes
            simp only [Option.some.injEq, Prod.mk.injEq] at hes
            obtain ⟨hrv, hrenv⟩ := hes
            obtain ⟨m, hm⟩ : ∃ m, val = .Error m := by
              cases val <;> first
                | exact ⟨_, rfl⟩
                | simp [is_error] at hverr
            rw [← hrv, hm] at heval
            dsimp only at heval
            simp only [Option.some.injEq, Prod.mk.injEq] at heval
            rw [← heval.1] at herr
            simp [is_error] at herr
          · rw [if_neg hverr] at hes
            simp only [Option.some.injEq, Prod.mk.injEq] at hes
            obtain ⟨hrv, hrenv⟩ := hes
            rw [← hrv] at heval
            dsimp only at heval
            obtain ⟨henvv, hvokV, hstepsV⟩ :=
              hsimV vm G val env envv hspanV
                ⟨newcR ++ restc, by
                  rw [hconsts, hconR]
                  simp [hconV]⟩
                hev (by simpa using hverr) hrel (by omega) hil (by omega)
            rw [henvv] at hrenv
            subst hrenv
            have hstepSG := @step_set_global { vm with stack := val :: vm.stack }
              (cs.instructions.length + codeV.length) _ _ _ vm.stack h11 hi1 hi2 rfl
            rw [u16_round (by omega)] at hstepSG
            obtain ⟨s2, g2, hstepsR, hrelR, hs2len, hnilR, hendR⟩ :=
              hsimR
                { vm with globals := fun j =>
                    if j = cs.symbol_table.num_definitions then val
                    else vm.globals j }
                (G + 1) Object.Null v (env.set name val) env'
                (by
                  simp only [Compiler.emit, hmkSG, List.length_append, List.length_cons,
                    List.length_nil, hc1len]
                  exact hspanR)
                ⟨restc, hconsts⟩ heval herr
                (by
                  simp only [Compiler.emit]
                  obtain ⟨hnd, hres⟩ := hrel
                  refine ⟨by simp; omega, ?_⟩
                  intro n sym hr
                  simp only [SymbolTable.resolve] at hr
                  rw [symLookup_insert] at hr
                  by_cases hnk : n = name
                  · rw [if_pos hnk] at hr
                    simp only [Option.some.injEq] at hr
                    subst hr
                    refine ⟨by simp, val, ?_, ?_, hvokV⟩
                    · rw [env_get_set, if_pos hnk]
                    · simp
                  · rw [if_neg hnk] at hr
                    obtain ⟨hidx, w, hget, hglo, hwok⟩ := hres n sym hr
                    refine ⟨by simp; omega, w, ?_, ?_, hwok⟩
                    · rw [env_get_set, if_neg hnk]
                      exact hget
                    · show (if sym.index = cs.symbol_table.num_definitions then val
                          else vm.globals sym.index) = w
                      rw [if_neg (by omega)]
                      exact hglo)
                (by simp; omega) (by simp [Compiler.emit]; omega) hil
                (by simp [Compiler.emit]; omega)
            simp only [Compiler.emit, hmkSG, List.length_append, List.length_cons,
              List.length_nil, hc1len] at hstepsR
            refine ⟨s2, g2, ?_, hrelR, ?_, by simp, ?_⟩
            · rw [show cs.instructions.length
                  + (codeV ++ ([11, cs.symbol_table.num_definitions / 256 % 256,
                      cs.symbol_table.num_definitions % 256] ++ codeR)).length
                  = cs.instructions.length + codeV.length + 3 + codeR.length from by
                simp only [List.length_append, List.length_cons, List.length_nil]
                omega]
              exact (hstepsV.trans
                (StepsTo.single (get?_lt h11) hstepSG)).trans hstepsR
            · simp only [stmtListSize, stmtSize]
              omega
            · intro hend
              rcases hrr : rest with _ | ⟨b, t⟩
              · rw [hrr] at hend
                simp [endsWithExprStmt] at hend
              · rw [hrr] at hendR
                rw [hrr, endsWith_cons] at hend
                exact hendR hend

/-- C1 (amended): for a program of the compiler-supported subset whose
if-blocks are single expression statements, which ends with an expression
statement and whose total size fits the 2048-slot stack, a successful
compile and a successful, non-error evaluation imply that the VM runs the
bytecode to completion with the evaluator's value on top of the stack. -/
theorem C1_amended (stmts : List Statement) (f : Nat) (v : Object)
    (env' : Environment) (cs : Compiler)
    (hok : amProgOk stmts = true)
    (hsize : progSize stmts ≤ 2048)
    (hcomp : compile_program stmts = .ok cs)
    (heval : eval_program f stmts Environment.new = some (v, env'))
    (herr : is_error v = false) :
    VMComputes cs v := by
  simp only [amProgOk, Bool.and_eq_true] at hok
  obtain ⟨hall, hend⟩ := hok
  simp only [progSize] at hsize
  obtain ⟨code, hins, hlen, ⟨newc, hcon⟩, hclen, hnum, hpf, hsim⟩ :=
    compile_stmts_correct stmts Compiler.new cs hall hcomp
      (by simp [popfree, Compiler.new, Compiler.last_instruction_is_pop])
  match f with
  | 0 => simp [eval_program] at heval
  | F + 1 =>
    simp only [eval_program] at heval
    have hinssimp : cs.instructions = code := by
      rw [hins]
      simp [Compiler.new]
    obtain ⟨s2, g2, hsteps, hrel2, hs2len, hnil, hends⟩ :=
      hsim (VM.new cs) F Object.Null v Environment.new env'
        (by
          rw [show (VM.new cs).instructions = code from hinssimp]
          exact spanAt_self code)
        ⟨[], by simp [VM.new]⟩
        heval herr
        ⟨by simp [Compiler.new, SymbolTable.new], fun n sym hr =>
          absurd hr (by simp [Compiler.new, SymbolTable.new, SymbolTable.resolve,
            symLookup])⟩
        (by simp [VM.new]; omega)
        (by simp [Compiler.new, SymbolTable.new]; omega)
        (by rw [show (VM.new cs).instructions = code from hinssimp]; omega)
        (by simp [Compiler.new]; omega)
    obtain ⟨s3, hs3⟩ := hends hend
    obtain ⟨fu, hrun⟩ := run_of_stepsTo hsteps (by
      show ¬ Compiler.new.instructions.length + code.length < cs.instructions.length
      rw [hinssimp]
      simp only [Compiler.new, List.length_nil]
      omega)
    refine ⟨fu, VM.mk (VM.new cs).constants (VM.new cs).instructions
      (s2 ++ (VM.new cs).stack) g2, hrun, ?_⟩
    simp [VM.stack_top, hs3, VM.new]

/-- C1 witness: the program `if (true) { 10 } else { 20 }` satisfies every
hypothesis of the amended claim, and the VM leaves `Integer 10` on top. -/
theorem C1_witness :
    amProgOk C1prog = true ∧ progSize C1prog ≤ 2048
    ∧ compile_program C1prog = .ok C1compiled
    ∧ eval_program 10 C1prog Environment.new
        = some (Object.Integer 10, Environment.new)
    ∧ VMComputes C1compiled (Object.Integer 10) :=
  ⟨by decide, by decide, rfl, rfl,
    C1_amended C1prog 10 (Object.Integer 10) Environment.new C1compiled
      (by decide) (by decide) rfl rfl rfl⟩

theorem walk_mono : ∀ (f : Nat) (ins : List Nat) (i : Nat) (L : List Nat),
    walk f ins i = some L → walk (f + 1) ins i = some L := by
  intro f
  induction f with
  | zero =>
    intro ins i L h
    simp [walk] at h
  | succ f ih =>
    intro ins i L h
    rw [walk] at h
    by_cases he : i = ins.length
    · rw [if_pos he] at h
      rw [walk, if_pos he]
      exact h
    · rw [if_neg he] at h
      rcases hg : ins.get? i with _ | op <;> simp only [hg] at h
      · simp at h
      · rcases hw : instr_width op with _ | w <;> simp only [hw] at h
        · simp at h
        · rcases hrec : walk f ins (i + w) with _ | l <;> simp only [hrec] at h
          · simp at h
          · rw [walk]
            simp only [if_neg he, hg, hw]
            rw [ih ins (i + w) l hrec]
            simpa using h

theorem walk_mono_le {f g : Nat} {ins : List Nat} {i : Nat} {L : List Nat}
    (h : walk f ins i = some L) (hle : f ≤ g) : walk g ins i = some L := by
  obtain ⟨k, rfl⟩ := Nat.le.dest hle
  clear hle
  induction k with
  | zero => exact h
  | succ k ih => exact walk_mono (f + k) ins i L ih

theorem walk_det {f g : Nat} {ins : List Nat} {i : Nat} {L M : List Nat}
    (h1 : walk f ins i = some L) (h2 : walk g ins i = some M) : L = M := by
  have h1g := walk_mono_le h1 (Nat.le_add_right f g)
  have h2g := walk_mono_le h2 (by omega : g ≤ f + g)
  rw [h1g] at h2g
  exact ((Option.some.injEq _ _).mp h2g)

theorem walk_head : ∀ (f : Nat) (ins : List Nat) (i : Nat) (L : List Nat),
    walk f ins i = some L → ∃ l, L = i :: l := by
  intro f
  induction f with
  | zero =>
    intro ins i L h
    simp [walk] at h
  | succ f ih =>
    intro ins i L h
    rw [walk] at h
    by_cases he : i = ins.length
    · rw [if_pos he] at h
      exact ⟨[], by simp at h; rw [← h]⟩
    · rw [if_neg he] at h
      rcases hg : ins.get? i with _ | op <;> simp only [hg] at h
      · simp at h
      · rcases hw : instr_width op with _ | w <;> simp only [hw] at h
        · simp at h
        · rcases hrec : walk f ins (i + w) with _ | l <;> simp only [hrec] at h
          · simp at h
          · simp only [Option.map, Option.some.injEq] at h
            exact ⟨l, h.symm⟩

theorem walk_start_le : ∀ (f : Nat) (ins : List Nat) (i : Nat) (L : List Nat),
    walk f ins i = some L → i ≤ ins.length := by
  intro f
  induction f with
  | zero =>
    intro ins i L h
    simp [walk] at h
  | succ f _ =>
    intro ins i L h
    rw [walk] at h
    by_cases he : i = ins.length
    · omega
    · rw [if_neg he] at h
      rcases hg : ins.get? i with _ | op <;> simp only [hg] at h
      · simp at h
      · have := get?_lt hg
        omega

theorem width_pos {op w : Nat} (h : instr_width op = some w) : 1 ≤ w := by
  simp only [instr_width, Option.map] at h
  rcases hl : lookup op with _ | d <;> rw [hl] at h <;> simp at h
  omega

theorem walk_fuel_bound : ∀ (f : Nat) (ins : List Nat) (i : Nat) (L : List Nat),
    walk f ins i = some L → walk (ins.length + 1 - i) ins i = some L := by
  intro f
  induction f with
  | zero =>
    intro ins i L h
    simp [walk] at h
  | succ f ih =>
    intro ins i L h
    rw [walk] at h
    by_cases he : i = ins.length
    · rw [if_pos he] at h
      rw [show ins.length + 1 - i = 1 from by omega, walk, if_pos he]
      exact h
    · rw [if_neg he] at h
      rcases hg : ins.get? i with _ | op <;> simp only [hg] at h
      · simp at h
      · rcases hw : instr_width op with _ | w <;> simp only [hw] at h
        · simp at h
        · rcases hrec : walk f ins (i + w) with _ | l <;> simp only [hrec] at h
          · simp at h
          · have hi := get?_lt hg
            have hwp := width_pos hw
            have hle := walk_start_le f ins (i + w) l hrec
            have h2 := walk_mono_le (ih ins (i + w) l hrec)
              (by omega : ins.length + 1 - (i + w) ≤ ins.length - i)
            rw [show ins.length + 1 - i = (ins.length - i) + 1 from by omega, walk]
            simp only [if_neg he, hg, hw]
            rw [h2]
            exact h

theorem offsets_of {f : Nat} {ins : List Nat} {L : List Nat}
    (h : walk f ins 0 = some L) : offsets ins = some L := by
  have := walk_fuel_bound f ins 0 L h
  simpa [offsets] using this

theorem walk_shape : ∀ (f : Nat) (ins : List Nat) (i : Nat) (L : List Nat),
    walk f ins i = some L →
    ∃ l, L = l ++ [ins.length]
      ∧ ∀ j ∈ l, ∃ op w, ins.get? j = some op ∧ instr_width op = some w
          ∧ j + w ∈ L := by
  intro f
  induction f with
  | zero =>
    intro ins i L h
    simp [walk] at h
  | succ f ih =>
    intro ins i L h
    rw [walk] at h
    by_cases he : i = ins.length
    · rw [if_pos he] at h
      simp only [Option.some.injEq] at h
      exact ⟨[], by rw [← h, he]; simp, by simp⟩
    · rw [if_neg he] at h
      rcases hg : ins.get? i with _ | op <;> simp only [hg] at h
      · simp at h
      · rcases hw : instr_width op with _ | w <;> simp only [hw] at h
        · simp at h
        · rcases hrec : walk f ins (i + w) with _ | l <;> simp only [hrec] at h
          · simp at h
          · have h : i :: l = L := by simpa using h
            obtain ⟨l2, hl2, hprop⟩ := ih ins (i + w) l hrec
            obtain ⟨l3, hl3⟩ := walk_head f ins (i + w) l hrec
            refine ⟨i :: l2, by rw [← h, hl2]; rfl, ?_⟩
            intro j hj
            rcases List.mem_cons.mp hj with rfl | hj2
            · refine ⟨op, w, hg, hw, ?_⟩
              rw [← h, hl3]
              simp
            · obtain ⟨op2, w2, hg2, hw2, hmem⟩ := hprop j hj2
              refine ⟨op2, w2, hg2, hw2, ?_⟩
              rw [← h]
              exact List.mem_cons_of_mem i hmem

theorem walk_shift : ∀ (f : Nat) (Y : List Nat) (j : Nat) (M : List Nat)
    (X : List Nat), walk f Y j = some M →
    ∃ h, walk h (X ++ Y) (X.length + j) = some (M.map (fun t => X.length + t)) := by
  intro f
  induction f with
  | zero =>
    intro Y j M X h
    simp [walk] at h
  | succ f ih =>
    intro Y j M X h
    rw [walk] at h
    by_cases he : j = Y.length
    · rw [if_pos he] at h
      simp only [Option.some.injEq] at h
      refine ⟨1, ?_⟩
      rw [walk, if_pos (by simp [he])]
      rw [← h]
      simp
    · rw [if_neg he] at h
      rcases hg : Y.get? j with _ | op <;> simp only [hg] at h
      · simp at h
      · rcases hw : instr_width op with _ | w <;> simp only [hw] at h
        · simp at h
        · rcases hrec : walk f Y (j + w) with _ | l <;> simp only [hrec] at h
          · simp at h
          · have h : j :: l = M := by simpa using h
            obtain ⟨h2, hrec2⟩ := ih Y (j + w) l X hrec
            refine ⟨h2 + 1, ?_⟩
            rw [walk]
            rw [if_neg (by simp; omega)]
            rw [show (X ++ Y).get? (X.length + j) = Y.get? j from by
              rw [List.get?_append_right (by omega)]
              simp]
            simp only [hg, hw]
            rw [show X.length + j + w = X.length + (j + w) from by omega, hrec2]
            rw [← h]
            simp

theorem walk_embed : ∀ (f : Nat) (X : List Nat) (i : Nat) (L : List Nat)
    (Y : List Nat) (g : Nat) (M : List Nat),
    walk f X i = some L → walk g (X ++ Y) X.length = some M →
    ∃ h, walk h (X ++ Y) i = some (L.dropLast ++ M) := by
  intro f
  induction f with
  | zero =>
    intro X i L Y g M h hM
    simp [walk] at h
  | succ f ih =>
    intro X i L Y g M h hM
    rw [walk] at h
    by_cases he : i = X.length
    · rw [if_pos he] at h
      simp only [Option.some.injEq] at h
      refine ⟨g, ?_⟩
      rw [← h]
      simp only [List.dropLast_single, List.nil_append]
      rw [he]
      exact hM
    · rw [if_neg he] at h
      rcases hg : X.get? i with _ | op <;> simp only [hg] at h
      · simp at h
      · rcases hw : instr_width op with _ | w <;> simp only [hw] at h
        · simp at h
        · rcases hrec : walk f X (i + w) with _ | l <;> simp only [hrec] at h
          · simp at h
          · have h : i :: l = L := by simpa using h
            obtain ⟨l3, hl3⟩ := walk_head f X (i + w) l hrec
            obtain ⟨h2, hrec2⟩ := ih X (i + w) l Y g M hrec hM
            have hilt := get?_lt hg
            refine ⟨h2 + 1, ?_⟩
            rw [walk]
            rw [if_neg (by simp; omega)]
            rw [show (X ++ Y).get? i = X.get? i from List.get?_append hilt]
            simp only [hg, hw]
            rw [hrec2]
            rw [← h, hl3]
            simp

theorem offsets_nil : offsets ([] : List Nat) = some [0] := rfl

theorem offsets_op1 (k : Nat) (hk : instr_width k = some 1) :
    offsets [k] = some [0, 1] := by
  simp [offsets, walk, hk]

theorem offsets_op3 (k a b : Nat) (hk : instr_width k = some 3) :
    offsets [k, a, b] = some [0, 3] := by
  simp [offsets, walk, hk]

theorem offsets_shape {code : List Nat} {L : List Nat} (h : offsets code = some L) :
    ∃ l, L = l ++ [code.length]
      ∧ ∀ j ∈ l, ∃ op w, code.get? j = some op ∧ instr_width op = some w
          ∧ j + w ∈ L :=
  walk_shape (code.length + 1) code 0 L h

theorem offsets_head {code : List Nat} {L : List Nat} (h : offsets code = some L) :
    ∃ l, L = 0 :: l :=
  walk_head (code.length + 1) code 0 L h

theorem offsets_mem_le {code : List Nat} {L : List Nat} (h : offsets code = some L) :
    ∀ x ∈ L, x ≤ code.length := by
  obtain ⟨l, hl, hprop⟩ := offsets_shape h
  intro x hx
  rw [hl] at hx
  rcases List.mem_append.mp hx with hx | hx
  · obtain ⟨op, w, hop, _, _⟩ := hprop x hx
    exact Nat.le_of_lt (get?_lt hop)
  · simp at hx
    omega

theorem offsets_append {X Y : List Nat} {L M : List Nat}
    (hX : offsets X = some L) (hY : offsets Y = some M) :
    offsets (X ++ Y) = some (L.dropLast ++ M.map (fun t => X.length + t)) := by
  obtain ⟨g, hg⟩ := walk_shift (Y.length + 1) Y 0 M X hY
  obtain ⟨h, hh⟩ := walk_embed (X.length + 1) X 0 L Y g
      (M.map (fun t => X.length + t)) hX hg
  exact offsets_of hh

theorem Bnd_zero {code : List Nat} (h : ∃ L, offsets code = some L) : Bnd code 0 := by
  obtain ⟨L, hL⟩ := h
  obtain ⟨l, hl⟩ := offsets_head hL
  exact ⟨L, hL, by rw [hl]; simp⟩

theorem Bnd_end {code : List Nat} (h : ∃ L, offsets code = some L) :
    Bnd code code.length := by
  obtain ⟨L, hL⟩ := h
  obtain ⟨l, hl, _⟩ := offsets_shape hL
  exact ⟨L, hL, by rw [hl]; simp⟩

theorem Bnd_append_left {X Y : List Nat} {t : Nat} (hX : Bnd X t)
    (hY : ∃ M, offsets Y = some M) : Bnd (X ++ Y) t := by
  obtain ⟨L, hL, htL⟩ := hX
  obtain ⟨M, hM⟩ := hY
  refine ⟨L.dropLast ++ M.map (fun u => X.length + u), offsets_append hL hM, ?_⟩
  obtain ⟨l, hl, _⟩ := offsets_shape hL
  obtain ⟨m, hm⟩ := offsets_head hM
  rw [hl] at htL
  rw [hl, List.dropLast_concat]
  rcases List.mem_append.mp htL with ht | ht
  · exact List.mem_append_left _ ht
  · simp at ht
    refine List.mem_append_right _ ?_
    simp [hm, ht]

theorem Bnd_append_right {X Y : List Nat} {u : Nat}
    (hX : ∃ L, offsets X = some L) (hY : Bnd Y u) : Bnd (X ++ Y) (X.length + u) := by
  obtain ⟨L, hL⟩ := hX
  obtain ⟨M, hM, huM⟩ := hY
  refine ⟨L.dropLast ++ M.map (fun v => X.length + v), offsets_append hL hM, ?_⟩
  exact List.mem_append_right _ (List.mem_map.mpr ⟨u, huM, rfl⟩)

theorem JumpsInto_mono {base : Nat} {code : List Nat} {T T2 : Nat → Prop}
    (h : JumpsInto base code T) (himp : ∀ t, T t → T2 t) :
    JumpsInto base code T2 := by
  obtain ⟨B, hB, hprop⟩ := h
  refine ⟨B, hB, ?_⟩
  intro j hj op hop hjmp b0 b1 h0 h1
  obtain ⟨t, ht, hT⟩ := hprop j hj op hop hjmp b0 b1 h0 h1
  exact ⟨t, ht, himp t hT⟩

theorem JumpsInto_nil (base : Nat) (T : Nat → Prop) : JumpsInto base [] T := by
  refine ⟨[0], rfl, ?_⟩
  intro j hj op hop
  simp at hj
  rw [hj] at hop
  simp at hop

theorem JumpsInto_jump (base t op a b : Nat)
    (hop : op = OP_JUMP_NOT_TRUTHY ∨ op = OP_JUMP)
    (henc : a * 256 + b = base + t) :
    JumpsInto base [op, a, b] (fun u => u = t) := by
  have hk : instr_width op = some 3 := by
    rcases hop with rfl | rfl <;> rfl
  refine ⟨[0, 3], offsets_op3 op a b hk, ?_⟩
  intro j hj op2 hop2 hjmp b0 b1 h0 h1
  simp only [List.mem_cons, List.not_mem_nil, or_false] at hj
  rcases hj with rfl | rfl
  · simp only [List.get?, Option.some.injEq] at h0 h1
    exact ⟨t, by rw [← h0, ← h1]; exact henc, rfl⟩
  · simp only [List.get?] at hop2
    exact absurd hop2 (by simp)

theorem JumpsInto_nonjump3 (base : Nat) (T : Nat → Prop) (k a b : Nat)
    (hk : instr_width k = some 3) (h8 : ¬ k = OP_JUMP_NOT_TRUTHY)
    (h9 : ¬ k = OP_JUMP) : JumpsInto base [k, a, b] T := by
  refine ⟨[0, 3], offsets_op3 k a b hk, ?_⟩
  intro j hj op hop hjmp b0 b1 h0 h1
  simp only [List.mem_cons, List.not_mem_nil, or_false] at hj
  rcases hj with rfl | rfl
  · simp only [List.get?, Option.some.injEq] at hop
    rw [← hop] at hjmp
    exact absurd hjmp (by simp [h8, h9])
  · simp only [List.get?] at hop
    exact absurd hop (by simp)

theorem JumpsInto_nonjump1 (base : Nat) (T : Nat → Prop) (k : Nat)
    (hk : instr_width k = some 1) (h8 : ¬ k = OP_JUMP_NOT_TRUTHY)
    (h9 : ¬ k = OP_JUMP) : JumpsInto base [k] T := by
  refine ⟨[0, 1], offsets_op1 k hk, ?_⟩
  intro j hj op hop hjmp b0 b1 h0 h1
  simp only [List.mem_cons, List.not_mem_nil, or_false] at hj
  rcases hj with rfl | rfl
  · simp only [List.get?, Option.some.injEq] at hop
    rw [← hop] at hjmp
    exact absurd hjmp (by simp [h8, h9])
  · simp only [List.get?] at hop
    exact absurd hop (by simp)

theorem JumpsInto_append {base : Nat} {X Y : List Nat} {T1 T2 : Nat → Prop}
    (h1 : JumpsInto base X T1) (h2 : JumpsInto (base + X.length) Y T2) :
    JumpsInto base (X ++ Y)
      (fun t => T1 t ∨ ∃ u, T2 u ∧ t = X.length + u) := by
  obtain ⟨L, hL, hprop1⟩ := h1
  obtain ⟨M, hM, hprop2⟩ := h2
  refine ⟨L.dropLast ++ M.map (fun u => X.length + u), offsets_append hL hM, ?_⟩
  obtain ⟨l, hl, hshape⟩ := offsets_shape hL
  intro j hj op hop hjmp b0 b1 h0 h1
  rcases List.mem_append.mp hj with hjl | hjm
  · -- a boundary lying inside `X`
    rw [hl, List.dropLast_concat] at hjl
    obtain ⟨op2, w, hop2, hw2, hmem⟩ := hshape j hjl
    have hjlt : j < X.length := get?_lt hop2
    have hopX : X.get? j = some op := by
      rw [← List.get?_append hjlt]
      exact hop
    have hops : op2 = op := Option.some.inj (hop2.symm.trans hopX)
    rw [hops] at hw2
    have hw3 : w = 3 := by
      have h3 : instr_width op = some 3 := by rcases hjmp with rfl | rfl <;> rfl
      rw [h3, Option.some.injEq] at hw2
      omega
    rw [hw3] at hmem
    have hj3 : j + 3 ≤ X.length := offsets_mem_le hL _ hmem
    have h0X : X.get? (j + 1) = some b0 := by
      rw [← List.get?_append (show j + 1 < X.length by omega)]
      exact h0
    have h1X : X.get? (j + 2) = some b1 := by
      rw [← List.get?_append (show j + 2 < X.length by omega)]
      exact h1
    obtain ⟨t, ht, hT⟩ := hprop1 j (by rw [hl]; exact List.mem_append_left _ hjl)
      op hopX hjmp b0 b1 h0X h1X
    exact ⟨t, ht, Or.inl hT⟩
  · -- a boundary lying inside `Y`
    obtain ⟨u, huM, rfl⟩ := List.mem_map.mp hjm
    have e0 : (X ++ Y).get? (X.length + u) = Y.get? u := by
      rw [List.get?_append_right (by omega)]
      congr 1
      omega
    have e1 : (X ++ Y).get? (X.length + u + 1) = Y.get? (u + 1) := by
      rw [List.get?_append_right (by omega)]
      congr 1
      omega
    have e2 : (X ++ Y).get? (X.length + u + 2) = Y.get? (u + 2) := by
      rw [List.get?_append_right (by omega)]
      congr 1
      omega
    rw [e0] at hop
    rw [e1] at h0
    rw [e2] at h1
    obtain ⟨t, ht, hT⟩ := hprop2 u huM op hop hjmp b0 b1 h0 h1
    refine ⟨X.length + t, ?_, Or.inr ⟨t, hT, rfl⟩⟩
    rw [ht]
    omega

theorem GoodChunk_nil (base : Nat) : GoodChunk base [] :=
  JumpsInto_nil base _

theorem GoodChunk_append {base : Nat} {X Y : List Nat}
    (hX : GoodChunk base X) (hY : GoodChunk (base + X.length) Y) :
    GoodChunk base (X ++ Y) := by
  have hoX : ∃ L, offsets X = some L := hX.imp fun L h => h.1
  have hoY : ∃ M, offsets Y = some M := hY.imp fun M h => h.1
  refine JumpsInto_mono (JumpsInto_append hX hY) ?_
  intro t ht
  rcases ht with ht | ⟨u, hu, rfl⟩
  · exact Bnd_append_left ht hoY
  · exact Bnd_append_right hoX hu

theorem GoodChunk_op1 (base k : Nat) (hk : instr_width k = some 1)
    (h8 : ¬ k = OP_JUMP_NOT_TRUTHY) (h9 : ¬ k = OP_JUMP) : GoodChunk base [k] :=
  JumpsInto_nonjump1 base _ k hk h8 h9

theorem GoodChunk_op3 (base k a b : Nat) (hk : instr_width k = some 3)
    (h8 : ¬ k = OP_JUMP_NOT_TRUTHY) (h9 : ¬ k = OP_JUMP) :
    GoodChunk base [k, a, b] :=
  JumpsInto_nonjump3 base _ k a b hk h8 h9

theorem stmtSize_pos (s : Statement) : 1 ≤ stmtSize s := by
  match s with
  | .Let _ v => simp only [stmtSize]; omega
  | .Return v => simp only [stmtSize]; omega
  | .Expression e => simp only [stmtSize]; omega
  | .Assign _ v => simp only [stmtSize]; omega

theorem compile_block_eq (stmts : List Statement) (c : Compiler) :
    compile_block (BlockStatement.mk stmts) c = compile_stmt_list stmts c := by
  simp [compile_block]

theorem make_const (v : Nat) :
    make OP_CONSTANT [v] = [0, v / 256 % 256, v % 256] := rfl

theorem make_getg (v : Nat) :
    make OP_GET_GLOBAL [v] = [10, v / 256 % 256, v % 256] := rfl

theorem make_setg (v : Nat) :
    make OP_SET_GLOBAL [v] = [11, v / 256 % 256, v % 256] := rfl

theorem emit_instructions (c : Compiler) (k : Nat) (ops : List Nat) :
    (c.emit k ops).1.instructions = c.instructions ++ make k ops := rfl

set_option maxHeartbeats 3200000 in
/-- Every jump emitted by the compiler for an expression or a statement list
targets an instruction boundary of the emitted chunk (provided the final
stream fits a u16, so the two-byte operand re-encoding is lossless). -/
theorem compile_targets : ∀ (n : Nat),
    (∀ (e : Expression) (cs cs' : Compiler), exprSize e ≤ n →
      compile_expression e cs = .ok cs' → popfree cs →
      popfree cs' ∧ ∃ code, cs'.instructions = cs.instructions ++ code ∧
        (cs'.instructions.length ≤ 65535 →
          GoodChunk cs.instructions.length code))
    ∧ (∀ (stmts : List Statement) (cs cs' : Compiler), stmtListSize stmts ≤ n →
      compile_stmt_list stmts cs = .ok cs' → popfree cs →
      popfree cs' ∧ ∃ code, cs'.instructions = cs.instructions ++ code ∧
        (cs'.instructions.length ≤ 65535 →
          GoodChunk cs.instructions.length code)) := by
  intro n
  induction n with
  | zero =>
    constructor
    · intro e cs cs' hn
      exact fun _ _ => absurd hn (by have := exprSize_pos e; omega)
    · intro stmts cs cs' hn hcomp hpf
      match stmts with
      | [] =>
        simp only [compile_stmt_list, pure, Except.pure, Except.ok.injEq] at hcomp
        subst hcomp
        exact ⟨hpf, [], by simp, fun _ => GoodChunk_nil _⟩
      | s :: rest =>
        exact absurd hn (by
          simp only [stmtListSize]
          have := stmtSize_pos s
          omega)
  | succ n ih =>
    obtain ⟨ihE, ihS⟩ := ih
    constructor
    · -- expressions
      intro e cs cs' hn hcomp hpf
      match e with
      | .IntegerLiteral value =>
        simp only [compile_expression, Compiler.add_constant, Compiler.emit, pure,
          Except.pure, Except.ok.injEq] at hcomp
        subst hcomp
        refine ⟨by simp [popfree, Compiler.last_instruction_is_pop, OP_CONSTANT,
          OP_POP], make OP_CONSTANT [cs.constants.length], rfl, ?_⟩
        intro _
        rw [make_const]
        exact GoodChunk_op3 _ 0 _ _ rfl (by decide) (by decide)
      | .Boolean true =>
        simp only [compile_expression, Compiler.emit, pure, Except.pure,
          Except.ok.injEq] at hcomp
        subst hcomp
        refine ⟨by simp [popfree, Compiler.last_instruction_is_pop, OP_TRUE,
          OP_POP], [OP_TRUE], rfl, ?_⟩
        intro _
        exact GoodChunk_op1 _ OP_TRUE rfl (by decide) (by decide)
      | .Boolean false =>
        simp only [compile_expression, Compiler.emit, pure, Except.pure,
          Except.ok.injEq] at hcomp
        subst hcomp
        refine ⟨by simp [popfree, Compiler.last_instruction_is_pop, OP_FALSE,
          OP_POP], [OP_FALSE], rfl, ?_⟩
        intro _
        exact GoodChunk_op1 _ OP_FALSE rfl (by decide) (by decide)
      | .Identifier name =>
        rcases hres : cs.symbol_table.resolve name with _ | sym <;>
          simp only [compile_expression, hres, Compiler.emit, pure,
            Except.pure] at hcomp
        · exact absurd hcomp (by simp)
        simp only [Except.ok.injEq] at hcomp
        subst hcomp
        refine ⟨by simp [popfree, Compiler.last_instruction_is_pop, OP_GET_GLOBAL,
          OP_POP], make OP_GET_GLOBAL [sym.index], rfl, ?_⟩
        intro _
        rw [make_getg]
        exact GoodChunk_op3 _ 10 _ _ rfl (by decide) (by decide)
      | .Infix l op r =>
        simp only [exprSize] at hn
        simp only [compile_expression] at hcomp
        by_cases hlt : op = "<"
        · rw [if_pos hlt] at hcomp
          rcases hc1 : compile_expression r cs with msg | c1 <;> rw [hc1] at hcomp <;>
            simp only [bind, Except.bind] at hcomp
          · simp at hcomp
          rcases hc2 : compile_expression l c1 with msg | c2 <;> rw [hc2] at hcomp <;>
            simp only [bind, Except.bind] at hcomp
          · simp at hcomp
          simp only [pure, Except.pure, Except.ok.injEq] at hcomp
          subst hcomp
          obtain ⟨hpf1, code1, hi1, hg1⟩ := ihE r cs c1 (by omega) hc1 hpf
          obtain ⟨hpf2, code2, hi2, hg2⟩ := ihE l c1 c2 (by omega) hc2 hpf1
          refine ⟨popfree_emit c2 OP_GREATER_THAN [] (by decide),
            code1 ++ (code2 ++ [OP_GREATER_THAN]), ?_, ?_⟩
          · rw [show (c2.emit OP_GREATER_THAN []).1.instructions
                = c2.instructions ++ [OP_GREATER_THAN] from rfl, hi2, hi1]
            simp
          · intro hlen
            rw [show (c2.emit OP_GREATER_THAN []).1.instructions
                = c2.instructions ++ [OP_GREATER_THAN] from rfl] at hlen
            have e1 : c1.instructions.length
                = cs.instructions.length + code1.length := by rw [hi1]; simp
            have e2 : c2.instructions.length
                = c1.instructions.length + code2.length := by rw [hi2]; simp
            simp only [List.length_append, List.length_cons, List.length_nil]
              at hlen
            refine GoodChunk_append (hg1 (by omega)) ?_
            rw [← e1]
            refine GoodChunk_append (hg2 (by omega)) ?_
            rw [← e2]
            exact GoodChunk_op1 _ OP_GREATER_THAN rfl (by decide) (by decide)
        · rw [if_neg hlt] at hcomp
          rcases hc1 : compile_expression l cs with msg | c1 <;> rw [hc1] at hcomp <;>
            simp only [bind, Except.bind] at hcomp
          · simp at hcomp
          rcases hc2 : compile_expression r c1 with msg | c2 <;> rw [hc2] at hcomp <;>
            simp only [bind, Except.bind] at hcomp
          · simp at hcomp
          obtain ⟨hpf1, code1, hi1, hg1⟩ := ihE l cs c1 (by omega) hc1 hpf
          obtain ⟨hpf2, code2, hi2, hg2⟩ := ihE r c1 c2 (by omega) hc2 hpf1
          have e1 : c1.instructions.length
              = cs.instructions.length + code1.length := by rw [hi1]; simp
          have e2 : c2.instructions.length
              = c1.instructions.length + code2.length := by rw [hi2]; simp
          split at hcomp
          · simp only [pure, Except.pure, Except.ok.injEq] at hcomp
            subst hcomp
            refine ⟨popfree_emit c2 OP_ADD [] (by decide),
              code1 ++ (code2 ++ [OP_ADD]), ?_, ?_⟩
            · rw [show (c2.emit OP_ADD []).1.instructions
                  = c2.instructions ++ [OP_ADD] from rfl, hi2, hi1]
              simp
            · intro hlen
              rw [show (c2.emit OP_ADD []).1.instructions
                  = c2.instructions ++ [OP_ADD] from rfl] at hlen
              simp only [List.length_append, List.length_cons, List.length_nil]
                at hlen
              refine GoodChunk_append (hg1 (by omega)) ?_
              rw [← e1]
              refine GoodChunk_append (hg2 (by omega)) ?_
              rw [← e2]
              exact GoodChunk_op1 _ OP_ADD rfl (by decide) (by decide)
          · simp only [pure, Except.pure, Except.ok.injEq] at hcomp
            subst hcomp
            refine ⟨popfree_emit c2 OP_EQUAL [] (by decide),
              code1 ++ (code2 ++ [OP_EQUAL]), ?_, ?_⟩
            · rw [show (c2.emit OP_EQUAL []).1.instructions
                  = c2.instructions ++ [OP_EQUAL] from rfl, hi2, hi1]
              simp
            · intro hlen
              rw [show (c2.emit OP_EQUAL []).1.instructions
                  = c2.instructions ++ [OP_EQUAL] from rfl] at hlen
              simp only [List.length_append, List.length_cons, List.length_nil]
                at hlen
              refine GoodChunk_append (hg1 (by omega)) ?_
              rw [← e1]
              refine GoodChunk_append (hg2 (by omega)) ?_
              rw [← e2]
              exact GoodChunk_op1 _ OP_EQUAL rfl (by decide) (by decide)
          · simp only [pure, Except.pure, Except.ok.injEq] at hcomp
            subst hcomp
            refine ⟨popfree_emit c2 OP_NOT_EQUAL [] (by decide),
              code1 ++ (code2 ++ [OP_NOT_EQUAL]), ?_, ?_⟩
            · rw [show (c2.emit OP_NOT_EQUAL []).1.instructions
                  = c2.instructions ++ [OP_NOT_EQUAL] from rfl, hi2, hi1]
              simp
            · intro hlen
              rw [show (c2.emit OP_NOT_EQUAL []).1.instructions
                  = c2.instructions ++ [OP_NOT_EQUAL] from rfl] at hlen
              simp only [List.length_append, List.length_cons, List.length_nil]
                at hlen
              refine GoodChunk_append (hg1 (by omega)) ?_
              rw [← e1]
              refine GoodChunk_append (hg2 (by omega)) ?_
              rw [← e2]
              exact GoodChunk_op1 _ OP_NOT_EQUAL rfl (by decide) (by decide)
          · simp only [pure, Except.pure, Except.ok.injEq] at hcomp
            subst hcomp
            refine ⟨popfree_emit c2 OP_GREATER_THAN [] (by decide),
              code1 ++ (code2 ++ [OP_GREATER_THAN]), ?_, ?_⟩
            · rw [show (c2.emit OP_GREATER_THAN []).1.instructions
                  = c2.instructions ++ [OP_GREATER_THAN] from rfl, hi2, hi1]
              simp
            · intro hlen
              rw [show (c2.emit OP_GREATER_THAN []).1.instructions
                  = c2.instructions ++ [OP_GREATER_THAN] from rfl] at hlen
              simp only [List.length_append, List.length_cons, List.length_nil]
                at hlen
              refine GoodChunk_append (hg1 (by omega)) ?_
              rw [← e1]
              refine GoodChunk_append (hg2 (by omega)) ?_
              rw [← e2]
              exact GoodChunk_op1 _ OP_GREATER_THAN rfl (by decide) (by decide)
          · exact absurd hcomp (by simp)
      | .If c bt balt =>
        obtain ⟨stmtsT⟩ := bt
        rcases balt with _ | alt
        · -- no alternative: the compiler synthesises a Null constant else-path
          simp only [exprSize, blockSize] at hn
          simp only [compile_expression] at hcomp
          rcases hc1 : compile_expression c cs with msg | c1 <;> rw [hc1] at hcomp <;>
            simp only [bind, Except.bind] at hcomp
          · simp at hcomp
          rw [show c1.emit OP_JUMP_NOT_TRUTHY [9999]
              = ((c1.emit OP_JUMP_NOT_TRUTHY [9999]).1, c1.instructions.length) from rfl]
            at hcomp
          dsimp only at hcomp
          rw [compile_block_eq] at hcomp
          rcases hc3 : compile_stmt_list stmtsT (c1.emit OP_JUMP_NOT_TRUTHY [9999]).1
              with msg | c3 <;> rw [hc3] at hcomp <;>
            simp only [bind, Except.bind] at hcomp
          · simp at hcomp
          obtain ⟨hpfC, codeC, hiC, hgC⟩ := ihE c cs c1 (by omega) hc1 hpf
          obtain ⟨hpfT, codeT, hiT, hgT⟩ := ihS stmtsT _ c3 (by omega) hc3
            (popfree_emit c1 OP_JUMP_NOT_TRUTHY [9999] (by decide))
          rw [popfree_skip c3 hpfT] at hcomp
          rw [show ((c3.emit OP_JUMP [9999]).1.change_operand c1.instructions.length
                (c3.emit OP_JUMP [9999]).1.instructions.length).add_constant Object.Null
              = ((((c3.emit OP_JUMP [9999]).1.change_operand c1.instructions.length
                  (c3.emit OP_JUMP [9999]).1.instructions.length).add_constant
                    Object.Null).1,
                ((c3.emit OP_JUMP [9999]).1.change_operand c1.instructions.length
                  (c3.emit OP_JUMP [9999]).1.instructions.length).constants.length)
              from rfl] at hcomp
          dsimp only at hcomp
          simp only [pure, Except.pure, Except.ok.injEq] at hcomp
          subst hcomp
          have hc1len : c1.instructions.length
              = cs.instructions.length + codeC.length := by
            rw [hiC]; simp
          have hI2 : (c1.emit OP_JUMP_NOT_TRUTHY [9999]).1.instructions
              = c1.instructions ++ [8, 39, 15] := by
            simp [Compiler.emit, make_jnt]
          have hI3 : c3.instructions = c1.instructions ++ 8 :: 39 :: 15 :: codeT := by
            rw [hiT, hI2]
            simp
          have hI5 : (c3.emit OP_JUMP [9999]).1.instructions
              = c1.instructions ++ 8 :: 39 :: 15 :: (codeT ++ [9, 39, 15]) := by
            simp [Compiler.emit, make_jump, hI3]
          have hacp : (c3.emit OP_JUMP [9999]).1.instructions.length
              = cs.instructions.length + codeC.length + 3 + codeT.length + 3 := by
            rw [hI5]
            simp only [List.length_append, List.length_cons, List.length_nil, hc1len]
            omega
          have hI6 := change_operand_spec (c3.emit OP_JUMP [9999]).1 c1.instructions
              8 39 15 (c3.emit OP_JUMP [9999]).1.instructions.length
              (codeT ++ [9, 39, 15]) hI5 (make_jnt _)
          rw [hacp] at hI6
          rw [hacp]
          have hcon6 : ((c3.emit OP_JUMP [9999]).1.change_operand c1.instructions.length
                (cs.instructions.length + codeC.length + 3 + codeT.length + 3)).constants
              = c3.constants := by
            simp [Compiler.change_operand, Compiler.emit]
          rw [hcon6]
          have hjp : (c3.emit OP_JUMP [9999]).2
              = cs.instructions.length + codeC.length + 3 + codeT.length := by
            show c3.instructions.length = _
            rw [hI3]
            simp only [List.length_append, List.length_cons, List.length_nil, hc1len]
            omega
          have hIX : ((((c3.emit OP_JUMP [9999]).1.change_operand c1.instructions.length
                (cs.instructions.length + codeC.length + 3 + codeT.length
                  + 3)).add_constant
                  Object.Null).1.emit OP_CONSTANT [c3.constants.length]).1.instructions
              = (c1.instructions ++ 8
                  :: ((cs.instructions.length + codeC.length + 3 + codeT.length + 3)
                    / 256 % 256)
                  :: ((cs.instructions.length + codeC.length + 3 + codeT.length + 3)
                    % 256)
                  :: codeT) ++ 9 :: 39 :: 15
                  :: [0, c3.constants.length / 256 % 256, c3.constants.length % 256] := by
            rw [show ((((c3.emit OP_JUMP [9999]).1.change_operand c1.instructions.length
                  (cs.instructions.length + codeC.length + 3 + codeT.length
                    + 3)).add_constant
                    Object.Null).1.emit OP_CONSTANT [c3.constants.length]).1.instructions
                = ((c3.emit OP_JUMP [9999]).1.change_operand c1.instructions.length
                    (cs.instructions.length + codeC.length + 3 + codeT.length
                      + 3)).instructions
                  ++ make OP_CONSTANT [c3.constants.length] from rfl]
            rw [make_const, hI6]
            simp
          have hb : ((((c3.emit OP_JUMP [9999]).1.change_operand c1.instructions.length
                (cs.instructions.length + codeC.length + 3 + codeT.length
                  + 3)).add_constant
                  Object.Null).1.emit
                    OP_CONSTANT [c3.constants.length]).1.instructions.length
              = cs.instructions.length + codeC.length + 3 + codeT.length + 3 + 3 := by
            rw [hIX]
            simp only [List.length_append, List.length_cons, List.length_nil, hc1len]
            omega
          rw [hjp, hb]
          have hfin := change_operand_spec2
              ((((c3.emit OP_JUMP [9999]).1.change_operand c1.instructions.length
                (cs.instructions.length + codeC.length + 3 + codeT.length
                  + 3)).add_constant
                  Object.Null).1.emit OP_CONSTANT [c3.constants.length]).1
              (c1.instructions ++ 8
                :: ((cs.instructions.length + codeC.length + 3 + codeT.length + 3)
                  / 256 % 256)
                :: ((cs.instructions.length + codeC.length + 3 + codeT.length + 3)
                  % 256)
                :: codeT) 9 39 15
              (cs.instructions.length + codeC.length + 3 + codeT.length + 3 + 3)
              (cs.instructions.length + codeC.length + 3 + codeT.length)
              [0, c3.constants.length / 256 % 256, c3.constants.length % 256] hIX
              (by
                simp only [List.length_append, List.length_cons, List.length_nil,
                  hc1len]
                omega)
              (make_jump _)
          refine ⟨popfree_change _ _ _
              (popfree_emit _ OP_CONSTANT _ (by decide)),
            codeC
              ++ ([8, (cs.instructions.length + codeC.length + 3 + codeT.length + 3)
                    / 256 % 256,
                   (cs.instructions.length + codeC.length + 3 + codeT.length + 3)
                    % 256]
              ++ (codeT
              ++ ([9, (cs.instructions.length + codeC.length + 3 + codeT.length + 3 + 3)
                      / 256 % 256,
                   (cs.instructions.length + codeC.length + 3 + codeT.length + 3 + 3)
                      % 256]
              ++ [0, c3.constants.length / 256 % 256, c3.constants.length % 256]))),
            ?_, ?_⟩
          · rw [hfin, hiC]
            simp
          · intro hlen
            rw [hfin] at hlen
            simp only [List.length_append, List.length_cons, List.length_nil, hc1len]
              at hlen
            have hFL : cs.instructions.length + codeC.length + 3 + codeT.length + 3 + 3
                ≤ 65535 := by omega
            have hGC : GoodChunk cs.instructions.length codeC := hgC (by omega)
            have hbT : (c1.emit OP_JUMP_NOT_TRUTHY [9999]).1.instructions.length
                = cs.instructions.length + codeC.length + 3 := by
              rw [hI2]
              simp only [List.length_append, List.length_cons, List.length_nil,
                hc1len]
            have hc3len : c3.instructions.length
                = cs.instructions.length + codeC.length + 3 + codeT.length := by
              rw [hI3]
              simp only [List.length_append, List.length_cons, List.length_nil,
                hc1len]
              omega
            have hGT := hgT (by omega)
            rw [hbT] at hGT
            have hoT : ∃ L, offsets codeT = some L := hGT.imp fun L h => h.1
            obtain ⟨LT, hLT⟩ := hoT
            have ho8 : offsets [8, (cs.instructions.length + codeC.length + 3
                  + codeT.length + 3) / 256 % 256,
                (cs.instructions.length + codeC.length + 3 + codeT.length + 3) % 256]
                = some [0, 3] := offsets_op3 _ _ _ rfl
            have ho9 : offsets [9, (cs.instructions.length + codeC.length + 3
                  + codeT.length + 3 + 3) / 256 % 256,
                (cs.instructions.length + codeC.length + 3 + codeT.length + 3 + 3)
                  % 256]
                = some [0, 3] := offsets_op3 _ _ _ rfl
            have ho0 : offsets [0, c3.constants.length / 256 % 256,
                c3.constants.length % 256] = some [0, 3] := offsets_op3 _ _ _ rfl
            have hG4 : GoodChunk
                (cs.instructions.length + codeC.length + 3 + codeT.length)
                ([9, (cs.instructions.length + codeC.length + 3 + codeT.length + 3 + 3)
                    / 256 % 256,
                  (cs.instructions.length + codeC.length + 3 + codeT.length + 3 + 3)
                    % 256]
                ++ [0, c3.constants.length / 256 % 256, c3.constants.length % 256]) := by
              refine JumpsInto_mono (JumpsInto_append
                (JumpsInto_jump _ 6 9 _ _ (Or.inr rfl) ?_)
                (JumpsInto_nonjump3 _ (fun _ => False) 0 _ _ rfl (by decide)
                  (by decide))) ?_
              · rw [u16_round (show cs.instructions.length + codeC.length + 3
                    + codeT.length + 3 + 3 ≤ 65535 by omega)]
              · intro t ht
                rcases ht with ht | ⟨u, hF, _⟩
                · subst ht
                  exact Bnd_end ⟨_, offsets_append ho9 ho0⟩
                · exact hF.elim
            have hG3 : GoodChunk (cs.instructions.length + codeC.length + 3)
                (codeT
                ++ ([9, (cs.instructions.length + codeC.length + 3 + codeT.length
                      + 3 + 3) / 256 % 256,
                    (cs.instructions.length + codeC.length + 3 + codeT.length + 3 + 3)
                      % 256]
                ++ [0, c3.constants.length / 256 % 256, c3.constants.length % 256])) :=
              GoodChunk_append hGT hG4
            have hG2 : GoodChunk (cs.instructions.length + codeC.length)
                ([8, (cs.instructions.length + codeC.length + 3 + codeT.length + 3)
                    / 256 % 256,
                  (cs.instructions.length + codeC.length + 3 + codeT.length + 3)
                    % 256]
                ++ (codeT
                ++ ([9, (cs.instructions.length + codeC.length + 3 + codeT.length
                      + 3 + 3) / 256 % 256,
                    (cs.instructions.length + codeC.length + 3 + codeT.length + 3 + 3)
                      % 256]
                ++ [0, c3.constants.length / 256 % 256,
                    c3.constants.length % 256]))) := by
              refine JumpsInto_mono (JumpsInto_append
                (JumpsInto_jump _ (3 + (codeT.length + 3)) 8 _ _ (Or.inl rfl) ?_)
                hG3) ?_
              · rw [u16_round (show cs.instructions.length + codeC.length + 3
                    + codeT.length + 3 ≤ 65535 by omega)]
                omega
              · intro t ht
                rcases ht with ht | ⟨u, hu, rfl⟩
                · subst ht
                  have hb3 : Bnd ([9, (cs.instructions.length + codeC.length + 3
                        + codeT.length + 3 + 3) / 256 % 256,
                      (cs.instructions.length + codeC.length + 3 + codeT.length
                        + 3 + 3) % 256]
                      ++ [0, c3.constants.length / 256 % 256,
                          c3.constants.length % 256]) 3 :=
                    Bnd_append_right ⟨_, ho9⟩ (Bnd_zero ⟨_, ho0⟩)
                  have hb2 := Bnd_append_right (X := codeT) ⟨_, hLT⟩ hb3
                  exact Bnd_append_right ⟨_, ho8⟩ hb2
                · exact Bnd_append_right ⟨_, ho8⟩ hu
            exact GoodChunk_append hGC hG2
        · -- explicit alternative block
          obtain ⟨stmtsK⟩ := alt
          simp only [exprSize, blockSize] at hn
          simp only [compile_expression] at hcomp
          rcases hc1 : compile_expression c cs with msg | c1 <;> rw [hc1] at hcomp <;>
            simp only [bind, Except.bind] at hcomp
          · simp at hcomp
          rw [show c1.emit OP_JUMP_NOT_TRUTHY [9999]
              = ((c1.emit OP_JUMP_NOT_TRUTHY [9999]).1, c1.instructions.length) from rfl]
            at hcomp
          dsimp only at hcomp
          rw [compile_block_eq] at hcomp
          rcases hc3 : compile_stmt_list stmtsT (c1.emit OP_JUMP_NOT_TRUTHY [9999]).1
              with msg | c3 <;> rw [hc3] at hcomp <;>
            simp only [bind, Except.bind] at hcomp
          · simp at hcomp
          obtain ⟨hpfC, codeC, hiC, hgC⟩ := ihE c cs c1 (by omega) hc1 hpf
          obtain ⟨hpfT, codeT, hiT, hgT⟩ := ihS stmtsT _ c3 (by omega) hc3
            (popfree_emit c1 OP_JUMP_NOT_TRUTHY [9999] (by decide))
          rw [popfree_skip c3 hpfT] at hcomp
          rw [compile_block_eq] at hcomp
          rcases hcK : compile_stmt_list stmtsK
              ((c3.emit OP_JUMP [9999]).1.change_operand c1.instructions.length
                (c3.emit OP_JUMP [9999]).1.instructions.length) with msg | cK <;>
            rw [hcK] at hcomp <;> dsimp only at hcomp
          · simp at hcomp
          obtain ⟨hpfK, codeK, hiK, hgK⟩ := ihS stmtsK _ cK (by omega) hcK
            (popfree_change _ _ _
              (popfree_emit c3 OP_JUMP [9999] (by decide)))
          simp only [pure, Except.pure] at hcomp
          rw [popfree_skip cK hpfK] at hcomp
          simp only [Except.ok.injEq] at hcomp
          subst hcomp
          have hc1len : c1.instructions.length
              = cs.instructions.length + codeC.length := by
            rw [hiC]; simp
          have hI2 : (c1.emit OP_JUMP_NOT_TRUTHY [9999]).1.instructions
              = c1.instructions ++ [8, 39, 15] := by
            simp [Compiler.emit, make_jnt]
          have hI3 : c3.instructions = c1.instructions ++ 8 :: 39 :: 15 :: codeT := by
            rw [hiT, hI2]
            simp
          have hI5 : (c3.emit OP_JUMP [9999]).1.instructions
              = c1.instructions ++ 8 :: 39 :: 15 :: (codeT ++ [9, 39, 15]) := by
            simp [Compiler.emit, make_jump, hI3]
          have hacp : (c3.emit OP_JUMP [9999]).1.instructions.length
              = cs.instructions.length + codeC.length + 3 + codeT.length + 3 := by
            rw [hI5]
            simp only [List.length_append, List.length_cons, List.length_nil, hc1len]
            omega
          have hI6 := change_operand_spec (c3.emit OP_JUMP [9999]).1 c1.instructions
              8 39 15 (c3.emit OP_JUMP [9999]).1.instructions.length
              (codeT ++ [9, 39, 15]) hI5 (make_jnt _)
          rw [hacp] at hI6 hiK hgK
          have hjp : (c3.emit OP_JUMP [9999]).2
              = cs.instructions.length + codeC.length + 3 + codeT.length := by
            show c3.instructions.length = _
            rw [hI3]
            simp only [List.length_append, List.length_cons, List.length_nil, hc1len]
            omega
          have hb : cK.instructions.length
              = cs.instructions.length + codeC.length + 3 + codeT.length + 3
                + codeK.length := by
            rw [hiK, hI6]
            simp only [List.length_append, List.length_cons, List.length_nil, hc1len]
            omega
          rw [hjp, hb]
          have hins2 : cK.instructions
              = (c1.instructions ++ 8
                  :: ((cs.instructions.length + codeC.length + 3 + codeT.length + 3)
                    / 256 % 256)
                  :: ((cs.instructions.length + codeC.length + 3 + codeT.length + 3)
                    % 256)
                  :: codeT) ++ 9 :: 39 :: 15 :: codeK := by
            rw [hiK, hI6]
            simp
          have hfin := change_operand_spec2 cK
              (c1.instructions ++ 8
                :: ((cs.instructions.length + codeC.length + 3 + codeT.length + 3)
                  / 256 % 256)
                :: ((cs.instructions.length + codeC.length + 3 + codeT.length + 3)
                  % 256)
                :: codeT) 9 39 15
              (cs.instructions.length + codeC.length + 3 + codeT.length + 3
                + codeK.length)
              (cs.instructions.length + codeC.length + 3 + codeT.length) codeK hins2
              (by
                simp only [List.length_append, List.length_cons, List.length_nil,
                  hc1len]
                omega)
              (make_jump _)
          refine ⟨popfree_change _ _ _ hpfK,
            codeC
              ++ ([8, (cs.instructions.length + codeC.length + 3 + codeT.length + 3)
                    / 256 % 256,
                   (cs.instructions.length + codeC.length + 3 + codeT.length + 3)
                    % 256]
              ++ (codeT
              ++ ([9, (cs.instructions.length + codeC.length + 3 + codeT.length + 3
                        + codeK.length) / 256 % 256,
                   (cs.instructions.length + codeC.length + 3 + codeT.length + 3
                        + codeK.length) % 256]
              ++ codeK))), ?_, ?_⟩
          · rw [hfin, hiC]
            simp
          · intro hlen
            rw [hfin] at hlen
            simp only [List.length_append, List.length_cons, List.length_nil, hc1len]
              at hlen
            have hFL : cs.instructions.length + codeC.length + 3 + codeT.length + 3
                + codeK.length ≤ 65535 := by omega
            have hGC : GoodChunk cs.instructions.length codeC := hgC (by omega)
            have hbT : (c1.emit OP_JUMP_NOT_TRUTHY [9999]).1.instructions.length
                = cs.instructions.length + codeC.length + 3 := by
              rw [hI2]
              simp only [List.length_append, List.length_cons, List.length_nil,
                hc1len]
            have hc3len : c3.instructions.length
                = cs.instructions.length + codeC.length + 3 + codeT.length := by
              rw [hI3]
              simp only [List.length_append, List.length_cons, List.length_nil,
                hc1len]
              omega
            have hGT := hgT (by omega)
            rw [hbT] at hGT
            have hbK : ((c3.emit OP_JUMP [9999]).1.change_operand
                  c1.instructions.length
                  (cs.instructions.length + codeC.length + 3 + codeT.length
                    + 3)).instructions.length
                = cs.instructions.length + codeC.length + 3 + codeT.length + 3 := by
              rw [hI6]
              simp only [List.length_append, List.length_cons, List.length_nil,
                hc1len]
              omega
            have hGK := hgK (by omega)
            rw [hbK] at hGK
            have hoT : ∃ L, offsets codeT = some L := hGT.imp fun L h => h.1
            obtain ⟨LT, hLT⟩ := hoT
            have hoK : ∃ L, offsets codeK = some L := hGK.imp fun L h => h.1
            obtain ⟨LK, hLK⟩ := hoK
            have ho8 : offsets [8, (cs.instructions.length + codeC.length + 3
                  + codeT.length + 3) / 256 % 256,
                (cs.instructions.length + codeC.length + 3 + codeT.length + 3) % 256]
                = some [0, 3] := offsets_op3 _ _ _ rfl
            have ho9 : offsets [9, (cs.instructions.length + codeC.length + 3
                  + codeT.length + 3 + codeK.length) / 256 % 256,
                (cs.instructions.length + codeC.length + 3 + codeT.length + 3
                  + codeK.length) % 256]
                = some [0, 3] := offsets_op3 _ _ _ rfl
            have hG4 : GoodChunk
                (cs.instructions.length + codeC.length + 3 + codeT.length)
                ([9, (cs.instructions.length + codeC.length + 3 + codeT.length + 3
                      + codeK.length) / 256 % 256,
                  (cs.instructions.length + codeC.length + 3 + codeT.length + 3
                      + codeK.length) % 256]
                ++ codeK) := by
              refine JumpsInto_mono (JumpsInto_append
                (JumpsInto_jump _ (3 + codeK.length) 9 _ _ (Or.inr rfl) ?_)
                hGK) ?_
              · rw [u16_round (show cs.instructions.length + codeC.length + 3
                    + codeT.length + 3 + codeK.length ≤ 65535 by omega)]
                omega
              · intro t ht
                rcases ht with ht | ⟨u, hu, rfl⟩
                · subst ht
                  have hx : (([9, (cs.instructions.length + codeC.length + 3
                        + codeT.length + 3 + codeK.length) / 256 % 256,
                      (cs.instructions.length + codeC.length + 3 + codeT.length + 3
                        + codeK.length) % 256] : List Nat) ++ codeK).length
                      = 3 + codeK.length := by
                    simp
                    omega
                  rw [← hx]
                  exact Bnd_end ⟨_, offsets_append ho9 hLK⟩
                · exact Bnd_append_right ⟨_, ho9⟩ hu
            have hG3 : GoodChunk (cs.instructions.length + codeC.length + 3)
                (codeT
                ++ ([9, (cs.instructions.length + codeC.length + 3 + codeT.length + 3
                        + codeK.length) / 256 % 256,
                    (cs.instructions.length + codeC.length + 3 + codeT.length + 3
                        + codeK.length) % 256]
                ++ codeK)) :=
              GoodChunk_append hGT hG4
            have hG2 : GoodChunk (cs.instructions.length + codeC.length)
                ([8, (cs.instructions.length + codeC.length + 3 + codeT.length + 3)
                    / 256 % 256,
                  (cs.instructions.length + codeC.length + 3 + codeT.length + 3)
                    % 256]
                ++ (codeT
                ++ ([9, (cs.instructions.length + codeC.length + 3 + codeT.length + 3
                        + codeK.length) / 256 % 256,
                    (cs.instructions.length + codeC.length + 3 + codeT.length + 3
                        + codeK.length) % 256]
                ++ codeK))) := by
              refine JumpsInto_mono (JumpsInto_append
                (JumpsInto_jump _ (3 + (codeT.length + 3)) 8 _ _ (Or.inl rfl) ?_)
                hG3) ?_
              · rw [u16_round (show cs.instructions.length + codeC.length + 3
                    + codeT.length + 3 ≤ 65535 by omega)]
                omega
              · intro t ht
                rcases ht with ht | ⟨u, hu, rfl⟩
                · subst ht
                  have hb3 : Bnd ([9, (cs.instructions.length + codeC.length + 3
                        + codeT.length + 3 + codeK.length) / 256 % 256,
                      (cs.instructions.length + codeC.length + 3 + codeT.length + 3
                        + codeK.length) % 256]
                      ++ codeK) 3 :=
                    Bnd_append_right ⟨_, ho9⟩ (Bnd_zero ⟨_, hLK⟩)
                  have hb2 := Bnd_append_right (X := codeT) ⟨_, hLT⟩ hb3
                  exact Bnd_append_right ⟨_, ho8⟩ hb2
                · exact Bnd_append_right ⟨_, ho8⟩ hu
            exact GoodChunk_append hGC hG2
      | .Prefix _ _ | .StringLiteral _ | .FunctionLiteral _ _ | .Call _ _
      | .ArrayLiteral _ | .IndexExpression _ _ | .While _ _ | .HashLiteral _ =>
        simp only [compile_expression] at hcomp
        exact absurd hcomp (by simp)
    · -- statement lists
      intro stmts cs cs' hn hcomp hpf
      match stmts with
      | [] =>
        simp only [compile_stmt_list, pure, Except.pure, Except.ok.injEq] at hcomp
        subst hcomp
        exact ⟨hpf, [], by simp, fun _ => GoodChunk_nil _⟩
      | stmt :: rest =>
        simp only [compile_stmt_list] at hcomp
        rcases hs1 : compile_statement stmt cs with msg | cs1 <;> rw [hs1] at hcomp <;>
          simp only [bind, Except.bind] at hcomp
        · simp at hcomp
        match stmt with
        | .Expression e =>
          simp only [compile_statement] at hs1
          simp only [stmtListSize, stmtSize] at hn
          obtain ⟨hpfV, codeV, hiV, hgV⟩ := ihE e cs cs1 (by omega) hs1 hpf
          obtain ⟨hpfR, codeR, hiR, hgR⟩ := ihS rest cs1 cs' (by omega) hcomp hpfV
          refine ⟨hpfR, codeV ++ codeR, by rw [hiR, hiV]; simp, ?_⟩
          intro hlen
          have eV : cs1.instructions.length
              = cs.instructions.length + codeV.length := by rw [hiV]; simp
          have eR : cs'.instructions.length
              = cs1.instructions.length + codeR.length := by rw [hiR]; simp
          refine GoodChunk_append (hgV (by omega)) ?_
          rw [← eV]
          exact hgR (by omega)
        | .Let name value =>
          simp only [compile_statement] at hs1
          rcases hcv : compile_expression value cs with msg | c1 <;> rw [hcv] at hs1 <;>
            simp only [bind, Except.bind] at hs1
          · simp at hs1
          simp only [SymbolTable.define] at hs1
          simp only [pure, Except.pure, Except.ok.injEq] at hs1
          subst hs1
          simp only [stmtListSize, stmtSize] at hn
          obtain ⟨hpfV, codeV, hiV, hgV⟩ := ihE value cs c1 (by omega) hcv hpf
          obtain ⟨hpfR, codeR, hiR, hgR⟩ := ihS rest _ cs' (by omega) hcomp
            (popfree_emit _ OP_SET_GLOBAL _ (by decide))
          rw [emit_instructions] at hiR hgR
          dsimp only at hiR hgR
          rw [make_setg] at hiR hgR
          refine ⟨hpfR, codeV
              ++ ([11, c1.symbol_table.num_definitions / 256 % 256,
                   c1.symbol_table.num_definitions % 256] ++ codeR), ?_, ?_⟩
          · rw [hiR, hiV]
            simp
          · intro hlen
            have hGR := hgR hlen
            rw [hiR] at hlen
            simp only [List.length_append, List.length_cons, List.length_nil] at hlen
            have eV : c1.instructions.length
                = cs.instructions.length + codeV.length := by rw [hiV]; simp
            refine GoodChunk_append (hgV (by omega)) ?_
            rw [← eV]
            refine GoodChunk_append
              (GoodChunk_op3 _ 11 _ _ rfl (by decide) (by decide)) ?_
            have hB : (c1.instructions
                ++ [11, c1.symbol_table.num_definitions / 256 % 256,
                    c1.symbol_table.num_definitions % 256]).length
                = c1.instructions.length + 3 := by
              simp
            rw [hB] at hGR
            exact hGR
        | .Return v =>
          simp only [compile_statement] at hs1
          exact absurd hs1 (by simp)
        | .Assign nm v =>
          simp only [compile_statement] at hs1
          exact absurd hs1 (by simp)

/-- C6 (amended): for every program the compiler accepts whose emitted
stream is at most 65535 bytes, every OpJump/OpJumpNotTruthy opcode at an
instruction boundary carries an operand that is again an instruction
boundary of the stream (possibly its end). -/
theorem C6_amended (stmts : List Statement) (cs : Compiler)
    (hcomp : compile_program stmts = .ok cs)
    (hlen : cs.instructions.length ≤ 65535) :
    JumpTargetsOk cs.instructions := by
  have hpf0 : popfree Compiler.new := rfl
  obtain ⟨hpf, code, hi, hg⟩ :=
    (compile_targets (stmtListSize stmts)).2 stmts Compiler.new cs le_rfl hcomp hpf0
  have hcode : cs.instructions = code := by rw [hi]; rfl
  have hG : GoodChunk 0 code := hg hlen
  obtain ⟨B, hB, hprop⟩ := hG
  rw [hcode]
  refine ⟨B, hB, ?_⟩
  intro j hj op hop hjmp b0 b1 h0 h1
  obtain ⟨t, ht, hBt⟩ := hprop j hj op hop hjmp b0 b1 h0 h1
  obtain ⟨B2, hB2, htmem⟩ := hBt
  have hBB : B2 = B := by
    rw [hB] at hB2
    exact ((Option.some.injEq _ _).mp hB2).symm
  rw [ht, Nat.zero_add]
  rw [hBB] at htmem
  exact htmem

/-- A concrete instance of C6_amended: the compiled
`if (true) { 10 } else { 20 }` satisfies the jump-target invariant. -/
theorem C6_witness :
    compile_program C1prog = .ok C1compiled
    ∧ C1compiled.instructions.length ≤ 65535
    ∧ JumpTargetsOk C1compiled.instructions :=
  ⟨rfl, by decide, C6_amended C1prog C1compiled rfl (by decide)⟩

end Flux
